import Mathlib

/-!
# A shallow embedding of the order book of `main.cpp`

The C++ program keeps a single-instrument limit order book: two price-ordered
maps from price to a vector of orders (`mBids`, `mAsks`) and a map from order
id to a finder and a price (`mOrderFinders`).  The definitions below follow the
member functions of `struct OrderBook` one by one.

* a `std::map` is a list of key/value pairs kept in the order of its
  comparator; `mapFind`, `mapErase` and `mapInsert` are `find`/`at`, `erase`
  and `operator[]` assignment;
* a `std::vector<Order>` is a `List Order`;
* a loop over iterators is a structural recursion over the part of the
  container that has not been visited yet, carrying the visited part and the
  position of the "end of the fully matched elements" iterator;
* `uint64_t` fields are natural numbers; the one arithmetic operation of the
  book, `-=`, is `sub64`;
* the text written to `std::cout` by `printMatch` is a list of `Trade` records.
-/

namespace MatchingEngine

/-! ## Data model -/

/-- The struct `Order`. -/
structure Order where
  Side : String
  TimeInForce : String
  Price : Nat
  Quantity : Nat
  ID : String
deriving DecidableEq

/-- One line written by `printMatch`:
`TRADE bookID bookPrice matchSize newID newPrice matchSize`. -/
structure Trade where
  bookID : String
  bookPrice : Nat
  bookQuantity : Nat
  newID : String
  newPrice : Nat
  newQuantity : Nat
deriving DecidableEq

/-- The two values a `order_finder_t` takes in the program:
`&OrderBook::bidOrderFinder` and `&OrderBook::askOrderFinder`. -/
inductive OrderFinder where
  | bid
  | ask
deriving DecidableEq

/-- The type `order_vector_t`. -/
abbrev order_vector_t := List Order

/-- The types `bid_book_t` and `ask_book_t`: the entries of the map in
iteration order (descending prices for bids, ascending prices for asks). -/
abbrev book_t := List (Nat × order_vector_t)

/-- The type `order_map_t`. -/
abbrev order_map_t := List (String × (OrderFinder × Nat))

/-- The data members of `struct OrderBook`. -/
structure OrderBook where
  mBids : book_t
  mAsks : book_t
  mOrderFinders : order_map_t
deriving DecidableEq

/-- The constructor `OrderBook()`. -/
def OrderBook.empty : OrderBook := { mBids := [], mAsks := [], mOrderFinders := [] }

/-- What a member function that can fail produces: a normal return, a
`std::out_of_range` leaving the function (with the book as it is at the
throw), or undefined behaviour (an end iterator is dereferenced). -/
inductive Outcome (α : Type) where
  | ok (value : α)
  | outOfRange (book : OrderBook)
  | undefined
deriving DecidableEq

/-! ## Ordered maps -/

/-- The comparator `std::greater<price_t>` of `bid_book_t`. -/
def bidLess (a b : Nat) : Bool := decide (b < a)

/-- The comparator `std::less<price_t>` of `ask_book_t`. -/
def askLess (a b : Nat) : Bool := decide (a < b)

/-- Lexicographic comparison of two character sequences, as
`std::string::compare` does it. -/
def charsLess : List Char → List Char → Bool
  | _, [] => false
  | [], _ :: _ => true
  | a :: as, b :: bs =>
    if a.toNat < b.toNat then true
    else if b.toNat < a.toNat then false
    else charsLess as bs

/-- The comparator `std::less<std::string>` of `order_map_t`. -/
def idLess (a b : String) : Bool := charsLess a.toList b.toList

/-- Lookup `std::map::find` / `std::map::at`. -/
def mapFind {K V : Type} [DecidableEq K] (k : K) : List (K × V) → Option V
  | [] => none
  | (k', v) :: rest => if k' = k then some v else mapFind k rest

/-- Removal `std::map::erase(key)`. -/
def mapErase {K V : Type} [DecidableEq K] (k : K) : List (K × V) → List (K × V)
  | [] => []
  | (k', v) :: rest => if k' = k then rest else (k', v) :: mapErase k rest

/-- Assignment `map[k] = v`: replaces the value of an existing key, or puts a
new entry at the place the comparator gives it. -/
def mapInsert {K V : Type} [DecidableEq K] (less : K → K → Bool) (k : K) (v : V) :
    List (K × V) → List (K × V)
  | [] => [(k, v)]
  | (k', v') :: rest =>
    if k' = k then (k, v) :: rest
    else if less k k' then (k, v) :: (k', v') :: rest
    else (k', v') :: mapInsert less k v rest

/-- The statement `book[price].push_back(order)`: `operator[]` creates an empty
vector when the key is absent. -/
def pushBackAt (less : Nat → Nat → Bool) (price : Nat) (order : Order) (book : book_t) : book_t :=
  mapInsert less price ((mapFind price book).getD [] ++ [order]) book

/-! ## Arithmetic and text -/

/-- Subtraction of `uint64_t` values: for operands below `2 ^ 64` this is
`(a - b) mod 2 ^ 64`. -/
def sub64 (a b : Nat) : Nat := if b ≤ a then a - b else a + 2 ^ 64 - b

/-- Whitespace skipped by a formatted input function. -/
def isSpaceChar (c : Char) : Bool :=
  c = ' ' || c = '\t' || c = '\n' || c = '\r' || c.toNat = 11 || c.toNat = 12

/-- The value of a run of decimal digits, and how many characters were read. -/
def readDigits : List Char → Nat → Nat → Nat × Nat
  | [], acc, n => (acc, n)
  | c :: cs, acc, n =>
    if c.isDigit then readDigits cs (acc * 10 + (c.toNat - 48)) (n + 1) else (acc, n)

/-- The token ends within its leading whitespace: the `sentry` of a formatted
input function fails on it. -/
def blankToken (token : String) : Bool := (token.toList.dropWhile isSpaceChar).isEmpty

/-- The statement `std::stringstream(token) >> value` for a `uint64_t` variable,
as a function of the token and of the value the variable holds before the
statement (C++11 rules of the `sentry` and of `num_get`): leading whitespace is
skipped; when the token ends there the extraction fails at the sentry and the
variable keeps its value; else a sign is accepted and the longest run of
digits is read; with no digit the variable becomes 0, a value that does not
fit becomes `2 ^ 64 - 1`, and a leading minus negates modulo `2 ^ 64`. -/
def readUInt64 (token : String) (value : Nat) : Nat :=
  let cs := token.toList.dropWhile isSpaceChar
  let negative := cs.head? = some '-'
  let body := if cs.head? = some '-' ∨ cs.head? = some '+' then cs.tail else cs
  let r := readDigits body 0 0
  if cs.isEmpty then value
  else if r.2 = 0 then 0
  else if 2 ^ 64 ≤ r.1 then 2 ^ 64 - 1
  else if negative then (2 ^ 64 - r.1) % 2 ^ 64
  else r.1

/-- The function `printMatch`: the book order comes first. -/
def printMatch (bookOrder newOrder : Order) (matchSize : Nat) : Trade :=
  { bookID := bookOrder.ID, bookPrice := bookOrder.Price, bookQuantity := matchSize,
    newID := newOrder.ID, newPrice := newOrder.Price, newQuantity := matchSize }

/-! ## Matching -/

/-- The result of `matchOrder`: the new order, the book level and the order
finders after the call, and the trades printed. -/
structure MatchResult where
  newOrder : Order
  bookLevel : order_vector_t
  finders : order_map_t
  trades : List Trade
deriving DecidableEq

/-- The `for` loop of `matchOrder`.  `visited` holds the elements before
`iter` (as they are after their match), the last argument the elements from
`iter` on, and `lastFullyMatchedEnd` is the position of
`lastFullyMatchedEndIter`.  The result carries the whole vector and that
position at the exit of the loop. -/
def matchOrderLoop (newOrder : Order) (finders : order_map_t) (trades : List Trade)
    (visited : order_vector_t) (lastFullyMatchedEnd : Nat) :
    order_vector_t → MatchResult × Nat
  | [] => ({ newOrder := newOrder, bookLevel := visited, finders := finders, trades := trades },
           lastFullyMatchedEnd)
  | bookOrder :: rest =>
    let matchSize :=
      if bookOrder.Quantity ≥ newOrder.Quantity then newOrder.Quantity else bookOrder.Quantity
    let trades1 := trades ++ [printMatch bookOrder newOrder matchSize]
    let newOrder1 := { newOrder with Quantity := sub64 newOrder.Quantity matchSize }
    let bookOrder1 := { bookOrder with Quantity := sub64 bookOrder.Quantity matchSize }
    let finders1 := if bookOrder1.Quantity = 0 then mapErase bookOrder1.ID finders else finders
    let last1 := if bookOrder1.Quantity = 0 then visited.length + 1 else lastFullyMatchedEnd
    if newOrder1.Quantity = 0 then
      ({ newOrder := newOrder1, bookLevel := visited ++ bookOrder1 :: rest,
         finders := finders1, trades := trades1 }, last1)
    else
      matchOrderLoop newOrder1 finders1 trades1 (visited ++ [bookOrder1]) last1 rest

/-- The function `matchOrder`: the loop, then
`bookLevel.erase(bookLevel.begin(), lastFullyMatchedEndIter)`. -/
def matchOrder (newOrder : Order) (finders : order_map_t) (bookLevel : order_vector_t) :
    MatchResult :=
  let r := matchOrderLoop newOrder finders [] [] 0 bookLevel
  { r.1 with bookLevel := r.1.bookLevel.drop r.2 }

/-- The lambda `newOrderWillMatchBook` chosen by `tryMatchOrder`. -/
def newOrderWillMatchBook (newOrder : Order) (n b : Nat) : Bool :=
  if newOrder.Side = "BUY" then decide (n ≥ b) else decide (n ≤ b)

/-- The result of `tryMatchOrder`: the new order, the book side and the order
finders after the call, and the trades printed. -/
structure TryMatchResult where
  newOrder : Order
  bookSide : book_t
  finders : order_map_t
  trades : List Trade
deriving DecidableEq

/-- The `for` loop of `tryMatchOrder`.  `visited` holds the levels before
`iter`, the last argument the levels from `iter` on, and `emptyLevelsEnd` is
the position of `emptyLevelsEndIter`.  The comparison is the one chosen from
the side of the order as it was passed to `tryMatchOrder`. -/
def tryMatchOrderLoop (willMatch : Nat → Nat → Bool) (newOrder : Order) (finders : order_map_t)
    (trades : List Trade) (visited : book_t) (emptyLevelsEnd : Nat) :
    book_t → TryMatchResult × Nat
  | [] => ({ newOrder := newOrder, bookSide := visited, finders := finders, trades := trades },
           emptyLevelsEnd)
  | (levelPrice, level) :: rest =>
    if willMatch newOrder.Price levelPrice then
      let m := matchOrder newOrder finders level
      let end1 := if m.bookLevel.isEmpty then visited.length + 1 else emptyLevelsEnd
      if m.newOrder.Quantity = 0 then
        ({ newOrder := m.newOrder, bookSide := visited ++ (levelPrice, m.bookLevel) :: rest,
           finders := m.finders, trades := trades ++ m.trades }, end1)
      else
        tryMatchOrderLoop willMatch m.newOrder m.finders (trades ++ m.trades)
          (visited ++ [(levelPrice, m.bookLevel)]) end1 rest
    else
      tryMatchOrderLoop willMatch newOrder finders trades
        (visited ++ [(levelPrice, level)]) emptyLevelsEnd rest

/-- The function `tryMatchOrder`: the loop, then
`bookSide.erase(bookSide.begin(), emptyLevelsEndIter)`. -/
def tryMatchOrder (newOrder : Order) (finders : order_map_t) (bookSide : book_t) :
    TryMatchResult :=
  let r := tryMatchOrderLoop (newOrderWillMatchBook newOrder) newOrder finders [] [] 0 bookSide
  { r.1 with bookSide := r.1.bookSide.drop r.2 }

/-! ## Public operations -/

/-- The function `processNewBuyOrder`, with the trades it prints. -/
def processNewBuyOrder (book : OrderBook) (newOrder : Order) : OrderBook × List Trade :=
  let r := tryMatchOrder newOrder book.mOrderFinders book.mAsks
  if r.newOrder.TimeInForce = "GFD" ∧ r.newOrder.Quantity > 0 then
    ({ mBids := pushBackAt bidLess r.newOrder.Price r.newOrder book.mBids,
       mAsks := r.bookSide,
       mOrderFinders :=
         mapInsert idLess r.newOrder.ID (OrderFinder.bid, r.newOrder.Price) r.finders },
     r.trades)
  else
    ({ mBids := book.mBids, mAsks := r.bookSide, mOrderFinders := r.finders }, r.trades)

/-- The function `processNewSelOrder`, with the trades it prints. -/
def processNewSelOrder (book : OrderBook) (newOrder : Order) : OrderBook × List Trade :=
  let r := tryMatchOrder newOrder book.mOrderFinders book.mBids
  if r.newOrder.TimeInForce = "GFD" ∧ r.newOrder.Quantity > 0 then
    ({ mBids := r.bookSide,
       mAsks := pushBackAt askLess r.newOrder.Price r.newOrder book.mAsks,
       mOrderFinders :=
         mapInsert idLess r.newOrder.ID (OrderFinder.ask, r.newOrder.Price) r.finders },
     r.trades)
  else
    ({ mBids := r.bookSide, mAsks := book.mAsks, mOrderFinders := r.finders }, r.trades)

/-- The function `retrieveOrderInLevelOrders`: the first order with the id is
moved out and erased; `none` when `find_if` returns `end()`, which the code
dereferences. -/
def retrieveOrderInLevelOrders : order_vector_t → String → Option (Order × order_vector_t)
  | [], _ => none
  | o :: rest, orderID =>
    if orderID = o.ID then some (o, rest)
    else
      match retrieveOrderInLevelOrders rest orderID with
      | none => none
      | some (found, rest1) => some (found, o :: rest1)

/-- The function `bidOrderFinder`.  The C++ code changes the level in place
through the reference `levelOrders`; here the changed level is stored back
under its key. -/
def bidOrderFinder (book : OrderBook) (priceLevel : Nat) (orderID : String) :
    Outcome (Order × OrderBook) :=
  match mapFind priceLevel book.mBids with
  | none => .outOfRange book
  | some levelOrders =>
    match retrieveOrderInLevelOrders levelOrders orderID with
    | none => .undefined
    | some (returnOrder, levelOrders1) =>
      if levelOrders1.isEmpty then
        .ok (returnOrder, { book with mBids := mapErase priceLevel book.mBids })
      else
        .ok (returnOrder, { book with mBids := mapInsert bidLess priceLevel levelOrders1 book.mBids })

/-- The function `askOrderFinder`.  The C++ code changes the level in place
through the reference `levelOrders`; here the changed level is stored back
under its key. -/
def askOrderFinder (book : OrderBook) (priceLevel : Nat) (orderID : String) :
    Outcome (Order × OrderBook) :=
  match mapFind priceLevel book.mAsks with
  | none => .outOfRange book
  | some levelOrders =>
    match retrieveOrderInLevelOrders levelOrders orderID with
    | none => .undefined
    | some (returnOrder, levelOrders1) =>
      if levelOrders1.isEmpty then
        .ok (returnOrder, { book with mAsks := mapErase priceLevel book.mAsks })
      else
        .ok (returnOrder, { book with mAsks := mapInsert askLess priceLevel levelOrders1 book.mAsks })

/-- The function `retrieveOrder`. -/
def retrieveOrder (book : OrderBook) (orderID : String) : Outcome (Order × OrderBook) :=
  match mapFind orderID book.mOrderFinders with
  | none => .outOfRange book
  | some (OrderFinder.bid, price) => bidOrderFinder book price orderID
  | some (OrderFinder.ask, price) => askOrderFinder book price orderID

/-- The function `processCancel`. -/
def processCancel (book : OrderBook) (orderID : String) : Outcome OrderBook :=
  if mapFind orderID book.mOrderFinders = none then .ok book
  else
    match retrieveOrder book orderID with
    | .outOfRange b => .outOfRange b
    | .undefined => .undefined
    | .ok (_, book1) =>
      .ok { book1 with mOrderFinders := mapErase orderID book1.mOrderFinders }

/-- The function `processMod`, with the trades it prints.  Each
`modMessageTokens.at(i)` may throw; the book carried by `outOfRange` is the
book at that moment. -/
def processMod (book : OrderBook) (modMessageTokens : List String) :
    Outcome (OrderBook × List Trade) :=
  match modMessageTokens.get? 1 with
  | none => .outOfRange book
  | some orderID =>
    if mapFind orderID book.mOrderFinders = none then .ok (book, [])
    else
      match retrieveOrder book orderID with
      | .outOfRange b => .outOfRange b
      | .undefined => .undefined
      | .ok (order, book1) =>
        let book2 := { book1 with mOrderFinders := mapErase order.ID book1.mOrderFinders }
        match modMessageTokens.get? 2 with
        | none => .outOfRange book2
        | some side =>
          match modMessageTokens.get? 3 with
          | none => .outOfRange book2
          | some priceToken =>
            match modMessageTokens.get? 4 with
            | none => .outOfRange book2
            | some quantityToken =>
              let order1 : Order :=
                { order with Side := side, Price := readUInt64 priceToken order.Price,
                             Quantity := readUInt64 quantityToken order.Quantity }
              if order1.Side = "BUY" then .ok (processNewBuyOrder book2 order1)
              else .ok (processNewSelOrder book2 order1)

/-- The constructor `Order(messageTokens)`; `none` when an `at` throws.  Price
and Quantity are initialised with `-1`, that is `2 ^ 64 - 1`, before the
tokens are read into them. -/
def Order.ofTokens (messageTokens : List String) : Option Order :=
  match messageTokens.get? 0, messageTokens.get? 1, messageTokens.get? 4,
        messageTokens.get? 2, messageTokens.get? 3 with
  | some side, some tif, some id, some price, some quantity =>
    some { Side := side, TimeInForce := tif, Price := readUInt64 price (2 ^ 64 - 1),
           Quantity := readUInt64 quantity (2 ^ 64 - 1), ID := id }
  | _, _, _, _, _ => none

/-! ## Properties used to state the results -/

/-- A comparator is a strict total order. -/
structure StrictOrder {K : Type} (less : K → K → Bool) : Prop where
  irrefl : ∀ a, less a a = false
  trans : ∀ a b c, less a b = true → less b c = true → less a c = true
  total : ∀ a b, a ≠ b → less a b = false → less b a = true

/-- The entries of a map are in the strict order of its comparator. -/
def KeysSorted {K V : Type} (less : K → K → Bool) (m : List (K × V)) : Prop :=
  List.Pairwise (fun a b => less a.1 b.1 = true) m

/-- The size of a match: the smaller of the two quantities, as `matchOrder`
computes it. -/
def matchSizeOf (bookOrder newOrder : Order) : Nat :=
  if bookOrder.Quantity ≥ newOrder.Quantity then newOrder.Quantity else bookOrder.Quantity

/-- The effect of `matchOrder` told by recursion on the level: the oldest order
is matched; when it is filled completely it leaves the level and the finders,
and the next order is matched as long as the new order has quantity left.
`matchOrder_eq_fillLevel` shows that `matchOrder` computes this. -/
def fillLevel (newOrder : Order) (finders : order_map_t) : order_vector_t → MatchResult
  | [] => { newOrder := newOrder, bookLevel := [], finders := finders, trades := [] }
  | bookOrder :: rest =>
    let matchSize := matchSizeOf bookOrder newOrder
    let newOrder1 := { newOrder with Quantity := sub64 newOrder.Quantity matchSize }
    let bookOrder1 := { bookOrder with Quantity := sub64 bookOrder.Quantity matchSize }
    if bookOrder1.Quantity = 0 then
      if newOrder1.Quantity = 0 then
        { newOrder := newOrder1, bookLevel := rest, finders := mapErase bookOrder.ID finders,
          trades := [printMatch bookOrder newOrder matchSize] }
      else
        let r := fillLevel newOrder1 (mapErase bookOrder.ID finders) rest
        { r with trades := printMatch bookOrder newOrder matchSize :: r.trades }
    else
      { newOrder := newOrder1, bookLevel := bookOrder1 :: rest, finders := finders,
        trades := [printMatch bookOrder newOrder matchSize] }

/-- The sum of the quantities of a list of orders. -/
def sumQuantity (orders : List Order) : Nat := (orders.map (fun o => o.Quantity)).sum

/-- The sum of the matched sizes of a list of trades. -/
def sumMatched (trades : List Trade) : Nat := (trades.map (fun t => t.bookQuantity)).sum

/-- Erasing a list of ids from the order finders, one after the other. -/
def eraseIds (ids : List String) (finders : order_map_t) : order_map_t :=
  ids.foldl (fun f id => mapErase id f) finders

/-- The trade that fills the book order completely. -/
def fullTrade (newOrder bookOrder : Order) : Trade :=
  printMatch bookOrder newOrder bookOrder.Quantity

/-- The orders of a book side, level after level. -/
def bookOrders : book_t → List Order
  | [] => []
  | (_, level) :: rest => level ++ bookOrders rest

/-- The levels that cross come first: behind a level that does not cross no
level crosses. -/
def CrossFirst (cross : Nat → Bool) : book_t → Prop
  | [] => True
  | (p, _) :: rest => (cross p = false → ∀ x ∈ rest, cross x.1 = false) ∧ CrossFirst cross rest

/-- The scan of `tryMatchOrder` told by recursion on the book side, leaving at
the first level that does not cross: a crossing level is matched; when it is
emptied it leaves the book and the scan goes on as long as the new order has
quantity left.  `tryMatchOrder_eq_earlyExitScan` shows that `tryMatchOrder`
computes this when the crossing levels come first. -/
def earlyExitScan (willMatch : Nat → Nat → Bool) (newOrder : Order) (finders : order_map_t) :
    book_t → TryMatchResult
  | [] => { newOrder := newOrder, bookSide := [], finders := finders, trades := [] }
  | (levelPrice, level) :: rest =>
    if willMatch newOrder.Price levelPrice then
      let m := matchOrder newOrder finders level
      if m.bookLevel.isEmpty then
        if m.newOrder.Quantity = 0 then
          { newOrder := m.newOrder, bookSide := rest, finders := m.finders, trades := m.trades }
        else
          let r := earlyExitScan willMatch m.newOrder m.finders rest
          { r with trades := m.trades ++ r.trades }
      else
        { newOrder := m.newOrder, bookSide := (levelPrice, m.bookLevel) :: rest,
          finders := m.finders, trades := m.trades }
    else
      { newOrder := newOrder, bookSide := (levelPrice, level) :: rest, finders := finders,
        trades := [] }

/-- No key of the book side maps to an empty vector. -/
def LevelsNonEmpty (book : book_t) : Prop := ∀ x ∈ book, x.2 ≠ []

/-- Every order stored in the book side has a positive quantity. -/
def QuantitiesPositive (book : book_t) : Prop := ∀ x ∈ book, ∀ o ∈ x.2, 0 < o.Quantity

/-- Every bid price is below every ask price. -/
def NoCross (s : OrderBook) : Prop := ∀ b ∈ s.mBids, ∀ a ∈ s.mAsks, b.1 < a.1

/-- The function `checkForCrossedBook`: `true` when it throws. -/
def checkForCrossedBook (s : OrderBook) : Bool :=
  match s.mBids, s.mAsks with
  | (bestBid, _) :: _, (bestAsk, _) :: _ => decide (bestAsk ≤ bestBid)
  | _, _ => false

/-- The function `checkForZeroSize`: `true` when it throws. -/
def checkForZeroSize (bookSide : book_t) : Bool :=
  bookSide.any (fun kv => kv.2.any (fun o => decide (o.Quantity = 0)))

/-- The function `checkForZeroSizeOrders`: `true` when it throws. -/
def checkForZeroSizeOrders (s : OrderBook) : Bool :=
  checkForZeroSize s.mBids || checkForZeroSize s.mAsks

/-- The states of the book after a finite sequence of calls of the public
member functions, starting from the empty book, where a buy order goes to
`processNewBuyOrder` and any other order to `processNewSelOrder` (as
`processOrderMessage` and `processMod` call them).  A call that throws
`std::out_of_range` leaves the book as it is at the throw. -/
inductive Reachable : OrderBook → Prop where
  | empty : Reachable OrderBook.empty
  | newBuy (s : OrderBook) (o : Order) :
      Reachable s → o.Side = "BUY" → Reachable (processNewBuyOrder s o).1
  | newSel (s : OrderBook) (o : Order) :
      Reachable s → o.Side ≠ "BUY" → Reachable (processNewSelOrder s o).1
  | cancel (s : OrderBook) (orderID : String) (s1 : OrderBook) :
      Reachable s → processCancel s orderID = Outcome.ok s1 → Reachable s1
  | mod (s : OrderBook) (tokens : List String) (s1 : OrderBook) (trades : List Trade) :
      Reachable s → processMod s tokens = Outcome.ok (s1, trades) → Reachable s1
  | cancelThrows (s : OrderBook) (orderID : String) (s1 : OrderBook) :
      Reachable s → processCancel s orderID = Outcome.outOfRange s1 → Reachable s1
  | modThrows (s : OrderBook) (tokens : List String) (s1 : OrderBook) :
      Reachable s → processMod s tokens = Outcome.outOfRange s1 → Reachable s1

/-- The states of the book after a finite sequence of calls of the public
member functions with any arguments, starting from the empty book.  A call
that throws `std::out_of_range` leaves the book as it is at the throw. -/
inductive ReachablePublic : OrderBook → Prop where
  | empty : ReachablePublic OrderBook.empty
  | newBuy (s : OrderBook) (o : Order) :
      ReachablePublic s → ReachablePublic (processNewBuyOrder s o).1
  | newSel (s : OrderBook) (o : Order) :
      ReachablePublic s → ReachablePublic (processNewSelOrder s o).1
  | cancel (s : OrderBook) (orderID : String) (s1 : OrderBook) :
      ReachablePublic s → processCancel s orderID = Outcome.ok s1 → ReachablePublic s1
  | mod (s : OrderBook) (tokens : List String) (s1 : OrderBook) (trades : List Trade) :
      ReachablePublic s → processMod s tokens = Outcome.ok (s1, trades) → ReachablePublic s1
  | cancelThrows (s : OrderBook) (orderID : String) (s1 : OrderBook) :
      ReachablePublic s → processCancel s orderID = Outcome.outOfRange s1 → ReachablePublic s1
  | modThrows (s : OrderBook) (tokens : List String) (s1 : OrderBook) :
      ReachablePublic s → processMod s tokens = Outcome.outOfRange s1 → ReachablePublic s1

/-- The shape every reachable book has: both sides in the order of their
comparators, no level empty, and every bid price below every ask price. -/
structure BookInv (s : OrderBook) : Prop where
  bidsSorted : KeysSorted bidLess s.mBids
  asksSorted : KeysSorted askLess s.mAsks
  bidsNonEmpty : LevelsNonEmpty s.mBids
  asksNonEmpty : LevelsNonEmpty s.mAsks
  noCross : NoCross s

/-- What `bidOrderFinder` and `askOrderFinder` do to the side they search. -/
def sideAfterRetrieve (less : Nat → Nat → Bool) (priceLevel : Nat) (levelOrders1 : order_vector_t)
    (side : book_t) : book_t :=
  if levelOrders1.isEmpty then mapErase priceLevel side
  else mapInsert less priceLevel levelOrders1 side

/-- The level `l` comes from the level `l0` by fills and removals at its
front: orders of `l0` are gone from the front, and the first order that is left
may have a smaller, still positive, quantity. -/
def FilledFrom (l0 l : order_vector_t) : Prop :=
  (∃ full, l0 = full ++ l)
  ∨ (∃ full b rest q, l0 = full ++ b :: rest ∧ 0 < q ∧ q ≤ b.Quantity
      ∧ l = { b with Quantity := q } :: rest)

/-! ## Example books -/

/-- The order of the message `BUY GFD 10 200 order2`. -/
def exampleBuy : Order :=
  { Side := "BUY", TimeInForce := "GFD", Price := 10, Quantity := 200, ID := "order2" }

/-- The order of the message `SELL GFD 12 100 order3`. -/
def exampleSell : Order :=
  { Side := "SELL", TimeInForce := "GFD", Price := 12, Quantity := 100, ID := "order3" }

/-- The book after `BUY GFD 10 200 order2` and `SELL GFD 12 100 order3`: one
bid level at 10 and one ask level at 12. -/
def exampleBook : OrderBook :=
  (processNewSelOrder (processNewBuyOrder OrderBook.empty exampleBuy).1 exampleSell).1

/-- The order of `SELL GFD 10 50 s1`. -/
def exampleS1 : Order :=
  { Side := "SELL", TimeInForce := "GFD", Price := 10, Quantity := 50, ID := "s1" }

/-- The order of `SELL GFD 10 50 s2`. -/
def exampleS2 : Order :=
  { Side := "SELL", TimeInForce := "GFD", Price := 10, Quantity := 50, ID := "s2" }

/-- The order of `BUY GFD 10 60 b1`. -/
def exampleB60 : Order :=
  { Side := "BUY", TimeInForce := "GFD", Price := 10, Quantity := 60, ID := "b1" }

/-- The side of the book a finder searches. -/
def finderSide (s : OrderBook) : OrderFinder → book_t
  | OrderFinder.bid => s.mBids
  | OrderFinder.ask => s.mAsks

/-- Every entry of the order finders names a level of its side that holds an
order with the id of the entry. -/
def FindersStored (s : OrderBook) : Prop :=
  ∀ id fd p, mapFind id s.mOrderFinders = some (fd, p) →
    ∃ lvl, mapFind p (finderSide s fd) = some lvl ∧ ∃ o ∈ lvl, o.ID = id

/-- A test of `FindersStored` that can be run. -/
def findersStoredCheck (s : OrderBook) : Bool :=
  s.mOrderFinders.all (fun e =>
    ((mapFind e.2.2 (finderSide s e.2.1)).getD []).any (fun o => decide (o.ID = e.1)))

/-- The order of the message `BUY GFD 10 50 order4`. -/
def exampleBuy4 : Order :=
  { Side := "BUY", TimeInForce := "GFD", Price := 10, Quantity := 50, ID := "order4" }

/-- The order of the message `SELL GFD 12 70 order5`. -/
def exampleSell5 : Order :=
  { Side := "SELL", TimeInForce := "GFD", Price := 12, Quantity := 70, ID := "order5" }

/-- The order of the message `BUY IOC 12 150 order6`. -/
def exampleBuy6 : Order :=
  { Side := "BUY", TimeInForce := "IOC", Price := 12, Quantity := 150, ID := "order6" }

/-- The order of the message `SELL GFD 10 200 order7`. -/
def exampleSell7 : Order :=
  { Side := "SELL", TimeInForce := "GFD", Price := 10, Quantity := 200, ID := "order7" }

/-- The book of `main` before its `MODIFY`: after `BUY GFD 11 100 order1` and
`BUY GFD 10 200 order2`. -/
def mainBook : OrderBook :=
  (processNewBuyOrder
    (processNewBuyOrder OrderBook.empty
      { Side := "BUY", TimeInForce := "GFD", Price := 11, Quantity := 100, ID := "order1" }).1
    exampleBuy).1

/-- The trades `ts` are what matching the resting orders `hit`, one after the
other, gives to a new order `n` with `q` left: each trade is against the next
resting order, its size is the smaller of that order's quantity and what is
left of the new order at that moment, and what is left shrinks by the size. -/
def MinFills (n : Order) : Nat → List Order → List Trade → Prop
  | _, [], [] => True
  | q, b :: bs, t :: ts =>
    t = printMatch b n (min b.Quantity q) ∧ MinFills n (q - min b.Quantity q) bs ts
  | _, _, _ => False

/-- The book after `SELL GFD 5 10 a` and `SELL GFD 20 10 b`: two ask levels. -/
def twoAskBook : OrderBook :=
  (processNewSelOrder
    (processNewSelOrder OrderBook.empty
      { Side := "SELL", TimeInForce := "GFD", Price := 5, Quantity := 10, ID := "a" }).1
    { Side := "SELL", TimeInForce := "GFD", Price := 20, Quantity := 10, ID := "b" }).1

/-- An order whose Side is "SELL", to be handed to `processNewBuyOrder`. -/
def wrongSideOrder : Order :=
  { Side := "SELL", TimeInForce := "IOC", Price := 10, Quantity := 15, ID := "c" }

/-- Every order stored in the book side has the price of its level. -/
def PriceKeyed (book : book_t) : Prop := ∀ x ∈ book, ∀ o ∈ x.2, o.Price = x.1

/-- The book after `SELL GFD 10 50 s1` and `SELL GFD 10 50 s2`: one ask level
with two orders. -/
def twoSellBook : OrderBook :=
  (processNewSelOrder (processNewSelOrder OrderBook.empty exampleS1).1 exampleS2).1

/-- The order of the message `BUY GFD 20 15 d`. -/
def exampleBuy8 : Order :=
  { Side := "BUY", TimeInForce := "GFD", Price := 20, Quantity := 15, ID := "d" }

/-- The order of the message `SELL GFD 10 150 e`. -/
def exampleSell9 : Order :=
  { Side := "SELL", TimeInForce := "GFD", Price := 10, Quantity := 150, ID := "e" }

/-- The ids of the orders resting in the book. -/
def restingIds (s : OrderBook) : List String :=
  (bookOrders s.mBids ++ bookOrders s.mAsks).map (fun o => o.ID)

/-- The finder entries that the orders of a book side call for: for each
stored order its id, the finder of the side and the price of its level. -/
def sideEntries (fd : OrderFinder) : book_t → order_map_t
  | [] => []
  | (p, lvl) :: rest => lvl.map (fun o => (o.ID, (fd, p))) ++ sideEntries fd rest

/-- The finder entries that the orders of the whole book call for. -/
def bookEntries (s : OrderBook) : order_map_t :=
  sideEntries OrderFinder.bid s.mBids ++ sideEntries OrderFinder.ask s.mAsks

/-- The order finders `F` hold exactly the entries of `L`, once each. -/
def Agree (F L : order_map_t) : Prop :=
  KeysSorted idLess F ∧ (L.map Prod.fst).Nodup ∧ ∀ id v, mapFind id F = some v ↔ (id, v) ∈ L

/-- The states of the book after a finite sequence of calls of the public
member functions, starting from the empty book, where a buy order goes to
`processNewBuyOrder` and any other order to `processNewSelOrder`, and the id of
each new order is not the id of an order resting at that moment.  A call that
throws `std::out_of_range` leaves the book as it is at the throw. -/
inductive ReachableFresh : OrderBook → Prop where
  | empty : ReachableFresh OrderBook.empty
  | newBuy (s : OrderBook) (o : Order) :
      ReachableFresh s → o.Side = "BUY" → o.ID ∉ restingIds s →
      ReachableFresh (processNewBuyOrder s o).1
  | newSel (s : OrderBook) (o : Order) :
      ReachableFresh s → o.Side ≠ "BUY" → o.ID ∉ restingIds s →
      ReachableFresh (processNewSelOrder s o).1
  | cancel (s : OrderBook) (orderID : String) (s1 : OrderBook) :
      ReachableFresh s → processCancel s orderID = Outcome.ok s1 → ReachableFresh s1
  | mod (s : OrderBook) (tokens : List String) (s1 : OrderBook) (trades : List Trade) :
      ReachableFresh s → processMod s tokens = Outcome.ok (s1, trades) → ReachableFresh s1
  | cancelThrows (s : OrderBook) (orderID : String) (s1 : OrderBook) :
      ReachableFresh s → processCancel s orderID = Outcome.outOfRange s1 → ReachableFresh s1
  | modThrows (s : OrderBook) (tokens : List String) (s1 : OrderBook) :
      ReachableFresh s → processMod s tokens = Outcome.outOfRange s1 → ReachableFresh s1

/-- The states of the book after a finite sequence of calls of the public
member functions with any arguments, starting from the empty book, where the
id of each new order is not the id of an order resting at that moment.  A call
that throws `std::out_of_range` leaves the book as it is at the throw. -/
inductive ReachableFreshPublic : OrderBook → Prop where
  | empty : ReachableFreshPublic OrderBook.empty
  | newBuy (s : OrderBook) (o : Order) :
      ReachableFreshPublic s → o.ID ∉ restingIds s →
      ReachableFreshPublic (processNewBuyOrder s o).1
  | newSel (s : OrderBook) (o : Order) :
      ReachableFreshPublic s → o.ID ∉ restingIds s →
      ReachableFreshPublic (processNewSelOrder s o).1
  | cancel (s : OrderBook) (orderID : String) (s1 : OrderBook) :
      ReachableFreshPublic s → processCancel s orderID = Outcome.ok s1 →
      ReachableFreshPublic s1
  | mod (s : OrderBook) (tokens : List String) (s1 : OrderBook) (trades : List Trade) :
      ReachableFreshPublic s → processMod s tokens = Outcome.ok (s1, trades) →
      ReachableFreshPublic s1
  | cancelThrows (s : OrderBook) (orderID : String) (s1 : OrderBook) :
      ReachableFreshPublic s → processCancel s orderID = Outcome.outOfRange s1 → ReachableFreshPublic s1
  | modThrows (s : OrderBook) (tokens : List String) (s1 : OrderBook) :
      ReachableFreshPublic s → processMod s tokens = Outcome.outOfRange s1 → ReachableFreshPublic s1

/-- The inner loop of `checkBookAndAddIds` over one level: `none` when it
throws, else the found ids. -/
def checkLevelAndAddIds (finders : order_map_t) (price : Nat) :
    order_vector_t → List String → Option (List String)
  | [], foundIDs => some foundIDs
  | o :: rest, foundIDs =>
    match mapFind o.ID finders with
    | none => none
    | some (_, finderPrice) =>
      if finderPrice ≠ price then none
      else checkLevelAndAddIds finders price rest (foundIDs ++ [o.ID])

/-- The function `checkBookAndAddIds`: `none` when it throws, else the found
ids. -/
def checkBookAndAddIds (finders : order_map_t) : book_t → List String → Option (List String)
  | [], foundIDs => some foundIDs
  | (price, level) :: rest, foundIDs =>
    match checkLevelAndAddIds finders price level foundIDs with
    | none => none
    | some foundIDs1 => checkBookAndAddIds finders rest foundIDs1

/-- The function `checkFullFinderConsistency`: `true` when it throws. -/
def checkFullFinderConsistency (s : OrderBook) : Bool :=
  match checkBookAndAddIds s.mOrderFinders s.mBids [] with
  | none => true
  | some foundIDs1 =>
    match checkBookAndAddIds s.mOrderFinders s.mAsks foundIDs1 with
    | none => true
    | some foundIDs2 => foundIDs2.any (fun id => decide (mapFind id s.mOrderFinders = none))

/-- An id that no order of the example books carries. -/
def unknownId : String := "nobody"

/-! ## The snapshot -/

/-- Conversion of a `uint64_t` value to `int`, taken as 32 bits wide in two's
complement: the value is reduced modulo `2 ^ 32` into the range of `int` (what
the usual compilers do, and what C++20 prescribes). -/
def toInt32 (n : Nat) : Int :=
  if n % 2 ^ 32 < 2 ^ 31 then ((n % 2 ^ 32 : Nat) : Int) else ((n % 2 ^ 32 : Nat) : Int) - 2 ^ 32

/-- Conversion of an `int` to `uint64_t`: reduction modulo `2 ^ 64`. -/
def intToUInt64 (i : Int) : Nat := (i % 2 ^ 64).toNat

/-- The loop of `printLevel`.  The variable `totalQuantity` is declared with
`auto totalQuantity = 0`, so it is an `int`; `totalQuantity += o.Quantity` adds
in `uint64_t` and converts the sum back to `int`. -/
def printLevelLoop (totalQuantity : Int) : order_vector_t → Int
  | [] => totalQuantity
  | o :: rest =>
    printLevelLoop (toInt32 ((intToUInt64 totalQuantity + o.Quantity) % 2 ^ 64)) rest

/-- A line of the snapshot: the headings `SELL:` and `BUY:`, or a price with
the quantity printed for it. -/
inductive OutputLine where
  | text (s : String)
  | level (price : Nat) (totalQuantity : Int)
deriving DecidableEq

/-- The function `printLevel`: the line for one entry of a book side. -/
def printLevel (kv : Nat × order_vector_t) : OutputLine :=
  OutputLine.level kv.1 (printLevelLoop 0 kv.2)

/-- The function `printBook`, a `const` member function: the book after the
call, which is the book before it, and the lines printed, the asks from
`rbegin()` to `rend()` and the bids from `begin()` to `end()`. -/
def printBook (s : OrderBook) : OrderBook × List OutputLine :=
  (s, [OutputLine.text "SELL:"] ++ s.mAsks.reverse.map printLevel
      ++ [OutputLine.text "BUY:"] ++ s.mBids.map printLevel)

/-- The price of a level line of the snapshot. -/
def linePrice : OutputLine → Option Nat
  | OutputLine.text _ => none
  | OutputLine.level price _ => some price

/-- The order of the message `BUY GFD 10 3000000000 big`. -/
def bigBuy : Order :=
  { Side := "BUY", TimeInForce := "GFD", Price := 10, Quantity := 3000000000, ID := "big" }

/-- The book after `BUY GFD 10 3000000000 big`. -/
def bigBook : OrderBook := (processNewBuyOrder OrderBook.empty bigBuy).1

/-- The book after `SELL GFD 5 10 a`, `SELL GFD 20 10 b`, `BUY GFD 4 7 c` and
`BUY GFD 3 8 d`: asks at 5 and 20, bids at 4 and 3. -/
def snapshotBook : OrderBook :=
  (processNewBuyOrder
    (processNewBuyOrder twoAskBook
      { Side := "BUY", TimeInForce := "GFD", Price := 4, Quantity := 7, ID := "c" }).1
    { Side := "BUY", TimeInForce := "GFD", Price := 3, Quantity := 8, ID := "d" }).1

/-! ## The scan of the specification -/

/-- The crossing condition of the specification (4.1, step 2): a buy matches
an ask level iff `incoming.price >= level.price`, a sell matches a bid level
iff `incoming.price <= level.price`. -/
def specCrosses (isBuy : Bool) (incomingPrice levelPrice : Nat) : Bool :=
  if isBuy then decide (incomingPrice ≥ levelPrice) else decide (incomingPrice ≤ levelPrice)

/-- The scan of the specification (4.1, steps 2 to 4), which leaves at the
first level that does not cross: walking the levels best to worst, a level
that crosses is matched (by `matchOrder`) and removed when it is exhausted;
the scan stops once the incoming quantity reaches 0; at a level that does not
cross the scan stops entirely. -/
def specEarlyExitMatch (isBuy : Bool) (incoming : Order) (finders : order_map_t) :
    book_t → TryMatchResult
  | [] => { newOrder := incoming, bookSide := [], finders := finders, trades := [] }
  | (levelPrice, level) :: rest =>
    if specCrosses isBuy incoming.Price levelPrice then
      let m := matchOrder incoming finders level
      if m.newOrder.Quantity = 0 then
        { newOrder := m.newOrder,
          bookSide := if m.bookLevel.isEmpty then rest else (levelPrice, m.bookLevel) :: rest,
          finders := m.finders, trades := m.trades }
      else
        let r := specEarlyExitMatch isBuy m.newOrder m.finders rest
        { newOrder := r.newOrder,
          bookSide :=
            if m.bookLevel.isEmpty then r.bookSide else (levelPrice, m.bookLevel) :: r.bookSide,
          finders := r.finders, trades := m.trades ++ r.trades }
    else
      { newOrder := incoming, bookSide := (levelPrice, level) :: rest, finders := finders,
        trades := [] }

/-- Every order stored in the book side has TimeInForce "GFD". -/
def AllGFD (book : book_t) : Prop := ∀ x ∈ book, ∀ o ∈ x.2, o.TimeInForce = "GFD"

/-- Every entry of the order finders `F` is one of the entries of `L`. -/
def Traced (F L : order_map_t) : Prop :=
  KeysSorted idLess F ∧ ∀ id v, mapFind id F = some v → (id, v) ∈ L

/-- The book after `BUY GFD 10 100 x` and `BUY GFD 9 100 x`: two resting orders
with one id. -/
def repeatedIdBook : OrderBook :=
  (processNewBuyOrder
    (processNewBuyOrder OrderBook.empty
      { Side := "BUY", TimeInForce := "GFD", Price := 10, Quantity := 100, ID := "x" }).1
    { Side := "BUY", TimeInForce := "GFD", Price := 9, Quantity := 100, ID := "x" }).1

/-- The order of the message `BUY GFD 10 200 b`. -/
def queueB : Order :=
  { Side := "BUY", TimeInForce := "GFD", Price := 10, Quantity := 200, ID := "b" }

/-- The book after `BUY GFD 10 100 a`, `BUY GFD 10 200 b`, `BUY GFD 10 300 c`
and `SELL GFD 12 50 d`: three bids queued at 10 and one ask at 12. -/
def queueBook : OrderBook :=
  (processNewSelOrder
    (processNewBuyOrder
      (processNewBuyOrder
        (processNewBuyOrder OrderBook.empty
          { Side := "BUY", TimeInForce := "GFD", Price := 10, Quantity := 100, ID := "a" }).1
        queueB).1
      { Side := "BUY", TimeInForce := "GFD", Price := 10, Quantity := 300, ID := "c" }).1
    { Side := "SELL", TimeInForce := "GFD", Price := 12, Quantity := 50, ID := "d" }).1

/-- The order of the message `BUY GFD 12 0 zero`. -/
def zeroBuy : Order :=
  { Side := "BUY", TimeInForce := "GFD", Price := 12, Quantity := 0, ID := "zero" }

/-- The order of the message `SELL GFD 10 0 zero`. -/
def zeroSell : Order :=
  { Side := "SELL", TimeInForce := "GFD", Price := 10, Quantity := 0, ID := "zero" }

/-- The order of the message `BUY GFD 10 100 x`. -/
def firstX : Order :=
  { Side := "BUY", TimeInForce := "GFD", Price := 10, Quantity := 100, ID := "x" }

/-- The order of the message `BUY GFD 9 100 x`. -/
def secondX : Order :=
  { Side := "BUY", TimeInForce := "GFD", Price := 9, Quantity := 100, ID := "x" }

/-- A book holding the order of `BUY GFD 10 100 x` and no order finder. -/
def orphanBook : OrderBook :=
  { mBids := [(10, [firstX])], mAsks := [], mOrderFinders := [] }

/-- A call of `processCancel` with an id, or of `processMod` with a message. -/
inductive CancelOrMod where
  | cancel (orderID : String)
  | mod (modMessageTokens : List String)
deriving DecidableEq

/-- The book a call leaves behind, on a normal return and when
`std::out_of_range` leaves the function alike; `none` for undefined
behaviour. -/
def bookAfterCall (s : OrderBook) : CancelOrMod → Option OrderBook
  | CancelOrMod.cancel orderID =>
    match processCancel s orderID with
    | Outcome.ok s1 => some s1
    | Outcome.outOfRange s1 => some s1
    | Outcome.undefined => none
  | CancelOrMod.mod modMessageTokens =>
    match processMod s modMessageTokens with
    | Outcome.ok (s1, _) => some s1
    | Outcome.outOfRange s1 => some s1
    | Outcome.undefined => none

/-- The book a sequence of such calls leaves behind. -/
def bookAfterCalls : OrderBook → List CancelOrMod → Option OrderBook
  | s, [] => some s
  | s, c :: rest =>
    match bookAfterCall s c with
    | none => none
    | some s1 => bookAfterCalls s1 rest

/-- The book of `main` before its `MODIFY`, as `retrieveOrder` of `order2`
leaves it: `order1` alone in the bids, both order finders still there. -/
def mainBookWithoutOrder2 : OrderBook :=
  { mBids := [(11, [{ Side := "BUY", TimeInForce := "GFD", Price := 11, Quantity := 100,
                      ID := "order1" }])],
    mAsks := [],
    mOrderFinders := mainBook.mOrderFinders }

/-! # Theorems -/

/-! ## Facts about ordered maps -/

theorem bidLess_strict : StrictOrder bidLess := by
  refine ⟨?_, ?_, ?_⟩
  · intro a; simp [bidLess]
  · intro a b c; simp only [bidLess, decide_eq_true_eq]; omega
  · intro a b; simp only [bidLess, decide_eq_true_eq, decide_eq_false_iff_not]; omega

theorem askLess_strict : StrictOrder askLess := by
  refine ⟨?_, ?_, ?_⟩
  · intro a; simp [askLess]
  · intro a b c; simp only [askLess, decide_eq_true_eq]; omega
  · intro a b; simp only [askLess, decide_eq_true_eq, decide_eq_false_iff_not]; omega

theorem charsLess_irrefl (a : List Char) : charsLess a a = false := by
  induction a with
  | nil => rfl
  | cons c cs ih => simp [charsLess, ih]

theorem charsLess_trans (a b c : List Char) :
    charsLess a b = true → charsLess b c = true → charsLess a c = true := by
  induction a generalizing b c with
  | nil =>
    intro h1 h2
    cases b with
    | nil => simp [charsLess] at h1
    | cons y ys =>
      cases c with
      | nil => simp [charsLess] at h2
      | cons z zs => simp [charsLess]
  | cons x xs ih =>
    intro h1 h2
    cases b with
    | nil => simp [charsLess] at h1
    | cons y ys =>
      cases c with
      | nil => simp [charsLess] at h2
      | cons z zs =>
        simp only [charsLess] at h1 h2 ⊢
        by_cases hxy : x.toNat < y.toNat
        · by_cases hyz : y.toNat < z.toNat
          · have : x.toNat < z.toNat := by omega
            simp [this]
          · by_cases hzy : z.toNat < y.toNat
            · simp [hyz, hzy] at h2
            · have : x.toNat < z.toNat := by omega
              simp [this]
        · by_cases hyx : y.toNat < x.toNat
          · simp [hxy, hyx] at h1
          · simp only [hxy, hyx, if_false] at h1
            by_cases hyz : y.toNat < z.toNat
            · have : x.toNat < z.toNat := by omega
              simp [this]
            · by_cases hzy : z.toNat < y.toNat
              · simp [hyz, hzy] at h2
              · simp only [hyz, hzy, if_false] at h2
                have h3 : ¬ x.toNat < z.toNat := by omega
                have h4 : ¬ z.toNat < x.toNat := by omega
                simp only [h3, h4, if_false]
                exact ih ys zs h1 h2

theorem charsLess_total (a b : List Char) :
    a ≠ b → charsLess a b = false → charsLess b a = true := by
  induction a generalizing b with
  | nil =>
    intro h1 h2
    cases b with
    | nil => exact absurd rfl h1
    | cons y ys => simp [charsLess] at h2
  | cons x xs ih =>
    intro h1 h2
    cases b with
    | nil => simp [charsLess]
    | cons y ys =>
      simp only [charsLess] at h2 ⊢
      by_cases hxy : x.toNat < y.toNat
      · simp [hxy] at h2
      · by_cases hyx : y.toNat < x.toNat
        · simp [hyx]
        · simp only [hxy, hyx, if_false] at h2 ⊢
          have hx : x = y := by
            apply Char.ext
            apply UInt32.ext
            have : x.toNat = y.toNat := by omega
            exact this
          subst hx
          apply ih ys _ h2
          intro h
          exact h1 (by rw [h])

theorem idLess_strict : StrictOrder idLess := by
  refine ⟨?_, ?_, ?_⟩
  · intro a; exact charsLess_irrefl _
  · intro a b c; exact charsLess_trans _ _ _
  · intro a b hab h
    apply charsLess_total _ _ _ h
    intro h2
    apply hab
    cases a; cases b
    simp only [String.toList] at h2
    rw [h2]

theorem KeysSorted_tail {K V : Type} {less : K → K → Bool} {x : K × V} {m : List (K × V)}
    (h : KeysSorted less (x :: m)) : KeysSorted less m :=
  (List.pairwise_cons.mp h).2

theorem KeysSorted_head {K V : Type} {less : K → K → Bool} {x : K × V} {m : List (K × V)}
    (h : KeysSorted less (x :: m)) : ∀ y ∈ m, less x.1 y.1 = true :=
  (List.pairwise_cons.mp h).1

theorem KeysSorted_sublist {K V : Type} {less : K → K → Bool} {m1 m2 : List (K × V)}
    (hs : List.Sublist m1 m2) (h : KeysSorted less m2) : KeysSorted less m1 :=
  List.Pairwise.sublist hs h

theorem keys_ne_of_sorted {K V : Type} {less : K → K → Bool} (hl : StrictOrder less) {x : K × V}
    {m : List (K × V)} (h : KeysSorted less (x :: m)) : ∀ y ∈ m, y.1 ≠ x.1 := by
  intro y hy heq
  have h1 := KeysSorted_head h y hy
  rw [heq, hl.irrefl] at h1
  exact Bool.noConfusion h1

section MapFacts

variable {K V : Type} [DecidableEq K]

theorem mapFind_mapInsert_self (less : K → K → Bool) (k : K) (v : V) (m : List (K × V)) :
    mapFind k (mapInsert less k v m) = some v := by
  induction m with
  | nil => simp [mapInsert, mapFind]
  | cons x rest ih =>
    obtain ⟨k', v'⟩ := x
    simp only [mapInsert]
    split_ifs with h1 h2
    · simp [mapFind]
    · simp [mapFind]
    · simp [mapFind, h1, ih]

theorem mapFind_mapInsert_ne (less : K → K → Bool) (k k2 : K) (v : V) (m : List (K × V))
    (hne : k2 ≠ k) : mapFind k2 (mapInsert less k v m) = mapFind k2 m := by
  induction m with
  | nil => simp [mapInsert, mapFind, Ne.symm hne]
  | cons x rest ih =>
    obtain ⟨k', v'⟩ := x
    simp only [mapInsert]
    split_ifs with h1 h2
    · subst h1; simp [mapFind, Ne.symm hne]
    · simp [mapFind, Ne.symm hne]
    · simp only [mapFind, ih]

theorem mapFind_mapErase_ne (k k2 : K) (m : List (K × V)) (hne : k2 ≠ k) :
    mapFind k2 (mapErase k m) = mapFind k2 m := by
  induction m with
  | nil => rfl
  | cons x rest ih =>
    obtain ⟨k', v'⟩ := x
    simp only [mapErase]
    split_ifs with h1
    · subst h1; simp [mapFind, Ne.symm hne]
    · simp only [mapFind, ih]

theorem mem_of_mapFind (k : K) (v : V) (m : List (K × V)) (h : mapFind k m = some v) :
    (k, v) ∈ m := by
  induction m with
  | nil => simp [mapFind] at h
  | cons x rest ih =>
    obtain ⟨k', v'⟩ := x
    simp only [mapFind] at h
    split_ifs at h with h1
    · subst h1; simp at h; subst h; simp
    · exact List.mem_cons_of_mem _ (ih h)

theorem mapFind_eq_none_of_forall_ne (k : K) (m : List (K × V)) (h : ∀ x ∈ m, x.1 ≠ k) :
    mapFind k m = none := by
  induction m with
  | nil => rfl
  | cons x rest ih =>
    obtain ⟨k', v'⟩ := x
    have h1 : k' ≠ k := h (k', v') (List.mem_cons_self _ _)
    simp only [mapFind, h1, if_false]
    exact ih (fun y hy => h y (List.mem_cons_of_mem _ hy))

theorem exists_of_mapFind_ne_none (k : K) (m : List (K × V)) (h : mapFind k m ≠ none) :
    ∃ v, mapFind k m = some v := by
  cases hv : mapFind k m with
  | none => exact absurd hv h
  | some v => exact ⟨v, rfl⟩

theorem mapErase_sublist (k : K) (m : List (K × V)) : List.Sublist (mapErase k m) m := by
  induction m with
  | nil => exact List.Sublist.slnil
  | cons x rest ih =>
    obtain ⟨k', v'⟩ := x
    simp only [mapErase]
    split_ifs with h1
    · exact List.sublist_cons_self _ _
    · exact List.Sublist.cons₂ _ ih

theorem mem_mapErase_of_ne (k : K) (m : List (K × V)) (x : K × V) (hx : x ∈ m) (hne : x.1 ≠ k) :
    x ∈ mapErase k m := by
  induction m with
  | nil => simp at hx
  | cons y rest ih =>
    obtain ⟨k', v'⟩ := y
    simp only [mapErase]
    rcases List.mem_cons.mp hx with h | h
    · subst h
      simp only at hne
      simp [hne]
    · split_ifs with h1
      · exact h
      · exact List.mem_cons_of_mem _ (ih h)

theorem mem_mapInsert_self (less : K → K → Bool) (k : K) (v : V) (m : List (K × V)) :
    (k, v) ∈ mapInsert less k v m :=
  mem_of_mapFind _ _ _ (mapFind_mapInsert_self less k v m)

theorem mem_mapInsert_of_ne (less : K → K → Bool) (k : K) (v : V) (m : List (K × V))
    (x : K × V) (hx : x ∈ m) (hne : x.1 ≠ k) : x ∈ mapInsert less k v m := by
  induction m with
  | nil => simp at hx
  | cons y rest ih =>
    obtain ⟨k', v'⟩ := y
    simp only [mapInsert]
    split_ifs with h1 h2
    · rcases List.mem_cons.mp hx with h | h
      · subst h; exact absurd h1 hne
      · exact List.mem_cons_of_mem _ h
    · exact List.mem_cons_of_mem _ hx
    · rcases List.mem_cons.mp hx with h | h
      · subst h; exact List.mem_cons_self _ _
      · exact List.mem_cons_of_mem _ (ih h)

theorem KeysSorted_mapErase {less : K → K → Bool} (k : K) {m : List (K × V)}
    (h : KeysSorted less m) : KeysSorted less (mapErase k m) :=
  KeysSorted_sublist (mapErase_sublist k m) h

theorem mem_mapInsert {less : K → K → Bool} (k : K) (v : V) (m : List (K × V)) (x : K × V)
    (hx : x ∈ mapInsert less k v m) : x = (k, v) ∨ x ∈ m := by
  induction m with
  | nil => simp [mapInsert] at hx; exact Or.inl hx
  | cons y rest ih =>
    obtain ⟨k', v'⟩ := y
    simp only [mapInsert] at hx
    split_ifs at hx with h1 h2
    · rcases List.mem_cons.mp hx with h | h
      · exact Or.inl h
      · exact Or.inr (List.mem_cons_of_mem _ h)
    · rcases List.mem_cons.mp hx with h | h
      · exact Or.inl h
      · exact Or.inr h
    · rcases List.mem_cons.mp hx with h | h
      · exact Or.inr (h ▸ List.mem_cons_self _ _)
      · rcases ih h with h3 | h3
        · exact Or.inl h3
        · exact Or.inr (List.mem_cons_of_mem _ h3)

theorem KeysSorted_mapInsert {less : K → K → Bool} (hl : StrictOrder less) (k : K) (v : V)
    {m : List (K × V)} (h : KeysSorted less m) : KeysSorted less (mapInsert less k v m) := by
  induction m with
  | nil => simp [mapInsert, KeysSorted]
  | cons y rest ih =>
    obtain ⟨k', v'⟩ := y
    have hhead := KeysSorted_head h
    have htail := KeysSorted_tail h
    simp only [mapInsert]
    split_ifs with h1 h2
    · subst h1
      exact List.pairwise_cons.mpr ⟨hhead, htail⟩
    · refine List.pairwise_cons.mpr ⟨?_, h⟩
      intro z hz
      rcases List.mem_cons.mp hz with h3 | h3
      · subst h3; exact h2
      · exact hl.trans _ _ _ h2 (hhead z h3)
    · refine List.pairwise_cons.mpr ⟨?_, ih htail⟩
      intro z hz
      rcases mem_mapInsert k v rest z hz with h3 | h3
      · subst h3
        have h4 : less k k' = false := by simpa using h2
        exact hl.total _ _ (Ne.symm h1) h4
      · exact hhead z h3

theorem mapFind_of_mem {less : K → K → Bool} (hl : StrictOrder less) {m : List (K × V)}
    (h : KeysSorted less m) (k : K) (v : V) (hm : (k, v) ∈ m) : mapFind k m = some v := by
  induction m with
  | nil => simp at hm
  | cons y rest ih =>
    obtain ⟨k', v'⟩ := y
    simp only [mapFind]
    rcases List.mem_cons.mp hm with h3 | h3
    · injection h3 with h4 h5
      subst h4; subst h5; simp
    · have hne : k ≠ k' := keys_ne_of_sorted hl h (k, v) h3
      simp only [Ne.symm hne, if_false]
      exact ih (KeysSorted_tail h) h3

theorem mapFind_mapErase_self {less : K → K → Bool} (hl : StrictOrder less) {m : List (K × V)}
    (h : KeysSorted less m) (k : K) : mapFind k (mapErase k m) = none := by
  induction m with
  | nil => rfl
  | cons y rest ih =>
    obtain ⟨k', v'⟩ := y
    simp only [mapErase]
    split_ifs with h1
    · subst h1
      exact mapFind_eq_none_of_forall_ne _ _ (keys_ne_of_sorted hl h)
    · simp only [mapFind, h1, if_false]
      exact ih (KeysSorted_tail h)

end MapFacts

/-! ## The loop of `matchOrder` -/

theorem matchSizeOf_le_book (b n : Order) : matchSizeOf b n ≤ b.Quantity := by
  unfold matchSizeOf; split_ifs <;> omega

theorem matchSizeOf_le_new (b n : Order) : matchSizeOf b n ≤ n.Quantity := by
  unfold matchSizeOf; split_ifs <;> omega

theorem matchSizeOf_eq_min (b n : Order) : matchSizeOf b n = min b.Quantity n.Quantity := by
  unfold matchSizeOf; split_ifs <;> omega

theorem sub64_of_le {a b : Nat} (h : b ≤ a) : sub64 a b = a - b := by
  simp [sub64, h]

theorem sub64_eq_mod {a b : Nat} (ha : a < 2 ^ 64) (hb : b < 2 ^ 64) :
    sub64 a b = (a + 2 ^ 64 - b) % 2 ^ 64 := by
  unfold sub64
  split_ifs with h
  · have h1 : a + 2 ^ 64 - b = (a - b) + 2 ^ 64 := by omega
    rw [h1, Nat.add_mod_right, Nat.mod_eq_of_lt (by omega)]
  · rw [Nat.mod_eq_of_lt (by omega)]

theorem sub64_book (b n : Order) :
    sub64 b.Quantity (matchSizeOf b n) = b.Quantity - matchSizeOf b n :=
  sub64_of_le (matchSizeOf_le_book b n)

theorem sub64_new (b n : Order) :
    sub64 n.Quantity (matchSizeOf b n) = n.Quantity - matchSizeOf b n :=
  sub64_of_le (matchSizeOf_le_new b n)

theorem new_zero_of_book_nonzero (b n : Order)
    (h : sub64 b.Quantity (matchSizeOf b n) ≠ 0) : sub64 n.Quantity (matchSizeOf b n) = 0 := by
  rw [sub64_book] at h
  rw [sub64_new]
  unfold matchSizeOf at *
  split_ifs at * <;> omega

theorem matchOrderLoop_eq_fillLevel (newOrder : Order) (finders : order_map_t)
    (trades : List Trade) (visited level : order_vector_t) :
    (matchOrderLoop newOrder finders trades visited visited.length level).1.newOrder
        = (fillLevel newOrder finders level).newOrder
      ∧ (matchOrderLoop newOrder finders trades visited visited.length level).1.bookLevel.drop
          (matchOrderLoop newOrder finders trades visited visited.length level).2
        = (fillLevel newOrder finders level).bookLevel
      ∧ (matchOrderLoop newOrder finders trades visited visited.length level).1.finders
        = (fillLevel newOrder finders level).finders
      ∧ (matchOrderLoop newOrder finders trades visited visited.length level).1.trades
        = trades ++ (fillLevel newOrder finders level).trades := by
  induction level generalizing newOrder finders trades visited with
  | nil => simp [matchOrderLoop, fillLevel]
  | cons b rest ih =>
    simp only [matchOrderLoop, fillLevel]
    have hfold : (if b.Quantity ≥ newOrder.Quantity then newOrder.Quantity else b.Quantity)
        = matchSizeOf b newOrder := rfl
    simp only [hfold]
    by_cases hb : sub64 b.Quantity (matchSizeOf b newOrder) = 0
    · by_cases hn : sub64 newOrder.Quantity (matchSizeOf b newOrder) = 0
      · simp [hb, hn]
      · simp only [hb, hn, if_true, if_false]
        have h := ih { newOrder with Quantity := sub64 newOrder.Quantity (matchSizeOf b newOrder) }
          (mapErase b.ID finders) (trades ++ [printMatch b newOrder (matchSizeOf b newOrder)])
          (visited ++ [{ b with Quantity := sub64 b.Quantity (matchSizeOf b newOrder) }])
        simp only [List.length_append, List.length_singleton] at h
        simp only [hb] at h
        obtain ⟨h1, h2, h3, h4⟩ := h
        refine ⟨h1, h2, h3, ?_⟩
        rw [h4]; simp
    · have hn := new_zero_of_book_nonzero b newOrder hb
      simp [hb, hn]

theorem matchOrder_eq_fillLevel (newOrder : Order) (finders : order_map_t)
    (level : order_vector_t) : matchOrder newOrder finders level = fillLevel newOrder finders level := by
  have h := matchOrderLoop_eq_fillLevel newOrder finders [] [] level
  simp only [List.length_nil, List.nil_append] at h
  obtain ⟨h1, h2, h3, h4⟩ := h
  unfold matchOrder
  cases hr : fillLevel newOrder finders level
  rw [hr] at h1 h2 h3 h4
  simp only [MatchResult.mk.injEq]
  exact ⟨h1, h2, h3, h4⟩

/-! ## The shape of the result of `matchOrder` -/

theorem sumQuantity_cons (o : Order) (l : List Order) :
    sumQuantity (o :: l) = o.Quantity + sumQuantity l := by
  simp [sumQuantity]

theorem sumQuantity_append (l1 l2 : List Order) :
    sumQuantity (l1 ++ l2) = sumQuantity l1 + sumQuantity l2 := by
  simp [sumQuantity]

theorem sumMatched_cons (t : Trade) (l : List Trade) :
    sumMatched (t :: l) = t.bookQuantity + sumMatched l := by
  simp [sumMatched]

theorem sumMatched_append (l1 l2 : List Trade) :
    sumMatched (l1 ++ l2) = sumMatched l1 + sumMatched l2 := by
  simp [sumMatched]

theorem sumMatched_fullTrade (n : Order) (l : List Order) :
    sumMatched (l.map (fullTrade n)) = sumQuantity l := by
  induction l with
  | nil => rfl
  | cons o rest ih => simp [sumMatched_cons, sumQuantity_cons, ih, fullTrade, printMatch]

theorem eraseIds_cons (id : String) (ids : List String) (f : order_map_t) :
    eraseIds (id :: ids) f = eraseIds ids (mapErase id f) := rfl

theorem eraseIds_append (ids1 ids2 : List String) (f : order_map_t) :
    eraseIds (ids1 ++ ids2) f = eraseIds ids2 (eraseIds ids1 f) := by
  simp [eraseIds, List.foldl_append]

/-- The result of `fillLevel` in closed form.  Either every matched order is
filled completely (`full`), or the orders of `full` are filled completely and
the next one, `b`, takes what is left of the new order and stays. -/
theorem fillLevel_shape (n : Order) (f : order_map_t) (lvl : order_vector_t) :
    (∃ full rest, lvl = full ++ rest ∧ sumQuantity full ≤ n.Quantity
        ∧ (rest = [] ∨ n.Quantity - sumQuantity full = 0)
        ∧ fillLevel n f lvl =
          { newOrder := { n with Quantity := n.Quantity - sumQuantity full },
            bookLevel := rest,
            finders := eraseIds (full.map (fun o => o.ID)) f,
            trades := full.map (fullTrade n) })
    ∨ (∃ full b rest, lvl = full ++ b :: rest ∧ sumQuantity full ≤ n.Quantity
        ∧ n.Quantity - sumQuantity full < b.Quantity
        ∧ fillLevel n f lvl =
          { newOrder := { n with Quantity := 0 },
            bookLevel :=
              { b with Quantity := b.Quantity - (n.Quantity - sumQuantity full) } :: rest,
            finders := eraseIds (full.map (fun o => o.ID)) f,
            trades := full.map (fullTrade n)
              ++ [printMatch b n (n.Quantity - sumQuantity full)] }) := by
  induction lvl generalizing n f with
  | nil =>
    left
    exact ⟨[], [], rfl, by simp [sumQuantity], Or.inl rfl, by simp [fillLevel, sumQuantity, eraseIds]⟩
  | cons b rest ih =>
    simp only [fillLevel]
    rw [sub64_book, sub64_new]
    by_cases hb : b.Quantity - matchSizeOf b n = 0
    · have hm : matchSizeOf b n = b.Quantity := by
        have := matchSizeOf_le_book b n; omega
      have hle : b.Quantity ≤ n.Quantity := by
        have := matchSizeOf_le_new b n; omega
      by_cases hn : n.Quantity - matchSizeOf b n = 0
      · left
        refine ⟨[b], rest, rfl, by simp [sumQuantity]; exact hle, Or.inr ?_, ?_⟩
        · simp [sumQuantity]; omega
        · simp [hb, hn, hm, sumQuantity, eraseIds, fullTrade]
          omega
      · simp only [hb, hn, if_true, if_false]
        rcases ih { n with Quantity := n.Quantity - matchSizeOf b n } (mapErase b.ID f) with
          ⟨full, rest1, h1, h2, h3, h4⟩ | ⟨full, b1, rest1, h1, h2, h3, h4⟩
        · left
          refine ⟨b :: full, rest1, by rw [h1]; rfl, ?_, ?_, ?_⟩
          · rw [sumQuantity_cons]; simp only at h2; omega
          · rcases h3 with h3 | h3
            · exact Or.inl h3
            · right; rw [sumQuantity_cons]; simp only at h3; omega
          · rw [h4]
            simp only [List.map_cons, eraseIds_cons, sumQuantity_cons, MatchResult.mk.injEq,
              Order.mk.injEq, true_and, and_true]
            refine ⟨by simp only at h2; omega, ?_⟩
            simp [fullTrade, printMatch, hm]
        · right
          refine ⟨b :: full, b1, rest1, by rw [h1]; rfl, ?_, ?_, ?_⟩
          · rw [sumQuantity_cons]; simp only at h2; omega
          · rw [sumQuantity_cons]; simp only at h3; omega
          · rw [h4]
            simp only [List.map_cons, eraseIds_cons, sumQuantity_cons, MatchResult.mk.injEq,
              Order.mk.injEq, true_and, and_true, hm]
            have e : n.Quantity - b.Quantity - sumQuantity full
                = n.Quantity - (b.Quantity + sumQuantity full) := by omega
            simp [fullTrade, printMatch, e]
    · have hn : n.Quantity - matchSizeOf b n = 0 := by
        unfold matchSizeOf at *; split_ifs at * <;> omega
      have hm : matchSizeOf b n = n.Quantity := by
        have := matchSizeOf_le_new b n; omega
      right
      refine ⟨[], b, rest, rfl, by simp [sumQuantity], ?_, ?_⟩
      · simp [sumQuantity]; omega
      · have hb2 : ¬ b.Quantity - n.Quantity = 0 := by rw [hm] at hb; exact hb
        simp [hb2, hm, sumQuantity, eraseIds]

/-! ## The loop of `tryMatchOrder` -/

theorem fillLevel_newOrder (n : Order) (f : order_map_t) (lvl : order_vector_t) :
    (fillLevel n f lvl).newOrder = { n with Quantity := (fillLevel n f lvl).newOrder.Quantity } := by
  rcases fillLevel_shape n f lvl with ⟨full, rest, _, _, _, h⟩ | ⟨full, b, rest, _, _, _, h⟩ <;>
    rw [h]

theorem matchOrder_newOrder (n : Order) (f : order_map_t) (lvl : order_vector_t) :
    (matchOrder n f lvl).newOrder = { n with Quantity := (matchOrder n f lvl).newOrder.Quantity } := by
  rw [matchOrder_eq_fillLevel]; exact fillLevel_newOrder n f lvl

theorem matchOrder_price (n : Order) (f : order_map_t) (lvl : order_vector_t) :
    (matchOrder n f lvl).newOrder.Price = n.Price := by
  rw [matchOrder_newOrder]

theorem fillLevel_empty_of_left (n : Order) (f : order_map_t) (lvl : order_vector_t)
    (h : (fillLevel n f lvl).newOrder.Quantity ≠ 0) : (fillLevel n f lvl).bookLevel = [] := by
  rcases fillLevel_shape n f lvl with ⟨full, rest, _, _, h3, h4⟩ | ⟨full, b, rest, _, _, _, h4⟩
  · rw [h4] at h ⊢
    rcases h3 with h3 | h3
    · exact h3
    · exact absurd h3 h
  · rw [h4] at h
    exact absurd rfl h

theorem matchOrder_empty_of_left (n : Order) (f : order_map_t) (lvl : order_vector_t)
    (h : (matchOrder n f lvl).newOrder.Quantity ≠ 0) : (matchOrder n f lvl).bookLevel = [] := by
  rw [matchOrder_eq_fillLevel] at h ⊢; exact fillLevel_empty_of_left n f lvl h

theorem tryMatchOrderLoop_noCross (w : Nat → Nat → Bool) (n : Order) (f : order_map_t)
    (tr : List Trade) (vis : book_t) (e : Nat) (suf : book_t)
    (h : ∀ x ∈ suf, w n.Price x.1 = false) :
    tryMatchOrderLoop w n f tr vis e suf
      = ({ newOrder := n, bookSide := vis ++ suf, finders := f, trades := tr }, e) := by
  induction suf generalizing vis with
  | nil => simp [tryMatchOrderLoop]
  | cons x rest ih =>
    obtain ⟨p, lvl⟩ := x
    have hp : w n.Price p = false := h (p, lvl) (List.mem_cons_self _ _)
    simp only [tryMatchOrderLoop, hp]
    rw [ih _ (fun y hy => h y (List.mem_cons_of_mem _ hy))]
    simp

theorem tryMatchOrderLoop_eq_earlyExitScan (w : Nat → Nat → Bool) (n : Order)
    (f : order_map_t) (tr : List Trade) (vis book : book_t)
    (h : CrossFirst (w n.Price) book) :
    (tryMatchOrderLoop w n f tr vis vis.length book).1.newOrder
        = (earlyExitScan w n f book).newOrder
      ∧ (tryMatchOrderLoop w n f tr vis vis.length book).1.bookSide.drop
          (tryMatchOrderLoop w n f tr vis vis.length book).2
        = (earlyExitScan w n f book).bookSide
      ∧ (tryMatchOrderLoop w n f tr vis vis.length book).1.finders
        = (earlyExitScan w n f book).finders
      ∧ (tryMatchOrderLoop w n f tr vis vis.length book).1.trades
        = tr ++ (earlyExitScan w n f book).trades := by
  induction book generalizing n f tr vis with
  | nil => simp [tryMatchOrderLoop, earlyExitScan]
  | cons x rest ih =>
    obtain ⟨p, lvl⟩ := x
    obtain ⟨hfirst, hrest⟩ := h
    by_cases hp : w n.Price p = true
    · simp only [tryMatchOrderLoop, earlyExitScan, hp, if_true]
      by_cases hq : (matchOrder n f lvl).newOrder.Quantity = 0
      · by_cases he : (matchOrder n f lvl).bookLevel.isEmpty = true
        · simp [hq, he]
        · simp [hq, he]
      · have he : (matchOrder n f lvl).bookLevel = [] := matchOrder_empty_of_left n f lvl hq
        simp only [hq, he, List.isEmpty_nil, if_true, if_false]
        have hrest2 : CrossFirst (w (matchOrder n f lvl).newOrder.Price) rest := by
          rw [matchOrder_price]; exact hrest
        have h := ih (matchOrder n f lvl).newOrder (matchOrder n f lvl).finders
          (tr ++ (matchOrder n f lvl).trades) (vis ++ [(p, [])]) hrest2
        simp only [List.length_append, List.length_singleton] at h
        obtain ⟨h1, h2, h3, h4⟩ := h
        refine ⟨h1, h2, h3, ?_⟩
        rw [h4]; simp
    · have hp2 : w n.Price p = false := by simpa using hp
      simp only [tryMatchOrderLoop, earlyExitScan, hp2]
      rw [tryMatchOrderLoop_noCross w n f tr _ _ rest (hfirst hp2)]
      simp

theorem tryMatchOrder_eq_earlyExitScan (n : Order) (f : order_map_t) (book : book_t)
    (h : CrossFirst (newOrderWillMatchBook n n.Price) book) :
    tryMatchOrder n f book = earlyExitScan (newOrderWillMatchBook n) n f book := by
  have h := tryMatchOrderLoop_eq_earlyExitScan (newOrderWillMatchBook n) n f [] [] book h
  simp only [List.length_nil, List.nil_append] at h
  obtain ⟨h1, h2, h3, h4⟩ := h
  unfold tryMatchOrder
  cases hr : earlyExitScan (newOrderWillMatchBook n) n f book
  rw [hr] at h1 h2 h3 h4
  simp only [TryMatchResult.mk.injEq]
  exact ⟨h1, h2, h3, h4⟩

/-! ## The shape of the result of `tryMatchOrder` -/

theorem fullTrade_quantity (n : Order) (q : Nat) :
    fullTrade { n with Quantity := q } = fullTrade n := rfl

theorem printMatch_quantity (n b : Order) (q m : Nat) :
    printMatch b { n with Quantity := q } m = printMatch b n m := rfl

theorem bookOrders_cons (p : Nat) (lvl : order_vector_t) (rest : book_t) :
    bookOrders ((p, lvl) :: rest) = lvl ++ bookOrders rest := rfl

theorem bookOrders_append (b1 b2 : book_t) :
    bookOrders (b1 ++ b2) = bookOrders b1 ++ bookOrders b2 := by
  induction b1 with
  | nil => rfl
  | cons x rest ih =>
    obtain ⟨p, lvl⟩ := x
    simp [bookOrders, ih]

theorem fillLevel_of_empty (n : Order) (f : order_map_t) (lvl : order_vector_t)
    (h : (fillLevel n f lvl).bookLevel = []) :
    sumQuantity lvl ≤ n.Quantity ∧
    fillLevel n f lvl =
      { newOrder := { n with Quantity := n.Quantity - sumQuantity lvl },
        bookLevel := [],
        finders := eraseIds (lvl.map (fun o => o.ID)) f,
        trades := lvl.map (fullTrade n) } := by
  rcases fillLevel_shape n f lvl with ⟨full, rest, h1, h2, _, h4⟩ | ⟨full, b, rest, _, _, _, h4⟩
  · rw [h4] at h
    simp only at h
    subst h
    simp only [List.append_nil] at h1
    subst h1
    exact ⟨h2, h4⟩
  · rw [h4] at h
    simp at h

/-- The result of `earlyExitScan` in closed form.  Either the levels of `gone`
are consumed completely and the scan ends behind them, or the scan ends in the
level behind them, which keeps at least one order. -/
theorem earlyExitScan_shape (w : Nat → Nat → Bool) (n : Order) (f : order_map_t)
    (book : book_t) :
    (∃ gone rest, book = gone ++ rest ∧ (∀ x ∈ gone, w n.Price x.1 = true)
        ∧ sumQuantity (bookOrders gone) ≤ n.Quantity
        ∧ (rest = [] ∨ n.Quantity - sumQuantity (bookOrders gone) = 0
            ∨ ∃ x rest1, rest = x :: rest1 ∧ w n.Price x.1 = false)
        ∧ earlyExitScan w n f book =
          { newOrder := { n with Quantity := n.Quantity - sumQuantity (bookOrders gone) },
            bookSide := rest,
            finders := eraseIds ((bookOrders gone).map (fun o => o.ID)) f,
            trades := (bookOrders gone).map (fullTrade n) })
    ∨ (∃ gone p lvl rest, book = gone ++ (p, lvl) :: rest
        ∧ (∀ x ∈ gone, w n.Price x.1 = true) ∧ w n.Price p = true
        ∧ sumQuantity (bookOrders gone) ≤ n.Quantity
        ∧ (fillLevel { n with Quantity := n.Quantity - sumQuantity (bookOrders gone) }
            (eraseIds ((bookOrders gone).map (fun o => o.ID)) f) lvl).bookLevel ≠ []
        ∧ earlyExitScan w n f book =
          { newOrder := (fillLevel { n with Quantity := n.Quantity - sumQuantity (bookOrders gone) }
              (eraseIds ((bookOrders gone).map (fun o => o.ID)) f) lvl).newOrder,
            bookSide := (p, (fillLevel
              { n with Quantity := n.Quantity - sumQuantity (bookOrders gone) }
              (eraseIds ((bookOrders gone).map (fun o => o.ID)) f) lvl).bookLevel) :: rest,
            finders := (fillLevel { n with Quantity := n.Quantity - sumQuantity (bookOrders gone) }
              (eraseIds ((bookOrders gone).map (fun o => o.ID)) f) lvl).finders,
            trades := (bookOrders gone).map (fullTrade n)
              ++ (fillLevel { n with Quantity := n.Quantity - sumQuantity (bookOrders gone) }
                (eraseIds ((bookOrders gone).map (fun o => o.ID)) f) lvl).trades }) := by
  induction book generalizing n f with
  | nil =>
    left
    exact ⟨[], [], rfl, by simp, by simp [bookOrders, sumQuantity], Or.inl rfl,
      by simp [earlyExitScan, bookOrders, sumQuantity, eraseIds]⟩
  | cons x rest ih =>
    obtain ⟨p, lvl⟩ := x
    by_cases hp : w n.Price p = true
    · simp only [earlyExitScan, hp, if_true, matchOrder_eq_fillLevel]
      by_cases he : (fillLevel n f lvl).bookLevel = []
      · obtain ⟨hsum, hfill⟩ := fillLevel_of_empty n f lvl he
        simp only [he, List.isEmpty_nil, if_true]
        by_cases hq : (fillLevel n f lvl).newOrder.Quantity = 0
        · left
          simp only [hq, if_true]
          refine ⟨[(p, lvl)], rest, rfl, ?_, ?_, ?_, ?_⟩
          · intro y hy; simp at hy; subst hy; exact hp
          · simpa [bookOrders] using hsum
          · right; left
            rw [hfill] at hq
            simpa [bookOrders] using hq
          · rw [hfill]; simp [bookOrders]
        · simp only [hq, if_false]
          rw [hfill] at hq ⊢
          simp only at hq ⊢
          rcases ih { n with Quantity := n.Quantity - sumQuantity lvl }
              (eraseIds (lvl.map (fun o => o.ID)) f) with
            ⟨gone, rest1, h1, h2, h3, h4, h5⟩ | ⟨gone, p1, lvl1, rest1, h1, h2, h3, h4, h5, h6⟩
          · left
            refine ⟨(p, lvl) :: gone, rest1, by rw [h1]; rfl, ?_, ?_, ?_, ?_⟩
            · intro y hy
              rcases List.mem_cons.mp hy with hy | hy
              · subst hy; exact hp
              · exact h2 y hy
            · simp only [bookOrders_cons, sumQuantity_append] at h3 ⊢; omega
            · simp only [bookOrders_cons, sumQuantity_append] at h4 ⊢
              rcases h4 with h4 | h4 | h4
              · exact Or.inl h4
              · right; left; omega
              · exact Or.inr (Or.inr h4)
            · rw [h5]
              simp only [bookOrders_cons, sumQuantity_append, List.map_append, eraseIds_append,
                fullTrade_quantity, TryMatchResult.mk.injEq, Order.mk.injEq, true_and, and_true]
              simp only at h3
              omega
          · right
            have e : n.Quantity - sumQuantity lvl - sumQuantity (bookOrders gone)
                = n.Quantity - (sumQuantity lvl + sumQuantity (bookOrders gone)) := by omega
            refine ⟨(p, lvl) :: gone, p1, lvl1, rest1, by rw [h1]; rfl, ?_, h3, ?_, ?_, ?_⟩
            · intro y hy
              rcases List.mem_cons.mp hy with hy | hy
              · subst hy; exact hp
              · exact h2 y hy
            · simp only [bookOrders_cons, sumQuantity_append] at h4 ⊢; omega
            · simp only [bookOrders_cons, sumQuantity_append, List.map_append, eraseIds_append]
              simp only [e] at h5
              exact h5
            · rw [h6]
              simp only [bookOrders_cons, sumQuantity_append, List.map_append, eraseIds_append,
                fullTrade_quantity, e, List.append_assoc]
      · right
        have he2 : (fillLevel n f lvl).bookLevel.isEmpty = false := by
          cases hl : (fillLevel n f lvl).bookLevel with
          | nil => exact absurd hl he
          | cons a l => rfl
        simp only [he2]
        refine ⟨[], p, lvl, rest, rfl, by simp, hp, by simp [bookOrders, sumQuantity], ?_, ?_⟩
        · simpa [bookOrders, sumQuantity, eraseIds] using he
        · simp [bookOrders, sumQuantity, eraseIds]
    · have hp2 : w n.Price p = false := by simpa using hp
      left
      refine ⟨[], (p, lvl) :: rest, rfl, by simp, by simp [bookOrders, sumQuantity], ?_, ?_⟩
      · exact Or.inr (Or.inr ⟨(p, lvl), rest, rfl, hp2⟩)
      · simp [earlyExitScan, hp2, bookOrders, sumQuantity, eraseIds]

/-! ## What a scan leaves of a book side -/

theorem KeysSorted_iff_map {K V : Type} (less : K → K → Bool) (m : List (K × V)) :
    KeysSorted less m ↔ List.Pairwise (fun a b => less a b = true) (m.map Prod.fst) := by
  unfold KeysSorted
  rw [List.pairwise_map]

theorem KeysSorted_of_keys_suffix {K V W : Type} {less : K → K → Bool} {m1 : List (K × V)}
    {m2 : List (K × W)} (hs : m1.map Prod.fst <:+ m2.map Prod.fst) (h : KeysSorted less m2) :
    KeysSorted less m1 := by
  rw [KeysSorted_iff_map] at h ⊢
  exact List.Pairwise.sublist hs.sublist h

theorem crossFirst_asks (n : Order) (hside : n.Side = "BUY") (book : book_t)
    (hs : KeysSorted askLess book) : CrossFirst (newOrderWillMatchBook n n.Price) book := by
  induction book with
  | nil => trivial
  | cons x rest ih =>
    obtain ⟨p, lvl⟩ := x
    refine ⟨?_, ih (KeysSorted_tail hs)⟩
    intro hp y hy
    have h1 := KeysSorted_head hs y hy
    simp only [newOrderWillMatchBook, hside, if_true, askLess, decide_eq_true_eq,
      decide_eq_false_iff_not] at hp h1 ⊢
    omega

theorem crossFirst_bids (n : Order) (hside : n.Side ≠ "BUY") (book : book_t)
    (hs : KeysSorted bidLess book) : CrossFirst (newOrderWillMatchBook n n.Price) book := by
  induction book with
  | nil => trivial
  | cons x rest ih =>
    obtain ⟨p, lvl⟩ := x
    refine ⟨?_, ih (KeysSorted_tail hs)⟩
    intro hp y hy
    have h1 := KeysSorted_head hs y hy
    simp only [newOrderWillMatchBook, hside, if_false, bidLess, decide_eq_true_eq,
      decide_eq_false_iff_not] at hp h1 ⊢
    omega

theorem fillLevel_left_zero_of_nonempty (n : Order) (f : order_map_t) (lvl : order_vector_t)
    (h : (fillLevel n f lvl).bookLevel ≠ []) : (fillLevel n f lvl).newOrder.Quantity = 0 := by
  by_contra hq
  exact h (fillLevel_empty_of_left n f lvl hq)

theorem earlyExitScan_keys (w : Nat → Nat → Bool) (n : Order) (f : order_map_t) (book : book_t) :
    (earlyExitScan w n f book).bookSide.map Prod.fst <:+ book.map Prod.fst := by
  rcases earlyExitScan_shape w n f book with
    ⟨gone, rest, h1, _, _, _, h5⟩ | ⟨gone, p, lvl, rest, h1, _, _, _, _, h6⟩
  · rw [h5, h1]
    exact ⟨gone.map Prod.fst, by simp⟩
  · rw [h6, h1]
    exact ⟨gone.map Prod.fst, by simp⟩

theorem earlyExitScan_nonEmpty (w : Nat → Nat → Bool) (n : Order) (f : order_map_t)
    (book : book_t) (h : LevelsNonEmpty book) :
    LevelsNonEmpty (earlyExitScan w n f book).bookSide := by
  rcases earlyExitScan_shape w n f book with
    ⟨gone, rest, h1, _, _, _, h5⟩ | ⟨gone, p, lvl, rest, h1, _, _, _, h5, h6⟩
  · rw [h5]
    intro x hx
    exact h x (by rw [h1]; exact List.mem_append_right _ hx)
  · rw [h6]
    intro x hx
    rcases List.mem_cons.mp hx with hx | hx
    · subst hx; exact h5
    · exact h x (by rw [h1]; exact List.mem_append_right _ (List.mem_cons_of_mem _ hx))

theorem crossFirst_append_right (c : Nat → Bool) (b1 b2 : book_t) (h : CrossFirst c (b1 ++ b2)) :
    CrossFirst c b2 := by
  induction b1 with
  | nil => exact h
  | cons x rest ih =>
    obtain ⟨p, lvl⟩ := x
    exact ih h.2

theorem crossFirst_none (c : Nat → Bool) (x : Nat × order_vector_t) (rest : book_t)
    (h : CrossFirst c (x :: rest)) (hx : c x.1 = false) : ∀ y ∈ x :: rest, c y.1 = false := by
  obtain ⟨p, lvl⟩ := x
  intro y hy
  rcases List.mem_cons.mp hy with hy | hy
  · subst hy; exact hx
  · exact h.1 hx y hy

theorem earlyExitScan_left_noCross (w : Nat → Nat → Bool) (n : Order) (f : order_map_t)
    (book : book_t) (hc : CrossFirst (w n.Price) book)
    (hq : (earlyExitScan w n f book).newOrder.Quantity ≠ 0) :
    ∀ x ∈ (earlyExitScan w n f book).bookSide, w n.Price x.1 = false := by
  rcases earlyExitScan_shape w n f book with
    ⟨gone, rest, h1, _, _, h4, h5⟩ | ⟨gone, p, lvl, rest, h1, _, _, _, h5, h6⟩
  · rw [h5] at hq ⊢
    simp only at hq ⊢
    rcases h4 with h4 | h4 | ⟨x, rest1, h4, h7⟩
    · subst h4; simp
    · exact absurd h4 hq
    · subst h4
      rw [h1] at hc
      exact crossFirst_none _ x rest1 (crossFirst_append_right _ gone _ hc) h7
  · rw [h6] at hq
    simp only at hq
    exact absurd (fillLevel_left_zero_of_nonempty _ _ lvl h5) hq

theorem earlyExitScan_newOrder (w : Nat → Nat → Bool) (n : Order) (f : order_map_t)
    (book : book_t) :
    (earlyExitScan w n f book).newOrder
      = { n with Quantity := (earlyExitScan w n f book).newOrder.Quantity } := by
  rcases earlyExitScan_shape w n f book with
    ⟨gone, rest, h1, _, _, _, h5⟩ | ⟨gone, p, lvl, rest, h1, _, _, _, _, h6⟩
  · rw [h5]
  · rw [h6]
    simp only
    rw [fillLevel_newOrder]

/-! ## The public operations keep the book well formed -/

theorem key_mem_of_suffix {V W : Type} {m1 : List (Nat × V)} {m2 : List (Nat × W)}
    (hs : m1.map Prod.fst <:+ m2.map Prod.fst) (x : Nat × V) (hx : x ∈ m1) :
    ∃ y ∈ m2, y.1 = x.1 := by
  have h1 : x.1 ∈ m1.map Prod.fst := List.mem_map_of_mem _ hx
  have h2 : x.1 ∈ m2.map Prod.fst := hs.subset h1
  obtain ⟨y, hy, hy2⟩ := List.mem_map.mp h2
  exact ⟨y, hy, hy2⟩

theorem mem_pushBackAt (less : Nat → Nat → Bool) (price : Nat) (o : Order) (book : book_t)
    (x : Nat × order_vector_t) (hx : x ∈ pushBackAt less price o book) :
    x = (price, (mapFind price book).getD [] ++ [o]) ∨ x ∈ book :=
  mem_mapInsert _ _ _ _ hx

theorem pushBackAt_nonEmpty (less : Nat → Nat → Bool) (price : Nat) (o : Order) (book : book_t)
    (h : LevelsNonEmpty book) : LevelsNonEmpty (pushBackAt less price o book) := by
  intro x hx
  rcases mem_pushBackAt less price o book x hx with hx | hx
  · subst hx; simp
  · exact h x hx

theorem processNewBuyOrder_inv (s : OrderBook) (o : Order) (hside : o.Side = "BUY")
    (h : BookInv s) : BookInv (processNewBuyOrder s o).1 := by
  have hc := crossFirst_asks o hside s.mAsks h.asksSorted
  unfold processNewBuyOrder
  rw [tryMatchOrder_eq_earlyExitScan o _ _ hc]
  have hkeys := earlyExitScan_keys (newOrderWillMatchBook o) o s.mOrderFinders s.mAsks
  have hne := earlyExitScan_nonEmpty (newOrderWillMatchBook o) o s.mOrderFinders s.mAsks
    h.asksNonEmpty
  have hprice : (earlyExitScan (newOrderWillMatchBook o) o s.mOrderFinders s.mAsks).newOrder.Price
      = o.Price := by rw [earlyExitScan_newOrder]
  simp only
  split_ifs with hins
  · refine ⟨KeysSorted_mapInsert bidLess_strict _ _ h.bidsSorted,
      KeysSorted_of_keys_suffix hkeys h.asksSorted,
      pushBackAt_nonEmpty _ _ _ _ h.bidsNonEmpty, hne, ?_⟩
    intro b hb a ha
    simp only at hb ha
    rcases mem_pushBackAt _ _ _ _ b hb with hb | hb
    · have hq : (earlyExitScan (newOrderWillMatchBook o) o s.mOrderFinders
          s.mAsks).newOrder.Quantity ≠ 0 := by omega
      have h1 := earlyExitScan_left_noCross _ o s.mOrderFinders s.mAsks hc hq a ha
      subst hb
      simp only [newOrderWillMatchBook, hside, if_true, decide_eq_false_iff_not] at h1
      simp only [hprice]
      omega
    · obtain ⟨y, hy, hy2⟩ := key_mem_of_suffix hkeys a ha
      rw [← hy2]
      exact h.noCross b hb y hy
  · refine ⟨h.bidsSorted, KeysSorted_of_keys_suffix hkeys h.asksSorted, h.bidsNonEmpty, hne, ?_⟩
    intro b hb a ha
    obtain ⟨y, hy, hy2⟩ := key_mem_of_suffix hkeys a ha
    rw [← hy2]
    exact h.noCross b hb y hy

theorem processNewSelOrder_inv (s : OrderBook) (o : Order) (hside : o.Side ≠ "BUY")
    (h : BookInv s) : BookInv (processNewSelOrder s o).1 := by
  have hc := crossFirst_bids o hside s.mBids h.bidsSorted
  unfold processNewSelOrder
  rw [tryMatchOrder_eq_earlyExitScan o _ _ hc]
  have hkeys := earlyExitScan_keys (newOrderWillMatchBook o) o s.mOrderFinders s.mBids
  have hne := earlyExitScan_nonEmpty (newOrderWillMatchBook o) o s.mOrderFinders s.mBids
    h.bidsNonEmpty
  have hprice : (earlyExitScan (newOrderWillMatchBook o) o s.mOrderFinders s.mBids).newOrder.Price
      = o.Price := by rw [earlyExitScan_newOrder]
  simp only
  split_ifs with hins
  · refine ⟨KeysSorted_of_keys_suffix hkeys h.bidsSorted,
      KeysSorted_mapInsert askLess_strict _ _ h.asksSorted, hne,
      pushBackAt_nonEmpty _ _ _ _ h.asksNonEmpty, ?_⟩
    intro b hb a ha
    simp only at hb ha
    rcases mem_pushBackAt _ _ _ _ a ha with ha | ha
    · have hq : (earlyExitScan (newOrderWillMatchBook o) o s.mOrderFinders
          s.mBids).newOrder.Quantity ≠ 0 := by omega
      have h1 := earlyExitScan_left_noCross _ o s.mOrderFinders s.mBids hc hq b hb
      subst ha
      simp only [newOrderWillMatchBook, hside, if_false, decide_eq_false_iff_not] at h1
      simp only [hprice]
      omega
    · obtain ⟨y, hy, hy2⟩ := key_mem_of_suffix hkeys b hb
      rw [← hy2]
      exact h.noCross y hy a ha
  · refine ⟨KeysSorted_of_keys_suffix hkeys h.bidsSorted, h.asksSorted, hne, h.asksNonEmpty, ?_⟩
    intro b hb a ha
    obtain ⟨y, hy, hy2⟩ := key_mem_of_suffix hkeys b hb
    rw [← hy2]
    exact h.noCross y hy a ha

theorem retrieveOrderInLevelOrders_spec (lvl : order_vector_t) (orderID : String) (o : Order)
    (lvl1 : order_vector_t) (h : retrieveOrderInLevelOrders lvl orderID = some (o, lvl1)) :
    o ∈ lvl ∧ o.ID = orderID ∧ List.Sublist lvl1 lvl := by
  induction lvl generalizing lvl1 with
  | nil => simp [retrieveOrderInLevelOrders] at h
  | cons a rest ih =>
    simp only [retrieveOrderInLevelOrders] at h
    split_ifs at h with h1
    · simp only [Option.some.injEq, Prod.mk.injEq] at h
      obtain ⟨h2, h3⟩ := h
      subst h2; subst h3
      exact ⟨List.mem_cons_self _ _, h1.symm, List.sublist_cons_self _ _⟩
    · cases hr : retrieveOrderInLevelOrders rest orderID with
      | none => rw [hr] at h; simp at h
      | some r =>
        obtain ⟨found, rest1⟩ := r
        rw [hr] at h
        simp only [Option.some.injEq, Prod.mk.injEq] at h
        obtain ⟨h2, h3⟩ := h
        subst h2; subst h3
        obtain ⟨i1, i2, i3⟩ := ih rest1 hr
        exact ⟨List.mem_cons_of_mem _ i1, i2, List.Sublist.cons₂ _ i3⟩

theorem bidOrderFinder_spec (s : OrderBook) (p : Nat) (orderID : String) (o : Order)
    (s1 : OrderBook) (h : bidOrderFinder s p orderID = Outcome.ok (o, s1)) :
    ∃ lvl lvl1, mapFind p s.mBids = some lvl
      ∧ retrieveOrderInLevelOrders lvl orderID = some (o, lvl1)
      ∧ s1 = { s with mBids := sideAfterRetrieve bidLess p lvl1 s.mBids } := by
  unfold bidOrderFinder at h
  cases hf : mapFind p s.mBids with
  | none => rw [hf] at h; simp at h
  | some lvl =>
    rw [hf] at h
    simp only at h
    cases hr : retrieveOrderInLevelOrders lvl orderID with
    | none => rw [hr] at h; simp at h
    | some r =>
      obtain ⟨found, lvl1⟩ := r
      rw [hr] at h
      simp only at h
      refine ⟨lvl, lvl1, rfl, ?_, ?_⟩
      · split_ifs at h <;> simp only [Outcome.ok.injEq, Prod.mk.injEq] at h <;>
          (rw [← h.1]; exact hr)
      · unfold sideAfterRetrieve
        split_ifs at h ⊢ <;> simp only [Outcome.ok.injEq, Prod.mk.injEq] at h <;> exact h.2.symm

theorem askOrderFinder_spec (s : OrderBook) (p : Nat) (orderID : String) (o : Order)
    (s1 : OrderBook) (h : askOrderFinder s p orderID = Outcome.ok (o, s1)) :
    ∃ lvl lvl1, mapFind p s.mAsks = some lvl
      ∧ retrieveOrderInLevelOrders lvl orderID = some (o, lvl1)
      ∧ s1 = { s with mAsks := sideAfterRetrieve askLess p lvl1 s.mAsks } := by
  unfold askOrderFinder at h
  cases hf : mapFind p s.mAsks with
  | none => rw [hf] at h; simp at h
  | some lvl =>
    rw [hf] at h
    simp only at h
    cases hr : retrieveOrderInLevelOrders lvl orderID with
    | none => rw [hr] at h; simp at h
    | some r =>
      obtain ⟨found, lvl1⟩ := r
      rw [hr] at h
      simp only at h
      refine ⟨lvl, lvl1, rfl, ?_, ?_⟩
      · split_ifs at h <;> simp only [Outcome.ok.injEq, Prod.mk.injEq] at h <;>
          (rw [← h.1]; exact hr)
      · unfold sideAfterRetrieve
        split_ifs at h ⊢ <;> simp only [Outcome.ok.injEq, Prod.mk.injEq] at h <;> exact h.2.symm

/-- The result of a successful `retrieveOrder`: the order is taken out of the
level the finders name, on the side they name. -/
theorem retrieveOrder_spec (s : OrderBook) (orderID : String) (o : Order) (s1 : OrderBook)
    (h : retrieveOrder s orderID = Outcome.ok (o, s1)) :
    (∃ p lvl lvl1, mapFind orderID s.mOrderFinders = some (OrderFinder.bid, p)
        ∧ mapFind p s.mBids = some lvl
        ∧ retrieveOrderInLevelOrders lvl orderID = some (o, lvl1)
        ∧ s1 = { s with mBids := sideAfterRetrieve bidLess p lvl1 s.mBids })
    ∨ (∃ p lvl lvl1, mapFind orderID s.mOrderFinders = some (OrderFinder.ask, p)
        ∧ mapFind p s.mAsks = some lvl
        ∧ retrieveOrderInLevelOrders lvl orderID = some (o, lvl1)
        ∧ s1 = { s with mAsks := sideAfterRetrieve askLess p lvl1 s.mAsks }) := by
  unfold retrieveOrder at h
  cases hf : mapFind orderID s.mOrderFinders with
  | none => rw [hf] at h; simp at h
  | some v =>
    obtain ⟨fd, p⟩ := v
    rw [hf] at h
    cases fd with
    | bid =>
      simp only at h
      obtain ⟨lvl, lvl1, h1, h2, h3⟩ := bidOrderFinder_spec s p orderID o s1 h
      exact Or.inl ⟨p, lvl, lvl1, rfl, h1, h2, h3⟩
    | ask =>
      simp only at h
      obtain ⟨lvl, lvl1, h1, h2, h3⟩ := askOrderFinder_spec s p orderID o s1 h
      exact Or.inr ⟨p, lvl, lvl1, rfl, h1, h2, h3⟩

theorem sideAfterRetrieve_sorted {less : Nat → Nat → Bool} (hl : StrictOrder less) (p : Nat)
    (lvl1 : order_vector_t) (side : book_t) (h : KeysSorted less side) :
    KeysSorted less (sideAfterRetrieve less p lvl1 side) := by
  unfold sideAfterRetrieve
  split_ifs
  · exact KeysSorted_mapErase p h
  · exact KeysSorted_mapInsert hl p lvl1 h

theorem mem_sideAfterRetrieve (less : Nat → Nat → Bool) (p : Nat) (lvl1 : order_vector_t)
    (side : book_t) (x : Nat × order_vector_t) (hx : x ∈ sideAfterRetrieve less p lvl1 side) :
    (x = (p, lvl1) ∧ lvl1 ≠ []) ∨ x ∈ side := by
  unfold sideAfterRetrieve at hx
  split_ifs at hx with h1
  · exact Or.inr ((mapErase_sublist p side).subset hx)
  · rcases mem_mapInsert _ _ _ _ hx with h2 | h2
    · left
      refine ⟨h2, ?_⟩
      intro h3; subst h3; simp at h1
    · exact Or.inr h2

theorem sideAfterRetrieve_nonEmpty (less : Nat → Nat → Bool) (p : Nat) (lvl1 : order_vector_t)
    (side : book_t) (h : LevelsNonEmpty side) :
    LevelsNonEmpty (sideAfterRetrieve less p lvl1 side) := by
  intro x hx
  rcases mem_sideAfterRetrieve less p lvl1 side x hx with ⟨h1, h2⟩ | h1
  · subst h1; exact h2
  · exact h x h1

theorem sideAfterRetrieve_key (less : Nat → Nat → Bool) (p : Nat) (lvl lvl1 : order_vector_t)
    (side : book_t) (hf : mapFind p side = some lvl) (x : Nat × order_vector_t)
    (hx : x ∈ sideAfterRetrieve less p lvl1 side) : ∃ y ∈ side, y.1 = x.1 := by
  rcases mem_sideAfterRetrieve less p lvl1 side x hx with ⟨h1, _⟩ | h1
  · subst h1
    exact ⟨(p, lvl), mem_of_mapFind _ _ _ hf, rfl⟩
  · exact ⟨x, h1, rfl⟩

theorem retrieveOrder_inv (s : OrderBook) (orderID : String) (o : Order) (s1 : OrderBook)
    (h : retrieveOrder s orderID = Outcome.ok (o, s1)) (hinv : BookInv s) : BookInv s1 := by
  rcases retrieveOrder_spec s orderID o s1 h with
    ⟨p, lvl, lvl1, _, h2, _, h4⟩ | ⟨p, lvl, lvl1, _, h2, _, h4⟩
  · subst h4
    refine ⟨sideAfterRetrieve_sorted bidLess_strict _ _ _ hinv.bidsSorted, hinv.asksSorted,
      sideAfterRetrieve_nonEmpty _ _ _ _ hinv.bidsNonEmpty, hinv.asksNonEmpty, ?_⟩
    intro b hb a ha
    obtain ⟨y, hy, hy2⟩ := sideAfterRetrieve_key bidLess p lvl lvl1 s.mBids h2 b hb
    rw [← hy2]
    exact hinv.noCross y hy a ha
  · subst h4
    refine ⟨hinv.bidsSorted, sideAfterRetrieve_sorted askLess_strict _ _ _ hinv.asksSorted,
      hinv.bidsNonEmpty, sideAfterRetrieve_nonEmpty _ _ _ _ hinv.asksNonEmpty, ?_⟩
    intro b hb a ha
    obtain ⟨y, hy, hy2⟩ := sideAfterRetrieve_key askLess p lvl lvl1 s.mAsks h2 a ha
    rw [← hy2]
    exact hinv.noCross b hb y hy

theorem BookInv_of_sides {s s1 : OrderBook} (hb : s1.mBids = s.mBids) (ha : s1.mAsks = s.mAsks)
    (h : BookInv s) : BookInv s1 := by
  refine ⟨hb ▸ h.bidsSorted, ha ▸ h.asksSorted, hb ▸ h.bidsNonEmpty, ha ▸ h.asksNonEmpty, ?_⟩
  intro b hb1 a ha1
  rw [hb] at hb1; rw [ha] at ha1
  exact h.noCross b hb1 a ha1

/-- A successful `processCancel` in terms of `retrieveOrder`. -/
theorem processCancel_spec (s : OrderBook) (orderID : String) (s1 : OrderBook)
    (h : processCancel s orderID = Outcome.ok s1) :
    (mapFind orderID s.mOrderFinders = none ∧ s1 = s)
    ∨ (∃ o s2, mapFind orderID s.mOrderFinders ≠ none
        ∧ retrieveOrder s orderID = Outcome.ok (o, s2)
        ∧ s1 = { s2 with mOrderFinders := mapErase orderID s2.mOrderFinders }) := by
  unfold processCancel at h
  split_ifs at h with h1
  · left
    simp only [Outcome.ok.injEq] at h
    exact ⟨h1, h.symm⟩
  · right
    cases hr : retrieveOrder s orderID with
    | outOfRange b => rw [hr] at h; simp at h
    | undefined => rw [hr] at h; simp at h
    | ok v =>
      obtain ⟨o, s2⟩ := v
      rw [hr] at h
      simp only [Outcome.ok.injEq] at h
      exact ⟨o, s2, h1, rfl, h.symm⟩

/-- A successful `processMod` in terms of `retrieveOrder` and the two
functions for new orders. -/
theorem processMod_spec (s : OrderBook) (tokens : List String) (s1 : OrderBook)
    (trades : List Trade) (h : processMod s tokens = Outcome.ok (s1, trades)) :
    (∃ orderID, tokens.get? 1 = some orderID ∧ mapFind orderID s.mOrderFinders = none
        ∧ s1 = s ∧ trades = [])
    ∨ (∃ orderID side priceToken quantityToken o s2,
        tokens.get? 1 = some orderID ∧ tokens.get? 2 = some side
        ∧ tokens.get? 3 = some priceToken ∧ tokens.get? 4 = some quantityToken
        ∧ mapFind orderID s.mOrderFinders ≠ none
        ∧ retrieveOrder s orderID = Outcome.ok (o, s2)
        ∧ ((side = "BUY" ∧ (s1, trades) = processNewBuyOrder
              { s2 with mOrderFinders := mapErase o.ID s2.mOrderFinders }
              { o with Side := side, Price := readUInt64 priceToken o.Price,
                       Quantity := readUInt64 quantityToken o.Quantity })
          ∨ (side ≠ "BUY" ∧ (s1, trades) = processNewSelOrder
              { s2 with mOrderFinders := mapErase o.ID s2.mOrderFinders }
              { o with Side := side, Price := readUInt64 priceToken o.Price,
                       Quantity := readUInt64 quantityToken o.Quantity }))) := by
  unfold processMod at h
  cases h1 : tokens.get? 1 with
  | none => rw [h1] at h; simp at h
  | some orderID =>
    rw [h1] at h
    simp only at h
    split_ifs at h with hf
    · left
      simp only [Outcome.ok.injEq, Prod.mk.injEq] at h
      exact ⟨orderID, rfl, hf, h.1.symm, h.2.symm⟩
    · right
      cases hr : retrieveOrder s orderID with
      | outOfRange b => rw [hr] at h; simp at h
      | undefined => rw [hr] at h; simp at h
      | ok v =>
        obtain ⟨o, s2⟩ := v
        rw [hr] at h
        simp only at h
        cases h2 : tokens.get? 2 with
        | none => rw [h2] at h; simp at h
        | some side =>
          cases h3 : tokens.get? 3 with
          | none => rw [h2, h3] at h; simp at h
          | some priceToken =>
            cases h4 : tokens.get? 4 with
            | none => rw [h2, h3, h4] at h; simp at h
            | some quantityToken =>
              rw [h2, h3, h4] at h
              simp only at h
              refine ⟨orderID, side, priceToken, quantityToken, o, s2, rfl, rfl, rfl, rfl, hf,
                hr, ?_⟩
              split_ifs at h with hs
              · left
                simp only [Outcome.ok.injEq] at h
                exact ⟨hs, h.symm⟩
              · right
                simp only [Outcome.ok.injEq] at h
                exact ⟨hs, h.symm⟩

theorem retrieveOrder_throw (s : OrderBook) (orderID : String) (b : OrderBook)
    (h : retrieveOrder s orderID = Outcome.outOfRange b) : b = s := by
  unfold retrieveOrder at h
  cases hf : mapFind orderID s.mOrderFinders with
  | none =>
    rw [hf] at h
    simp only [Outcome.outOfRange.injEq] at h
    exact h.symm
  | some v =>
    obtain ⟨fd, p⟩ := v
    rw [hf] at h
    cases fd with
    | bid =>
      simp only [bidOrderFinder] at h
      cases hl : mapFind p s.mBids with
      | none =>
        rw [hl] at h
        simp only [Outcome.outOfRange.injEq] at h
        exact h.symm
      | some lvl =>
        rw [hl] at h
        simp only at h
        cases hr : retrieveOrderInLevelOrders lvl orderID with
        | none => rw [hr] at h; simp at h
        | some r =>
          rw [hr] at h
          simp only at h
          split_ifs at h
    | ask =>
      simp only [askOrderFinder] at h
      cases hl : mapFind p s.mAsks with
      | none =>
        rw [hl] at h
        simp only [Outcome.outOfRange.injEq] at h
        exact h.symm
      | some lvl =>
        rw [hl] at h
        simp only at h
        cases hr : retrieveOrderInLevelOrders lvl orderID with
        | none => rw [hr] at h; simp at h
        | some r =>
          rw [hr] at h
          simp only at h
          split_ifs at h

/-- A `processCancel` that throws has not changed the book. -/
theorem processCancel_throw (s : OrderBook) (orderID : String) (b : OrderBook)
    (h : processCancel s orderID = Outcome.outOfRange b) : b = s := by
  unfold processCancel at h
  split_ifs at h with h1
  cases hr : retrieveOrder s orderID with
  | outOfRange b1 =>
    rw [hr] at h
    simp only [Outcome.outOfRange.injEq] at h
    rw [← h]
    exact retrieveOrder_throw s orderID b1 hr
  | undefined => rw [hr] at h; simp at h
  | ok v => rw [hr] at h; simp at h

/-- A `processMod` that throws has either not changed the book, or has taken
the order out of the book and the finders and nothing more. -/
theorem processMod_throw (s : OrderBook) (tokens : List String) (b : OrderBook)
    (h : processMod s tokens = Outcome.outOfRange b) :
    b = s ∨ ∃ orderID o s2, retrieveOrder s orderID = Outcome.ok (o, s2)
      ∧ b = { s2 with mOrderFinders := mapErase o.ID s2.mOrderFinders } := by
  unfold processMod at h
  cases h1 : tokens.get? 1 with
  | none =>
    rw [h1] at h
    simp only [Outcome.outOfRange.injEq] at h
    exact Or.inl h.symm
  | some orderID =>
    rw [h1] at h
    simp only at h
    split_ifs at h with hf
    cases hr : retrieveOrder s orderID with
    | outOfRange b1 =>
      rw [hr] at h
      simp only [Outcome.outOfRange.injEq] at h
      left
      rw [← h]
      exact retrieveOrder_throw s orderID b1 hr
    | undefined => rw [hr] at h; simp at h
    | ok v =>
      obtain ⟨o, s2⟩ := v
      rw [hr] at h
      simp only at h
      right
      refine ⟨orderID, o, s2, hr, ?_⟩
      cases h2 : tokens.get? 2 with
      | none =>
        rw [h2] at h
        simp only [Outcome.outOfRange.injEq] at h
        exact h.symm
      | some side =>
        cases h3 : tokens.get? 3 with
        | none =>
          rw [h2, h3] at h
          simp only [Outcome.outOfRange.injEq] at h
          exact h.symm
        | some priceToken =>
          cases h4 : tokens.get? 4 with
          | none =>
            rw [h2, h3, h4] at h
            simp only [Outcome.outOfRange.injEq] at h
            exact h.symm
          | some quantityToken =>
            rw [h2, h3, h4] at h
            simp only at h
            split_ifs at h

theorem reachable_inv (s : OrderBook) (h : Reachable s) : BookInv s := by
  induction h with
  | empty =>
    exact ⟨List.Pairwise.nil, List.Pairwise.nil, by intro x hx; simp [OrderBook.empty] at hx,
      by intro x hx; simp [OrderBook.empty] at hx,
      by intro b hb; simp [OrderBook.empty] at hb⟩
  | newBuy s o _ hside ih => exact processNewBuyOrder_inv s o hside ih
  | newSel s o _ hside ih => exact processNewSelOrder_inv s o hside ih
  | cancel s orderID s1 _ hc ih =>
    rcases processCancel_spec s orderID s1 hc with ⟨_, h2⟩ | ⟨o, s2, _, h2, h3⟩
    · subst h2; exact ih
    · subst h3
      exact @BookInv_of_sides s2 _ rfl rfl (retrieveOrder_inv s orderID o s2 h2 ih)
  | mod s tokens s1 trades _ hm ih =>
    rcases processMod_spec s tokens s1 trades hm with
      ⟨_, _, _, h3, _⟩ | ⟨orderID, side, pt, qt, o, s2, _, _, _, _, _, hr, hcase⟩
    · subst h3; exact ih
    · have hinv2 : BookInv { s2 with mOrderFinders := mapErase o.ID s2.mOrderFinders } :=
        @BookInv_of_sides s2 _ rfl rfl (retrieveOrder_inv s orderID o s2 hr ih)
      rcases hcase with ⟨hs, he⟩ | ⟨hs, he⟩
      · have h1 : s1 = (processNewBuyOrder _ _).1 := congrArg Prod.fst he
        rw [h1]
        exact processNewBuyOrder_inv _ _ hs hinv2
      · have h1 : s1 = (processNewSelOrder _ _).1 := congrArg Prod.fst he
        rw [h1]
        exact processNewSelOrder_inv _ _ hs hinv2
  | cancelThrows s orderID s1 _ hc ih =>
    rw [processCancel_throw s orderID s1 hc]; exact ih
  | modThrows s tokens s1 _ hm ih =>
    rcases processMod_throw s tokens s1 hm with h1 | ⟨orderID, o, s2, hr, h1⟩
    · rw [h1]; exact ih
    · rw [h1]
      exact @BookInv_of_sides s2 _ rfl rfl (retrieveOrder_inv s orderID o s2 hr ih)

/-! ## Facts about `tryMatchOrder` on any book side -/

theorem FilledFrom_refl (l : order_vector_t) : FilledFrom l l :=
  Or.inl ⟨[], rfl⟩

theorem matchOrder_filledFrom (n : Order) (f : order_map_t) (l : order_vector_t) :
    FilledFrom l (matchOrder n f l).bookLevel := by
  rw [matchOrder_eq_fillLevel]
  rcases fillLevel_shape n f l with ⟨full, rest, h1, _, _, h4⟩ | ⟨full, b, rest, h1, h2, h3, h4⟩
  · rw [h4]; exact Or.inl ⟨full, h1⟩
  · rw [h4]
    exact Or.inr ⟨full, b, rest, b.Quantity - (n.Quantity - sumQuantity full), h1,
      by omega, by omega, rfl⟩

theorem FilledFrom_positive (l0 l : order_vector_t) (h : FilledFrom l0 l)
    (hp : ∀ o ∈ l0, 0 < o.Quantity) : ∀ o ∈ l, 0 < o.Quantity := by
  rcases h with ⟨full, h1⟩ | ⟨full, b, rest, q, h1, h2, _, h4⟩
  · intro o ho
    exact hp o (by rw [h1]; exact List.mem_append_right _ ho)
  · intro o ho
    rw [h4] at ho
    rcases List.mem_cons.mp ho with ho | ho
    · subst ho; exact h2
    · exact hp o (by rw [h1]; exact List.mem_append_right _ (List.mem_cons_of_mem _ ho))

/-- Every level the loop of `tryMatchOrder` leaves comes from a level of the
book side at the same price. -/
theorem tryMatchOrderLoop_levels (orig : book_t) (w : Nat → Nat → Bool) (n : Order)
    (f : order_map_t) (tr : List Trade) (vis : book_t) (e : Nat) (suf : book_t)
    (hvis : ∀ x ∈ vis, ∃ l0, (x.1, l0) ∈ orig ∧ FilledFrom l0 x.2)
    (hsuf : ∀ x ∈ suf, x ∈ orig) :
    ∀ x ∈ (tryMatchOrderLoop w n f tr vis e suf).1.bookSide,
      ∃ l0, (x.1, l0) ∈ orig ∧ FilledFrom l0 x.2 := by
  induction suf generalizing n f tr vis e with
  | nil => simpa [tryMatchOrderLoop] using hvis
  | cons y rest ih =>
    obtain ⟨p, lvl⟩ := y
    have hy : (p, lvl) ∈ orig := hsuf _ (List.mem_cons_self _ _)
    have hrest : ∀ x ∈ rest, x ∈ orig := fun x hx => hsuf x (List.mem_cons_of_mem _ hx)
    simp only [tryMatchOrderLoop]
    by_cases h1 : w n.Price p = true
    · simp only [h1, if_true]
      by_cases h2 : (matchOrder n f lvl).newOrder.Quantity = 0
      · simp only [h2, if_true]
        intro x hx
        simp only [List.mem_append, List.mem_cons] at hx
        rcases hx with hx | hx | hx
        · exact hvis x hx
        · subst hx; exact ⟨lvl, hy, matchOrder_filledFrom n f lvl⟩
        · exact ⟨x.2, hrest x hx, FilledFrom_refl _⟩
      · simp only [h2, if_false]
        apply ih _ _ _ _ _ _ hrest
        intro x hx
        simp only [List.mem_append, List.mem_singleton] at hx
        rcases hx with hx | hx
        · exact hvis x hx
        · subst hx; exact ⟨lvl, hy, matchOrder_filledFrom n f lvl⟩
    · simp only [h1, if_false]
      apply ih _ _ _ _ _ _ hrest
      intro x hx
      simp only [List.mem_append, List.mem_singleton] at hx
      rcases hx with hx | hx
      · exact hvis x hx
      · subst hx; exact ⟨lvl, hy, FilledFrom_refl _⟩

theorem tryMatchOrder_levels (n : Order) (f : order_map_t) (book : book_t) :
    ∀ x ∈ (tryMatchOrder n f book).bookSide, ∃ l0, (x.1, l0) ∈ book ∧ FilledFrom l0 x.2 := by
  intro x hx
  unfold tryMatchOrder at hx
  simp only at hx
  exact tryMatchOrderLoop_levels book _ n f [] [] 0 book (by simp) (fun _ h => h) x
    (List.mem_of_mem_drop hx)

theorem tryMatchOrder_positive (n : Order) (f : order_map_t) (book : book_t)
    (h : QuantitiesPositive book) : QuantitiesPositive (tryMatchOrder n f book).bookSide := by
  intro x hx
  obtain ⟨l0, h1, h2⟩ := tryMatchOrder_levels n f book x hx
  exact FilledFrom_positive l0 x.2 h2 (h _ h1)

theorem pushBackAt_positive (less : Nat → Nat → Bool) (price : Nat) (o : Order) (book : book_t)
    (ho : 0 < o.Quantity) (h : QuantitiesPositive book) :
    QuantitiesPositive (pushBackAt less price o book) := by
  intro x hx
  rcases mem_pushBackAt less price o book x hx with hx | hx
  · subst hx
    intro o1 ho1
    simp only [List.mem_append, List.mem_singleton] at ho1
    rcases ho1 with ho1 | ho1
    · cases hf : mapFind price book with
      | none => rw [hf] at ho1; simp at ho1
      | some lvl =>
        rw [hf] at ho1
        exact h _ (mem_of_mapFind _ _ _ hf) o1 ho1
    · subst ho1; exact ho
  · exact h x hx

theorem sideAfterRetrieve_positive (less : Nat → Nat → Bool) (p : Nat)
    (lvl lvl1 : order_vector_t) (side : book_t) (hf : mapFind p side = some lvl)
    (hs : List.Sublist lvl1 lvl) (h : QuantitiesPositive side) :
    QuantitiesPositive (sideAfterRetrieve less p lvl1 side) := by
  intro x hx
  rcases mem_sideAfterRetrieve less p lvl1 side x hx with ⟨h1, _⟩ | h1
  · subst h1
    intro o ho
    exact h _ (mem_of_mapFind _ _ _ hf) o (hs.subset ho)
  · exact h x h1

theorem processNewBuyOrder_positive (s : OrderBook) (o : Order)
    (hb : QuantitiesPositive s.mBids) (ha : QuantitiesPositive s.mAsks) :
    QuantitiesPositive (processNewBuyOrder s o).1.mBids
      ∧ QuantitiesPositive (processNewBuyOrder s o).1.mAsks := by
  unfold processNewBuyOrder
  simp only
  split_ifs with hins
  · exact ⟨pushBackAt_positive _ _ _ _ hins.2 hb, tryMatchOrder_positive _ _ _ ha⟩
  · exact ⟨hb, tryMatchOrder_positive _ _ _ ha⟩

theorem processNewSelOrder_positive (s : OrderBook) (o : Order)
    (hb : QuantitiesPositive s.mBids) (ha : QuantitiesPositive s.mAsks) :
    QuantitiesPositive (processNewSelOrder s o).1.mBids
      ∧ QuantitiesPositive (processNewSelOrder s o).1.mAsks := by
  unfold processNewSelOrder
  simp only
  split_ifs with hins
  · exact ⟨tryMatchOrder_positive _ _ _ hb, pushBackAt_positive _ _ _ _ hins.2 ha⟩
  · exact ⟨tryMatchOrder_positive _ _ _ hb, ha⟩

theorem retrieveOrder_positive (s : OrderBook) (orderID : String) (o : Order) (s1 : OrderBook)
    (h : retrieveOrder s orderID = Outcome.ok (o, s1))
    (hb : QuantitiesPositive s.mBids) (ha : QuantitiesPositive s.mAsks) :
    QuantitiesPositive s1.mBids ∧ QuantitiesPositive s1.mAsks := by
  rcases retrieveOrder_spec s orderID o s1 h with
    ⟨p, lvl, lvl1, _, h2, h3, h4⟩ | ⟨p, lvl, lvl1, _, h2, h3, h4⟩
  · subst h4
    exact ⟨sideAfterRetrieve_positive _ _ lvl _ _ h2
      (retrieveOrderInLevelOrders_spec _ _ _ _ h3).2.2 hb, ha⟩
  · subst h4
    exact ⟨hb, sideAfterRetrieve_positive _ _ lvl _ _ h2
      (retrieveOrderInLevelOrders_spec _ _ _ _ h3).2.2 ha⟩

theorem reachablePublic_positive (s : OrderBook) (h : ReachablePublic s) :
    QuantitiesPositive s.mBids ∧ QuantitiesPositive s.mAsks := by
  induction h with
  | empty =>
    exact ⟨by intro x hx; simp [OrderBook.empty] at hx,
      by intro x hx; simp [OrderBook.empty] at hx⟩
  | newBuy s o _ ih => exact processNewBuyOrder_positive s o ih.1 ih.2
  | newSel s o _ ih => exact processNewSelOrder_positive s o ih.1 ih.2
  | cancel s orderID s1 _ hc ih =>
    rcases processCancel_spec s orderID s1 hc with ⟨_, h2⟩ | ⟨o, s2, _, h2, h3⟩
    · subst h2; exact ih
    · subst h3
      exact retrieveOrder_positive s orderID o s2 h2 ih.1 ih.2
  | mod s tokens s1 trades _ hm ih =>
    rcases processMod_spec s tokens s1 trades hm with
      ⟨_, _, _, h3, _⟩ | ⟨orderID, side, pt, qt, o, s2, _, _, _, _, _, hr, hcase⟩
    · subst h3; exact ih
    · have h2 := retrieveOrder_positive s orderID o s2 hr ih.1 ih.2
      rcases hcase with ⟨_, he⟩ | ⟨_, he⟩
      · have h1 : s1 = (processNewBuyOrder _ _).1 := congrArg Prod.fst he
        rw [h1]
        exact processNewBuyOrder_positive _ _ h2.1 h2.2
      · have h1 : s1 = (processNewSelOrder _ _).1 := congrArg Prod.fst he
        rw [h1]
        exact processNewSelOrder_positive _ _ h2.1 h2.2
  | cancelThrows s orderID s1 _ hc ih =>
    rw [processCancel_throw s orderID s1 hc]; exact ih
  | modThrows s tokens s1 _ hm ih =>
    rcases processMod_throw s tokens s1 hm with h1 | ⟨orderID, o, s2, hr, h1⟩
    · rw [h1]; exact ih
    · rw [h1]
      exact retrieveOrder_positive s orderID o s2 hr ih.1 ih.2

theorem checkForZeroSize_false (book : book_t) (h : QuantitiesPositive book) :
    checkForZeroSize book = false := by
  unfold checkForZeroSize
  rw [List.any_eq_false]
  intro x hx
  simp only [Bool.not_eq_true]
  rw [List.any_eq_false]
  intro o ho
  have := h x hx o ho
  simp only [decide_eq_true_eq]
  omega

/-! ## The invariants of the reachable books -/

theorem exampleBook_reachable : Reachable exampleBook :=
  Reachable.newSel _ exampleSell (Reachable.newBuy _ exampleBuy Reachable.empty (by decide))
    (by decide)

theorem exampleBook_reachablePublic : ReachablePublic exampleBook :=
  ReachablePublic.newSel _ exampleSell (ReachablePublic.newBuy _ exampleBuy ReachablePublic.empty)

theorem checkForCrossedBook_false (s : OrderBook) (h : NoCross s) :
    checkForCrossedBook s = false := by
  unfold checkForCrossedBook
  split
  · next bestBid lb restB bestAsk la restA hb ha =>
    have := h (bestBid, lb) (by rw [hb]; exact List.mem_cons_self _ _) (bestAsk, la)
      (by rw [ha]; exact List.mem_cons_self _ _)
    simp only [decide_eq_false_iff_not]
    simp only at this
    omega
  · rfl

/-- C1 (no-cross invariant).  In every state reachable from the empty book by
`processNewBuyOrder` on orders with Side "BUY", `processNewSelOrder` on orders
with another Side, `processCancel` and `processMod`, every bid price is
strictly below every ask price.  In particular, when both sides are non-empty,
the first key of `mBids` is the highest bid price, the first key of `mAsks` is
the lowest ask price, the former is strictly less than the latter, and
`checkForCrossedBook` does not throw. -/
theorem C1_no_cross (s : OrderBook) (h : Reachable s) :
    (∀ b ∈ s.mBids, ∀ a ∈ s.mAsks, b.1 < a.1)
    ∧ (∀ bestBid restB bestAsk restA, s.mBids = bestBid :: restB → s.mAsks = bestAsk :: restA →
        (∀ b ∈ s.mBids, b.1 ≤ bestBid.1) ∧ (∀ a ∈ s.mAsks, bestAsk.1 ≤ a.1)
        ∧ bestBid.1 < bestAsk.1)
    ∧ checkForCrossedBook s = false := by
  have hinv := reachable_inv s h
  refine ⟨hinv.noCross, ?_, checkForCrossedBook_false s hinv.noCross⟩
  intro bestBid restB bestAsk restA hb ha
  have hbs := hinv.bidsSorted
  have has := hinv.asksSorted
  rw [hb] at hbs
  rw [ha] at has
  refine ⟨?_, ?_, ?_⟩
  · intro b hb1
    rw [hb] at hb1
    rcases List.mem_cons.mp hb1 with h1 | h1
    · subst h1; exact Nat.le_refl _
    · have := KeysSorted_head hbs b h1
      simp only [bidLess, decide_eq_true_eq] at this
      omega
  · intro a ha1
    rw [ha] at ha1
    rcases List.mem_cons.mp ha1 with h1 | h1
    · subst h1; exact Nat.le_refl _
    · have := KeysSorted_head has a h1
      simp only [askLess, decide_eq_true_eq] at this
      omega
  · exact hinv.noCross bestBid (by rw [hb]; exact List.mem_cons_self _ _) bestAsk
      (by rw [ha]; exact List.mem_cons_self _ _)

/-- Witness of C1: the book with a bid at 10 and an ask at 12 is reachable, has
both sides non-empty, and satisfies the conclusion. -/
theorem C1_no_cross_witness :
    Reachable exampleBook ∧ exampleBook.mBids ≠ [] ∧ exampleBook.mAsks ≠ []
    ∧ ((∀ b ∈ exampleBook.mBids, ∀ a ∈ exampleBook.mAsks, b.1 < a.1)
      ∧ (∀ bestBid restB bestAsk restA, exampleBook.mBids = bestBid :: restB →
          exampleBook.mAsks = bestAsk :: restA →
          (∀ b ∈ exampleBook.mBids, b.1 ≤ bestBid.1) ∧ (∀ a ∈ exampleBook.mAsks, bestAsk.1 ≤ a.1)
          ∧ bestBid.1 < bestAsk.1)
      ∧ checkForCrossedBook exampleBook = false) :=
  ⟨exampleBook_reachable, by decide, by decide, C1_no_cross exampleBook exampleBook_reachable⟩

/-- C6 (no zero-quantity resting orders).  In every state reachable from the
empty book by any sequence of calls of the public member functions, with any
arguments, every order stored in a level of `mBids` or `mAsks` has a positive
Quantity, and `checkForZeroSizeOrders` does not throw. -/
theorem C6_no_zero_quantity (s : OrderBook) (h : ReachablePublic s) :
    (∀ x ∈ s.mBids, ∀ o ∈ x.2, 0 < o.Quantity)
    ∧ (∀ x ∈ s.mAsks, ∀ o ∈ x.2, 0 < o.Quantity)
    ∧ checkForZeroSizeOrders s = false := by
  have hp := reachablePublic_positive s h
  refine ⟨hp.1, hp.2, ?_⟩
  unfold checkForZeroSizeOrders
  rw [checkForZeroSize_false _ hp.1, checkForZeroSize_false _ hp.2]
  rfl

/-- Witness of C6: the book with a bid at 10 and an ask at 12. -/
theorem C6_no_zero_quantity_witness :
    ReachablePublic exampleBook ∧ exampleBook.mBids ≠ [] ∧ exampleBook.mAsks ≠ []
    ∧ ((∀ x ∈ exampleBook.mBids, ∀ o ∈ x.2, 0 < o.Quantity)
      ∧ (∀ x ∈ exampleBook.mAsks, ∀ o ∈ x.2, 0 < o.Quantity)
      ∧ checkForZeroSizeOrders exampleBook = false) :=
  ⟨exampleBook_reachablePublic, by decide, by decide,
    C6_no_zero_quantity exampleBook exampleBook_reachablePublic⟩

/-- C7 (no empty price levels).  In every state reachable from the empty book
by `processNewBuyOrder` on orders with Side "BUY", `processNewSelOrder` on
orders with another Side, `processCancel` and `processMod`, every key present
in `mBids` or `mAsks` maps to a non-empty order vector. -/
theorem C7_no_empty_levels (s : OrderBook) (h : Reachable s) :
    (∀ x ∈ s.mBids, x.2 ≠ []) ∧ (∀ x ∈ s.mAsks, x.2 ≠ [])
    ∧ (∀ p lvl, mapFind p s.mBids = some lvl → lvl ≠ [])
    ∧ (∀ p lvl, mapFind p s.mAsks = some lvl → lvl ≠ []) := by
  have hinv := reachable_inv s h
  refine ⟨hinv.bidsNonEmpty, hinv.asksNonEmpty, ?_, ?_⟩
  · intro p lvl hf
    exact hinv.bidsNonEmpty _ (mem_of_mapFind _ _ _ hf)
  · intro p lvl hf
    exact hinv.asksNonEmpty _ (mem_of_mapFind _ _ _ hf)

/-- Witness of C7: the book with a bid at 10 and an ask at 12. -/
theorem C7_no_empty_levels_witness :
    Reachable exampleBook ∧ exampleBook.mBids ≠ [] ∧ exampleBook.mAsks ≠ []
    ∧ ((∀ x ∈ exampleBook.mBids, x.2 ≠ []) ∧ (∀ x ∈ exampleBook.mAsks, x.2 ≠ [])
      ∧ (∀ p lvl, mapFind p exampleBook.mBids = some lvl → lvl ≠ [])
      ∧ (∀ p lvl, mapFind p exampleBook.mAsks = some lvl → lvl ≠ [])) :=
  ⟨exampleBook_reachable, by decide, by decide,
    C7_no_empty_levels exampleBook exampleBook_reachable⟩

/-! ## Time priority -/

/-- C4 (time priority within a level).  For every level and every incoming
order, `matchOrder` emits its trades against a front segment of the level, in
the stored order: either every matched order (`full`) is filled completely and
the level afterwards is the rest of the level, or the orders of `full` are
filled completely, the next order `b` receives a fill `m` smaller than its
quantity, and the level afterwards is `b` with its quantity reduced by `m`
followed by the untouched rest.  So an order receives a fill only when all
orders before it have been filled completely, and the level afterwards is a
suffix of the original level in which only the first order may have a reduced
quantity.  On the level `s1 (50), s2 (50)` a buy of 60 trades 50 with `s1`, then
10 with `s2`, and leaves `s2` with 40. -/
theorem C4_time_priority (n : Order) (f : order_map_t) (lvl : order_vector_t) :
    ((∃ full rest, lvl = full ++ rest
        ∧ (matchOrder n f lvl).trades = full.map (fun b => printMatch b n b.Quantity)
        ∧ (matchOrder n f lvl).bookLevel = rest)
      ∨ (∃ full b rest m, lvl = full ++ b :: rest ∧ m < b.Quantity
        ∧ (matchOrder n f lvl).trades
            = full.map (fun b => printMatch b n b.Quantity) ++ [printMatch b n m]
        ∧ (matchOrder n f lvl).bookLevel = { b with Quantity := b.Quantity - m } :: rest))
    ∧ (matchOrder exampleB60 [] [exampleS1, exampleS2]).trades
        = [{ bookID := "s1", bookPrice := 10, bookQuantity := 50,
             newID := "b1", newPrice := 10, newQuantity := 50 },
           { bookID := "s2", bookPrice := 10, bookQuantity := 10,
             newID := "b1", newPrice := 10, newQuantity := 10 }]
    ∧ (matchOrder exampleB60 [] [exampleS1, exampleS2]).bookLevel
        = [{ exampleS2 with Quantity := 40 }] := by
  refine ⟨?_, by decide, by decide⟩
  rw [matchOrder_eq_fillLevel]
  rcases fillLevel_shape n f lvl with ⟨full, rest, h1, _, _, h4⟩ | ⟨full, b, rest, h1, _, h3, h4⟩
  · left
    refine ⟨full, rest, h1, ?_, ?_⟩
    · rw [h4]; rfl
    · rw [h4]
  · right
    refine ⟨full, b, rest, n.Quantity - sumQuantity full, h1, h3, ?_, ?_⟩
    · rw [h4]; rfl
    · rw [h4]

/-! ## The new order, the finders and the trades after `tryMatchOrder` -/

theorem eraseIds_sublist (ids : List String) (f : order_map_t) :
    List.Sublist (eraseIds ids f) f := by
  induction ids generalizing f with
  | nil => exact List.Sublist.refl _
  | cons id rest ih =>
    rw [eraseIds_cons]
    exact (ih (mapErase id f)).trans (mapErase_sublist id f)

/-- What `matchOrder` does to the new order, the finders and the trades: the
finders lose the ids of orders of the level that are filled completely. -/
theorem matchOrder_effect (n : Order) (f : order_map_t) (lvl : order_vector_t) :
    ∃ full : List Order, (∀ b ∈ full, b ∈ lvl ∧ fullTrade n b ∈ (matchOrder n f lvl).trades)
      ∧ (matchOrder n f lvl).finders = eraseIds (full.map (fun o => o.ID)) f := by
  rw [matchOrder_eq_fillLevel]
  rcases fillLevel_shape n f lvl with ⟨full, rest, h1, _, _, h4⟩ | ⟨full, b, rest, h1, _, _, h4⟩
  · refine ⟨full, ?_, by rw [h4]⟩
    intro b hb
    refine ⟨by rw [h1]; exact List.mem_append_left _ hb, ?_⟩
    rw [h4]
    exact List.mem_map_of_mem _ hb
  · refine ⟨full, ?_, by rw [h4]⟩
    intro b1 hb
    refine ⟨by rw [h1]; exact List.mem_append_left _ hb, ?_⟩
    rw [h4]
    exact List.mem_append_left _ (List.mem_map_of_mem _ hb)

theorem tryMatchOrderLoop_effect (w : Nat → Nat → Bool) (n : Order) (f : order_map_t)
    (tr : List Trade) (vis : book_t) (e : Nat) (suf : book_t) :
    ∃ (filled : List Order) (extra : List Trade),
      (∀ b ∈ filled, b ∈ bookOrders suf ∧ fullTrade n b ∈ extra)
      ∧ (tryMatchOrderLoop w n f tr vis e suf).1.newOrder
          = { n with Quantity := (tryMatchOrderLoop w n f tr vis e suf).1.newOrder.Quantity }
      ∧ (tryMatchOrderLoop w n f tr vis e suf).1.finders
          = eraseIds (filled.map (fun o => o.ID)) f
      ∧ (tryMatchOrderLoop w n f tr vis e suf).1.trades = tr ++ extra := by
  induction suf generalizing n f tr vis e with
  | nil => exact ⟨[], [], by simp, by simp [tryMatchOrderLoop], by simp [tryMatchOrderLoop, eraseIds],
      by simp [tryMatchOrderLoop]⟩
  | cons y rest ih =>
    obtain ⟨p, lvl⟩ := y
    simp only [tryMatchOrderLoop]
    by_cases h1 : w n.Price p = true
    · simp only [h1, if_true]
      obtain ⟨full, hfull, hfind⟩ := matchOrder_effect n f lvl
      by_cases h2 : (matchOrder n f lvl).newOrder.Quantity = 0
      · simp only [h2, if_true]
        refine ⟨full, (matchOrder n f lvl).trades, ?_, ?_, hfind, rfl⟩
        · intro b hb
          exact ⟨by rw [bookOrders_cons]; exact List.mem_append_left _ (hfull b hb).1,
            (hfull b hb).2⟩
        · have := matchOrder_newOrder n f lvl
          rw [h2] at this
          exact this
      · simp only [h2, if_false]
        obtain ⟨filled, extra, i1, i2, i3, i4⟩ := ih (matchOrder n f lvl).newOrder
          (matchOrder n f lvl).finders (tr ++ (matchOrder n f lvl).trades)
          (vis ++ [(p, (matchOrder n f lvl).bookLevel)])
          (if (matchOrder n f lvl).bookLevel.isEmpty then vis.length + 1 else e)
        refine ⟨full ++ filled, (matchOrder n f lvl).trades ++ extra, ?_, ?_, ?_, ?_⟩
        · intro b hb
          rcases List.mem_append.mp hb with hb | hb
          · exact ⟨by rw [bookOrders_cons]; exact List.mem_append_left _ (hfull b hb).1,
              List.mem_append_left _ (hfull b hb).2⟩
          · refine ⟨by rw [bookOrders_cons]; exact List.mem_append_right _ (i1 b hb).1, ?_⟩
            have := (i1 b hb).2
            rw [matchOrder_newOrder, fullTrade_quantity] at this
            exact List.mem_append_right _ this
        · rw [i2]
          rw [matchOrder_newOrder]
        · rw [i3, hfind, List.map_append, eraseIds_append]
        · rw [i4, List.append_assoc]
    · simp only [h1, if_false]
      obtain ⟨filled, extra, i1, i2, i3, i4⟩ := ih n f tr (vis ++ [(p, lvl)]) e
      refine ⟨filled, extra, ?_, i2, i3, i4⟩
      intro b hb
      exact ⟨by rw [bookOrders_cons]; exact List.mem_append_right _ (i1 b hb).1, (i1 b hb).2⟩

/-- On any book side, `tryMatchOrder` changes only the quantity of the new
order, and takes from the finders the ids of resting orders that a trade has
filled completely. -/
theorem tryMatchOrder_effect (n : Order) (f : order_map_t) (book : book_t) :
    (tryMatchOrder n f book).newOrder
        = { n with Quantity := (tryMatchOrder n f book).newOrder.Quantity }
    ∧ ∃ filled : List Order,
      (∀ b ∈ filled, b ∈ bookOrders book ∧ fullTrade n b ∈ (tryMatchOrder n f book).trades)
      ∧ (tryMatchOrder n f book).finders = eraseIds (filled.map (fun o => o.ID)) f := by
  obtain ⟨filled, extra, i1, i2, i3, i4⟩ :=
    tryMatchOrderLoop_effect (newOrderWillMatchBook n) n f [] [] 0 book
  unfold tryMatchOrder
  simp only
  refine ⟨i2, filled, ?_, i3⟩
  intro b hb
  rw [i4]
  exact ⟨(i1 b hb).1, by simpa using (i1 b hb).2⟩

/-! ## Resting and discarding the remainder -/

theorem processNewBuyOrder_rest (s : OrderBook) (o : Order) (hgfd : o.TimeInForce = "GFD")
    (hq : 0 < (tryMatchOrder o s.mOrderFinders s.mAsks).newOrder.Quantity) :
    processNewBuyOrder s o =
      ({ mBids := pushBackAt bidLess o.Price
           { o with Quantity := (tryMatchOrder o s.mOrderFinders s.mAsks).newOrder.Quantity }
           s.mBids,
         mAsks := (tryMatchOrder o s.mOrderFinders s.mAsks).bookSide,
         mOrderFinders := mapInsert idLess o.ID (OrderFinder.bid, o.Price)
           (tryMatchOrder o s.mOrderFinders s.mAsks).finders },
       (tryMatchOrder o s.mOrderFinders s.mAsks).trades) := by
  have he := (tryMatchOrder_effect o s.mOrderFinders s.mAsks).1
  have h1 : (tryMatchOrder o s.mOrderFinders s.mAsks).newOrder.TimeInForce = "GFD" := by
    rw [he]; exact hgfd
  have h2 : (tryMatchOrder o s.mOrderFinders s.mAsks).newOrder.Price = o.Price := by rw [he]
  have h3 : (tryMatchOrder o s.mOrderFinders s.mAsks).newOrder.ID = o.ID := by rw [he]
  unfold processNewBuyOrder
  simp only [h1, hq, and_self, if_true, h2, h3]
  rw [← he]

theorem processNewSelOrder_rest (s : OrderBook) (o : Order) (hgfd : o.TimeInForce = "GFD")
    (hq : 0 < (tryMatchOrder o s.mOrderFinders s.mBids).newOrder.Quantity) :
    processNewSelOrder s o =
      ({ mBids := (tryMatchOrder o s.mOrderFinders s.mBids).bookSide,
         mAsks := pushBackAt askLess o.Price
           { o with Quantity := (tryMatchOrder o s.mOrderFinders s.mBids).newOrder.Quantity }
           s.mAsks,
         mOrderFinders := mapInsert idLess o.ID (OrderFinder.ask, o.Price)
           (tryMatchOrder o s.mOrderFinders s.mBids).finders },
       (tryMatchOrder o s.mOrderFinders s.mBids).trades) := by
  have he := (tryMatchOrder_effect o s.mOrderFinders s.mBids).1
  have h1 : (tryMatchOrder o s.mOrderFinders s.mBids).newOrder.TimeInForce = "GFD" := by
    rw [he]; exact hgfd
  have h2 : (tryMatchOrder o s.mOrderFinders s.mBids).newOrder.Price = o.Price := by rw [he]
  have h3 : (tryMatchOrder o s.mOrderFinders s.mBids).newOrder.ID = o.ID := by rw [he]
  unfold processNewSelOrder
  simp only [h1, hq, and_self, if_true, h2, h3]
  rw [← he]

theorem processNewBuyOrder_discard (s : OrderBook) (o : Order)
    (h : o.TimeInForce ≠ "GFD" ∨ (tryMatchOrder o s.mOrderFinders s.mAsks).newOrder.Quantity = 0) :
    processNewBuyOrder s o =
      ({ mBids := s.mBids,
         mAsks := (tryMatchOrder o s.mOrderFinders s.mAsks).bookSide,
         mOrderFinders := (tryMatchOrder o s.mOrderFinders s.mAsks).finders },
       (tryMatchOrder o s.mOrderFinders s.mAsks).trades) := by
  have he := (tryMatchOrder_effect o s.mOrderFinders s.mAsks).1
  have h1 : (tryMatchOrder o s.mOrderFinders s.mAsks).newOrder.TimeInForce = o.TimeInForce := by
    rw [he]
  have h2 : ¬ ((tryMatchOrder o s.mOrderFinders s.mAsks).newOrder.TimeInForce = "GFD"
      ∧ (tryMatchOrder o s.mOrderFinders s.mAsks).newOrder.Quantity > 0) := by
    rw [h1]
    rintro ⟨h3, h4⟩
    rcases h with h | h
    · exact h h3
    · omega
  unfold processNewBuyOrder
  simp only [h2, if_false]

theorem processNewSelOrder_discard (s : OrderBook) (o : Order)
    (h : o.TimeInForce ≠ "GFD" ∨ (tryMatchOrder o s.mOrderFinders s.mBids).newOrder.Quantity = 0) :
    processNewSelOrder s o =
      ({ mBids := (tryMatchOrder o s.mOrderFinders s.mBids).bookSide,
         mAsks := s.mAsks,
         mOrderFinders := (tryMatchOrder o s.mOrderFinders s.mBids).finders },
       (tryMatchOrder o s.mOrderFinders s.mBids).trades) := by
  have he := (tryMatchOrder_effect o s.mOrderFinders s.mBids).1
  have h1 : (tryMatchOrder o s.mOrderFinders s.mBids).newOrder.TimeInForce = o.TimeInForce := by
    rw [he]
  have h2 : ¬ ((tryMatchOrder o s.mOrderFinders s.mBids).newOrder.TimeInForce = "GFD"
      ∧ (tryMatchOrder o s.mOrderFinders s.mBids).newOrder.Quantity > 0) := by
    rw [h1]
    rintro ⟨h3, h4⟩
    rcases h with h | h
    · exact h h3
    · omega
  unfold processNewSelOrder
  simp only [h2, if_false]

theorem mapFind_pushBackAt_self (less : Nat → Nat → Bool) (price : Nat) (o : Order)
    (book : book_t) :
    mapFind price (pushBackAt less price o book) = some ((mapFind price book).getD [] ++ [o]) :=
  mapFind_mapInsert_self _ _ _ _

theorem mapFind_pushBackAt_ne (less : Nat → Nat → Bool) (price p : Nat) (o : Order)
    (book : book_t) (hne : p ≠ price) :
    mapFind p (pushBackAt less price o book) = mapFind p book :=
  mapFind_mapInsert_ne _ _ _ _ _ hne

/-- C8 (resting of a GFD remainder).  For every book and every incoming order
with TimeInForce "GFD": when its quantity after matching against the asks is
`r > 0`, `processNewBuyOrder` leaves at the order's price in `mBids` the level
that was there before (the empty one if there was none) followed by the order
with Quantity `r`, leaves every other level of `mBids` as it was, and sets
`mOrderFinders[id]` to the bid finder and the order's price; and the same for
`processNewSelOrder`, the bids, `mAsks` and the ask finder. -/
theorem C8_rest_remainder (s : OrderBook) (o : Order) (hgfd : o.TimeInForce = "GFD") :
    (0 < (tryMatchOrder o s.mOrderFinders s.mAsks).newOrder.Quantity →
      mapFind o.Price (processNewBuyOrder s o).1.mBids
          = some ((mapFind o.Price s.mBids).getD []
              ++ [{ o with Quantity := (tryMatchOrder o s.mOrderFinders s.mAsks).newOrder.Quantity }])
      ∧ (∀ p, p ≠ o.Price → mapFind p (processNewBuyOrder s o).1.mBids = mapFind p s.mBids)
      ∧ mapFind o.ID (processNewBuyOrder s o).1.mOrderFinders = some (OrderFinder.bid, o.Price))
    ∧ (0 < (tryMatchOrder o s.mOrderFinders s.mBids).newOrder.Quantity →
      mapFind o.Price (processNewSelOrder s o).1.mAsks
          = some ((mapFind o.Price s.mAsks).getD []
              ++ [{ o with Quantity := (tryMatchOrder o s.mOrderFinders s.mBids).newOrder.Quantity }])
      ∧ (∀ p, p ≠ o.Price → mapFind p (processNewSelOrder s o).1.mAsks = mapFind p s.mAsks)
      ∧ mapFind o.ID (processNewSelOrder s o).1.mOrderFinders = some (OrderFinder.ask, o.Price)) := by
  constructor
  · intro hq
    rw [processNewBuyOrder_rest s o hgfd hq]
    exact ⟨mapFind_pushBackAt_self _ _ _ _, fun p hp => mapFind_pushBackAt_ne _ _ _ _ _ hp,
      mapFind_mapInsert_self _ _ _ _⟩
  · intro hq
    rw [processNewSelOrder_rest s o hgfd hq]
    exact ⟨mapFind_pushBackAt_self _ _ _ _, fun p hp => mapFind_pushBackAt_ne _ _ _ _ _ hp,
      mapFind_mapInsert_self _ _ _ _⟩

/-- Witness of C8: on the book with `order2` (200) bid at 10 and `order3` (100)
offered at 12, `BUY GFD 10 50 order4` rests behind `order2`, and
`SELL GFD 12 70 order5` rests behind `order3`. -/
theorem C8_rest_remainder_witness :
    (exampleBuy4.TimeInForce = "GFD"
      ∧ 0 < (tryMatchOrder exampleBuy4 exampleBook.mOrderFinders exampleBook.mAsks).newOrder.Quantity
      ∧ mapFind 10 (processNewBuyOrder exampleBook exampleBuy4).1.mBids
          = some [exampleBuy, exampleBuy4]
      ∧ (∀ p, p ≠ exampleBuy4.Price →
          mapFind p (processNewBuyOrder exampleBook exampleBuy4).1.mBids
            = mapFind p exampleBook.mBids)
      ∧ mapFind "order4" (processNewBuyOrder exampleBook exampleBuy4).1.mOrderFinders
          = some (OrderFinder.bid, 10))
    ∧ (exampleSell5.TimeInForce = "GFD"
      ∧ 0 < (tryMatchOrder exampleSell5 exampleBook.mOrderFinders exampleBook.mBids).newOrder.Quantity
      ∧ mapFind 12 (processNewSelOrder exampleBook exampleSell5).1.mAsks
          = some [exampleSell, exampleSell5]
      ∧ (∀ p, p ≠ exampleSell5.Price →
          mapFind p (processNewSelOrder exampleBook exampleSell5).1.mAsks
            = mapFind p exampleBook.mAsks)
      ∧ mapFind "order5" (processNewSelOrder exampleBook exampleSell5).1.mOrderFinders
          = some (OrderFinder.ask, 12)) :=
  ⟨⟨by decide, by decide, by decide,
      ((C8_rest_remainder exampleBook exampleBuy4 (by decide)).1 (by decide)).2.1, by decide⟩,
    ⟨by decide, by decide, by decide,
      ((C8_rest_remainder exampleBook exampleSell5 (by decide)).2 (by decide)).2.1, by decide⟩⟩

/-! ## Modify is cancel, then a new order -/

theorem retrieveOrderInLevelOrders_some (lvl : order_vector_t) (orderID : String)
    (h : ∃ o ∈ lvl, o.ID = orderID) :
    ∃ found lvl1, retrieveOrderInLevelOrders lvl orderID = some (found, lvl1) := by
  induction lvl with
  | nil => obtain ⟨o, ho, _⟩ := h; simp at ho
  | cons a rest ih =>
    simp only [retrieveOrderInLevelOrders]
    by_cases h1 : orderID = a.ID
    · simp [h1]
    · simp only [h1, if_false]
      obtain ⟨o, ho, hid⟩ := h
      rcases List.mem_cons.mp ho with ho | ho
      · subst ho; exact absurd hid.symm h1
      · obtain ⟨found, lvl1, hr⟩ := ih ⟨o, ho, hid⟩
        rw [hr]
        exact ⟨found, a :: lvl1, rfl⟩

theorem retrieveOrder_ok_of_stored (s : OrderBook) (orderID : String)
    (hin : mapFind orderID s.mOrderFinders ≠ none) (hloc : FindersStored s) :
    ∃ original s2, retrieveOrder s orderID = Outcome.ok (original, s2) := by
  obtain ⟨v, hv⟩ := exists_of_mapFind_ne_none _ _ hin
  obtain ⟨fd, p⟩ := v
  obtain ⟨lvl, hl, hex⟩ := hloc orderID fd p hv
  obtain ⟨found, lvl1, hr⟩ := retrieveOrderInLevelOrders_some lvl orderID hex
  unfold retrieveOrder
  rw [hv]
  cases fd with
  | bid =>
    simp only [finderSide] at hl
    simp only [bidOrderFinder, hl, hr]
    split_ifs
    · exact ⟨_, _, rfl⟩
    · exact ⟨_, _, rfl⟩
  | ask =>
    simp only [finderSide] at hl
    simp only [askOrderFinder, hl, hr]
    split_ifs
    · exact ⟨_, _, rfl⟩
    · exact ⟨_, _, rfl⟩

theorem retrieveOrder_stored (s : OrderBook) (orderID : String) (o : Order) (s1 : OrderBook)
    (h : retrieveOrder s orderID = Outcome.ok (o, s1)) :
    o.ID = orderID ∧ ∃ fd p lvl, mapFind orderID s.mOrderFinders = some (fd, p)
      ∧ mapFind p (finderSide s fd) = some lvl ∧ o ∈ lvl := by
  rcases retrieveOrder_spec s orderID o s1 h with
    ⟨p, lvl, lvl1, h1, h2, h3, _⟩ | ⟨p, lvl, lvl1, h1, h2, h3, _⟩
  · obtain ⟨i1, i2, _⟩ := retrieveOrderInLevelOrders_spec _ _ _ _ h3
    exact ⟨i2, OrderFinder.bid, p, lvl, h1, h2, i1⟩
  · obtain ⟨i1, i2, _⟩ := retrieveOrderInLevelOrders_spec _ _ _ _ h3
    exact ⟨i2, OrderFinder.ask, p, lvl, h1, h2, i1⟩

theorem FindersStored_of_check (s : OrderBook) (h : findersStoredCheck s = true) :
    FindersStored s := by
  intro id fd p hf
  have hm := mem_of_mapFind _ _ _ hf
  unfold findersStoredCheck at h
  rw [List.all_eq_true] at h
  have h1 := h _ hm
  simp only [List.any_eq_true, decide_eq_true_eq] at h1
  obtain ⟨o, ho, hid⟩ := h1
  cases hl : mapFind p (finderSide s fd) with
  | none => rw [hl] at ho; simp at ho
  | some lvl =>
    rw [hl] at ho
    exact ⟨lvl, rfl, o, ho, hid⟩

/-- For a token that does not end within its leading whitespace, the value
read does not depend on the value the variable held. -/
theorem readUInt64_of_not_blank (token : String) (v w : Nat) (h : blankToken token = false) :
    readUInt64 token v = readUInt64 token w := by
  unfold blankToken at h
  unfold readUInt64
  simp only [h, Bool.false_eq_true, if_false]

/-- For a token that ends within its leading whitespace, the variable keeps
its value. -/
theorem readUInt64_of_blank (token : String) (v : Nat) (h : blankToken token = true) :
    readUInt64 token v = v := by
  unfold blankToken at h
  unfold readUInt64
  simp only [h, if_true]

/-- C10 (modify is cancel-then-resubmit).  For every book in which every entry
of the order finders names a level holding an order with its id, and every
MODIFY message `t0 id newSide newPrice newQuantity ...` whose id is in the
order finders: `processCancel id` returns a book `s1`, and `processMod` returns
exactly the book and the trades that `processNewBuyOrder` (when newSide is
"BUY") or `processNewSelOrder` (otherwise) returns on `s1` for the order with
the same id, the TimeInForce of the original order (the order with that id
stored in the level the finders name), the new side, and the price and
quantity that `std::stringstream(token) >> order.Price` and
`std::stringstream(token) >> order.Quantity` leave in the original order.  For
a token that holds anything but whitespace these are the numbers read from the
token, whatever the original order held; for an empty or whitespace-only token
they are the price and the quantity of the original order. -/
theorem C10_modify_is_cancel_then_new (s : OrderBook)
    (t0 orderID side priceToken quantityToken : String) (more : List String)
    (hin : mapFind orderID s.mOrderFinders ≠ none) (hloc : FindersStored s) :
    ∃ original s1,
      original.ID = orderID
      ∧ (∃ fd p lvl, mapFind orderID s.mOrderFinders = some (fd, p)
          ∧ mapFind p (finderSide s fd) = some lvl ∧ original ∈ lvl)
      ∧ processCancel s orderID = Outcome.ok s1
      ∧ processMod s (t0 :: orderID :: side :: priceToken :: quantityToken :: more)
          = Outcome.ok
              (if side = "BUY" then
                processNewBuyOrder s1
                  { Side := side, TimeInForce := original.TimeInForce,
                    Price := readUInt64 priceToken original.Price,
                    Quantity := readUInt64 quantityToken original.Quantity,
                    ID := orderID }
              else
                processNewSelOrder s1
                  { Side := side, TimeInForce := original.TimeInForce,
                    Price := readUInt64 priceToken original.Price,
                    Quantity := readUInt64 quantityToken original.Quantity,
                    ID := orderID })
      ∧ (blankToken priceToken = false →
          ∀ v, readUInt64 priceToken original.Price = readUInt64 priceToken v)
      ∧ (blankToken quantityToken = false →
          ∀ v, readUInt64 quantityToken original.Quantity = readUInt64 quantityToken v)
      ∧ (blankToken priceToken = true → readUInt64 priceToken original.Price = original.Price)
      ∧ (blankToken quantityToken = true →
          readUInt64 quantityToken original.Quantity = original.Quantity) := by
  obtain ⟨original, s2, hr⟩ := retrieveOrder_ok_of_stored s orderID hin hloc
  obtain ⟨hid, hst⟩ := retrieveOrder_stored s orderID original s2 hr
  refine ⟨original, { s2 with mOrderFinders := mapErase orderID s2.mOrderFinders }, hid, hst,
    ?_, ?_, fun h v => readUInt64_of_not_blank _ _ _ h,
    fun h v => readUInt64_of_not_blank _ _ _ h, readUInt64_of_blank _ _, readUInt64_of_blank _ _⟩
  · unfold processCancel
    simp only [hin, if_false, hr]
  · unfold processMod
    simp only [List.get?, hin, if_false, hr, hid]
    split_ifs <;> rfl

/-- Witness of C10, the run of `main`: after `BUY GFD 11 100 order1` and
`BUY GFD 10 200 order2`, the message `MODIFY order2 SELL 10 1000` gives one
trade `order1 11 100 order2 10 100`, asks `10: 900` and no bids, which is what
`processCancel order2` followed by `processNewSelOrder` of
`SELL GFD 10 1000 order2` gives.  The message `MODIFY order2 BUY  50`, whose
price token is empty, rests `order2` again at its price 10 with quantity 50. -/
theorem C10_modify_is_cancel_then_new_witness :
    mapFind "order2" mainBook.mOrderFinders ≠ none
    ∧ FindersStored mainBook
    ∧ processMod mainBook ["MODIFY", "order2", "SELL", "10", "1000"]
        = Outcome.ok
            ({ mBids := [],
               mAsks := [(10, [{ Side := "SELL", TimeInForce := "GFD", Price := 10,
                                 Quantity := 900, ID := "order2" }])],
               mOrderFinders := [("order2", (OrderFinder.ask, 10))] },
             [{ bookID := "order1", bookPrice := 11, bookQuantity := 100,
                newID := "order2", newPrice := 10, newQuantity := 100 }])
    ∧ (∃ s1, processCancel mainBook "order2" = Outcome.ok s1
        ∧ processMod mainBook ["MODIFY", "order2", "SELL", "10", "1000"]
          = Outcome.ok (processNewSelOrder s1
              { Side := "SELL", TimeInForce := "GFD", Price := 10, Quantity := 1000,
                ID := "order2" }))
    ∧ processMod mainBook ["MODIFY", "order2", "BUY", "", "50"]
        = Outcome.ok
            ({ mBids := [(11, [{ Side := "BUY", TimeInForce := "GFD", Price := 11,
                                 Quantity := 100, ID := "order1" }]),
                         (10, [{ Side := "BUY", TimeInForce := "GFD", Price := 10,
                                 Quantity := 50, ID := "order2" }])],
               mAsks := [],
               mOrderFinders := [("order1", (OrderFinder.bid, 11)),
                                 ("order2", (OrderFinder.bid, 10))] },
             [])
    ∧ (∃ original s1, original.ID = "order2"
        ∧ (∃ fd p lvl, mapFind "order2" mainBook.mOrderFinders = some (fd, p)
            ∧ mapFind p (finderSide mainBook fd) = some lvl ∧ original ∈ lvl)
        ∧ processCancel mainBook "order2" = Outcome.ok s1
        ∧ processMod mainBook ("MODIFY" :: "order2" :: "SELL" :: "10" :: "1000" :: [])
            = Outcome.ok
                (if "SELL" = "BUY" then
                  processNewBuyOrder s1
                    { Side := "SELL", TimeInForce := original.TimeInForce,
                      Price := readUInt64 "10" original.Price,
                      Quantity := readUInt64 "1000" original.Quantity, ID := "order2" }
                else
                  processNewSelOrder s1
                    { Side := "SELL", TimeInForce := original.TimeInForce,
                      Price := readUInt64 "10" original.Price,
                      Quantity := readUInt64 "1000" original.Quantity, ID := "order2" })
        ∧ (blankToken "10" = false →
            ∀ v, readUInt64 "10" original.Price = readUInt64 "10" v)
        ∧ (blankToken "1000" = false →
            ∀ v, readUInt64 "1000" original.Quantity = readUInt64 "1000" v)
        ∧ (blankToken "10" = true → readUInt64 "10" original.Price = original.Price)
        ∧ (blankToken "1000" = true →
            readUInt64 "1000" original.Quantity = original.Quantity)) :=
  ⟨by decide, FindersStored_of_check _ (by decide), by decide,
    ⟨(processNewBuyOrder OrderBook.empty
        { Side := "BUY", TimeInForce := "GFD", Price := 11, Quantity := 100, ID := "order1" }).1,
      by decide, by decide⟩,
    by decide,
    C10_modify_is_cancel_then_new mainBook "MODIFY" "order2" "SELL" "10" "1000" []
      (by decide) (FindersStored_of_check _ (by decide))⟩

/-! ## Quantity conservation -/

/-- The result of `earlyExitScan` in terms of the orders of the book side, level
after level: the orders of `fulls` are filled completely and leave, and either
nothing else is touched, or the next order takes what is left of the new
order and stays. -/
theorem earlyExitScan_flat (w : Nat → Nat → Bool) (n : Order) (f : order_map_t)
    (book : book_t) :
    ∃ fulls tail, bookOrders book = fulls ++ tail ∧ sumQuantity fulls ≤ n.Quantity
      ∧ (earlyExitScan w n f book).finders = eraseIds (fulls.map (fun o => o.ID)) f
      ∧ (((earlyExitScan w n f book).trades = fulls.map (fullTrade n)
          ∧ (earlyExitScan w n f book).newOrder.Quantity = n.Quantity - sumQuantity fulls
          ∧ bookOrders (earlyExitScan w n f book).bookSide = tail)
        ∨ (∃ b tail1, tail = b :: tail1 ∧ n.Quantity - sumQuantity fulls < b.Quantity
          ∧ (earlyExitScan w n f book).trades
              = fulls.map (fullTrade n) ++ [printMatch b n (n.Quantity - sumQuantity fulls)]
          ∧ (earlyExitScan w n f book).newOrder.Quantity = 0
          ∧ bookOrders (earlyExitScan w n f book).bookSide
              = { b with Quantity := b.Quantity - (n.Quantity - sumQuantity fulls) } :: tail1)) := by
  rcases earlyExitScan_shape w n f book with
    ⟨gone, rest, h1, _, h3, _, h5⟩ | ⟨gone, p, lvl, rest, h1, _, _, h4, _, h6⟩
  · refine ⟨bookOrders gone, bookOrders rest, by rw [h1, bookOrders_append], h3, by rw [h5],
      Or.inl ?_⟩
    rw [h5]
    exact ⟨rfl, rfl, rfl⟩
  · rcases fillLevel_shape { n with Quantity := n.Quantity - sumQuantity (bookOrders gone) }
        (eraseIds ((bookOrders gone).map (fun o => o.ID)) f) lvl with
      ⟨full, rest1, i1, i2, _, i4⟩ | ⟨full, b, rest1, i1, i2, i3, i4⟩
    · simp only at i2
      refine ⟨bookOrders gone ++ full, rest1 ++ bookOrders rest, ?_, ?_, ?_, Or.inl ?_⟩
      · rw [h1, bookOrders_append, bookOrders_cons, i1]; simp
      · rw [sumQuantity_append]; omega
      · rw [h6, i4, List.map_append, eraseIds_append]
      · rw [h6, i4]
        simp only [fullTrade_quantity, List.map_append, bookOrders_cons, sumQuantity_append,
          true_and]
        exact ⟨by omega, trivial⟩
    · simp only at i2 i3
      have e : n.Quantity - sumQuantity (bookOrders gone) - sumQuantity full
          = n.Quantity - (sumQuantity (bookOrders gone) + sumQuantity full) := by omega
      refine ⟨bookOrders gone ++ full, b :: (rest1 ++ bookOrders rest), ?_, ?_, ?_, Or.inr ?_⟩
      · rw [h1, bookOrders_append, bookOrders_cons, i1]; simp
      · rw [sumQuantity_append]; omega
      · rw [h6, i4, List.map_append, eraseIds_append]
      · refine ⟨b, rest1 ++ bookOrders rest, rfl, ?_, ?_, ?_, ?_⟩
        · rw [sumQuantity_append]; omega
        · rw [h6, i4]
          simp only [fullTrade_quantity, printMatch_quantity, List.map_append, sumQuantity_append,
            e, List.append_assoc]
        · rw [h6, i4]
        · rw [h6, i4]
          simp only [bookOrders_cons, sumQuantity_append, e, List.cons_append]

theorem minFills_full (n : Order) (q : Nat) (fulls : List Order)
    (h : sumQuantity fulls ≤ q) : MinFills n q fulls (fulls.map (fullTrade n)) := by
  induction fulls generalizing q with
  | nil => trivial
  | cons b rest ih =>
    rw [sumQuantity_cons] at h
    have hm : min b.Quantity q = b.Quantity := Nat.min_eq_left (by omega)
    refine ⟨by rw [hm]; rfl, ?_⟩
    rw [hm]
    exact ih _ (by omega)

theorem minFills_full_last (n : Order) (q : Nat) (fulls : List Order) (b : Order)
    (h : sumQuantity fulls ≤ q) (hb : q - sumQuantity fulls < b.Quantity) :
    MinFills n q (fulls ++ [b])
      (fulls.map (fullTrade n) ++ [printMatch b n (q - sumQuantity fulls)]) := by
  induction fulls generalizing q with
  | nil =>
    simp only [sumQuantity, List.map_nil, List.sum_nil, Nat.sub_zero] at hb
    have hm : min b.Quantity q = q := Nat.min_eq_right (by omega)
    simp only [List.nil_append, List.map_nil, MinFills, hm, sumQuantity, List.sum_nil,
      Nat.sub_zero, and_self]
  | cons a rest ih =>
    rw [sumQuantity_cons] at h hb
    have hm : min a.Quantity q = a.Quantity := Nat.min_eq_left (by omega)
    refine ⟨by rw [hm]; rfl, ?_⟩
    rw [hm]
    have e : q - (a.Quantity + sumQuantity rest) = q - a.Quantity - sumQuantity rest := by omega
    rw [sumQuantity_cons, e]
    exact ih _ (by omega) (by omega)

/-- Conservation for an early-exit scan: the trades are minimum fills of a
front segment of the orders of the book side, and their sizes add up to what
the new order loses and to what the book side loses. -/
theorem earlyExitScan_conservation (w : Nat → Nat → Bool) (n : Order) (f : order_map_t)
    (book : book_t) :
    (∃ hit, hit <+: bookOrders book ∧ MinFills n n.Quantity hit (earlyExitScan w n f book).trades)
    ∧ sumMatched (earlyExitScan w n f book).trades ≤ n.Quantity
    ∧ (earlyExitScan w n f book).newOrder.Quantity
        = n.Quantity - sumMatched (earlyExitScan w n f book).trades
    ∧ sumMatched (earlyExitScan w n f book).trades
        ≤ sumQuantity (bookOrders book)
    ∧ sumQuantity (bookOrders (earlyExitScan w n f book).bookSide)
        = sumQuantity (bookOrders book) - sumMatched (earlyExitScan w n f book).trades := by
  obtain ⟨fulls, tail, h1, h2, _, h4⟩ := earlyExitScan_flat w n f book
  rcases h4 with ⟨i1, i2, i3⟩ | ⟨b, tail1, i0, i1, i2, i3, i4⟩
  · rw [i1, i2, i3, h1, sumMatched_fullTrade, sumQuantity_append]
    refine ⟨⟨fulls, ⟨tail, rfl⟩, minFills_full n _ fulls h2⟩, h2, rfl, by omega, by omega⟩
  · rw [i2, i3, i4, h1, i0, sumMatched_append, sumMatched_fullTrade, sumQuantity_append,
      sumQuantity_cons, sumQuantity_cons]
    refine ⟨⟨fulls ++ [b], ⟨tail1, by simp⟩, minFills_full_last n _ fulls b h2 i1⟩, ?_, ?_, ?_, ?_⟩
    · simp only [sumMatched, printMatch, List.map_cons, List.map_nil, List.sum_cons,
        List.sum_nil]; omega
    · simp only [sumMatched, printMatch, List.map_cons, List.map_nil, List.sum_cons,
        List.sum_nil]; omega
    · simp only [sumMatched, printMatch, List.map_cons, List.map_nil, List.sum_cons,
        List.sum_nil]; omega
    · simp only [sumMatched, printMatch, List.map_cons, List.map_nil, List.sum_cons,
        List.sum_nil]; omega

theorem processNewBuyOrder_asks_trades (s : OrderBook) (o : Order) :
    (processNewBuyOrder s o).1.mAsks = (tryMatchOrder o s.mOrderFinders s.mAsks).bookSide
    ∧ (processNewBuyOrder s o).2 = (tryMatchOrder o s.mOrderFinders s.mAsks).trades := by
  unfold processNewBuyOrder
  simp only
  split_ifs <;> exact ⟨rfl, rfl⟩

theorem processNewSelOrder_bids_trades (s : OrderBook) (o : Order) :
    (processNewSelOrder s o).1.mBids = (tryMatchOrder o s.mOrderFinders s.mBids).bookSide
    ∧ (processNewSelOrder s o).2 = (tryMatchOrder o s.mOrderFinders s.mBids).trades := by
  unfold processNewSelOrder
  simp only
  split_ifs <;> exact ⟨rfl, rfl⟩

/-- Minimum fills of two runs of resting orders, one after the other. -/
theorem MinFills_append (n : Order) (q : Nat) (h1 : List Order) (t1 : List Trade)
    (h2 : List Order) (t2 : List Trade) (a : MinFills n q h1 t1)
    (b : MinFills n (q - sumMatched t1) h2 t2) : MinFills n q (h1 ++ h2) (t1 ++ t2) := by
  induction h1 generalizing q t1 with
  | nil =>
    cases t1 with
    | nil => simpa [sumMatched] using b
    | cons t ts => exact absurd a (by simp [MinFills])
  | cons b0 bs ih =>
    cases t1 with
    | nil => exact absurd a (by simp [MinFills])
    | cons t ts =>
      obtain ⟨ht, hrest⟩ := a
      refine ⟨ht, ih _ _ hrest ?_⟩
      have e : q - sumMatched (t :: ts) = q - min b0.Quantity q - sumMatched ts := by
        rw [sumMatched_cons, ht]
        simp only [printMatch]
        omega
      rw [← e]
      exact b

/-- The trades name the new order by its id and price only. -/
theorem MinFills_newOrder (n : Order) (k q : Nat) (h : List Order) (t : List Trade) :
    MinFills { n with Quantity := k } q h t ↔ MinFills n q h t := by
  induction h generalizing q t with
  | nil => cases t <;> simp [MinFills]
  | cons b0 bs ih =>
    cases t with
    | nil => simp [MinFills]
    | cons t0 ts =>
      simp only [MinFills, printMatch_quantity]
      rw [ih]

/-- On any level, the trades of `matchOrder` are minimum fills of a front
segment of the level, and their sizes add up to what the new order loses. -/
theorem fillLevel_minFills (n : Order) (f : order_map_t) (lvl : order_vector_t) :
    ∃ hit, hit <+: lvl ∧ MinFills n n.Quantity hit (fillLevel n f lvl).trades
      ∧ sumMatched (fillLevel n f lvl).trades ≤ n.Quantity
      ∧ (fillLevel n f lvl).newOrder.Quantity
          = n.Quantity - sumMatched (fillLevel n f lvl).trades := by
  rcases fillLevel_shape n f lvl with ⟨full, rest, h1, h2, _, h4⟩ | ⟨full, b, rest, h1, h2, h3, h4⟩
  · rw [h4]
    simp only [sumMatched_fullTrade]
    exact ⟨full, ⟨rest, h1.symm⟩, minFills_full n _ full h2, h2, trivial⟩
  · rw [h4]
    have e : sumMatched (full.map (fullTrade n) ++ [printMatch b n (n.Quantity - sumQuantity full)])
        = n.Quantity := by
      rw [sumMatched_append, sumMatched_fullTrade]
      simp only [sumMatched, printMatch, List.map_cons, List.map_nil, List.sum_cons,
        List.sum_nil]
      omega
    refine ⟨full ++ [b], ⟨rest, by rw [h1]; simp⟩, minFills_full_last n _ full b h2 h3, ?_, ?_⟩
    · rw [e]
    · rw [e]; simp

/-- On any book side and with any comparison, the trades of the loop of
`tryMatchOrder` are minimum fills of resting orders taken in the order of the
book side, and their sizes add up to what the new order loses. -/
theorem tryMatchOrderLoop_minFills (w : Nat → Nat → Bool) (n : Order) (f : order_map_t)
    (tr : List Trade) (vis : book_t) (e : Nat) (suf : book_t) :
    ∃ (hit : List Order) (extra : List Trade), List.Sublist hit (bookOrders suf)
      ∧ (tryMatchOrderLoop w n f tr vis e suf).1.trades = tr ++ extra
      ∧ MinFills n n.Quantity hit extra
      ∧ sumMatched extra ≤ n.Quantity
      ∧ (tryMatchOrderLoop w n f tr vis e suf).1.newOrder.Quantity
          = n.Quantity - sumMatched extra := by
  induction suf generalizing n f tr vis e with
  | nil =>
    exact ⟨[], [], List.Sublist.refl _, by simp [tryMatchOrderLoop], trivial,
      by simp [sumMatched], by simp [tryMatchOrderLoop, sumMatched]⟩
  | cons y rest ih =>
    obtain ⟨p, lvl⟩ := y
    simp only [tryMatchOrderLoop]
    by_cases h1 : w n.Price p = true
    · simp only [h1, if_true]
      obtain ⟨hit0, hp0, hm0, hs0, hq0⟩ := fillLevel_minFills n f lvl
      rw [← matchOrder_eq_fillLevel] at hm0 hs0 hq0
      have hsub0 : List.Sublist hit0 (bookOrders ((p, lvl) :: rest)) := by
        rw [bookOrders_cons]
        exact hp0.sublist.trans (List.sublist_append_left _ _)
      by_cases h2 : (matchOrder n f lvl).newOrder.Quantity = 0
      · simp only [h2, if_true]
        refine ⟨hit0, (matchOrder n f lvl).trades, hsub0, rfl, hm0, hs0, ?_⟩
        rw [← hq0, h2]
      · simp only [h2, if_false]
        obtain ⟨hit1, extra1, i1, i2, i3, i4, i5⟩ := ih (matchOrder n f lvl).newOrder
          (matchOrder n f lvl).finders (tr ++ (matchOrder n f lvl).trades)
          (vis ++ [(p, (matchOrder n f lvl).bookLevel)])
          (if (matchOrder n f lvl).bookLevel.isEmpty then vis.length + 1 else e)
        rw [matchOrder_newOrder, MinFills_newOrder] at i3
        simp only at i3
        rw [hq0] at i3 i4 i5
        refine ⟨hit0 ++ hit1, (matchOrder n f lvl).trades ++ extra1, ?_, ?_, ?_, ?_, ?_⟩
        · rw [bookOrders_cons]
          exact List.Sublist.append hp0.sublist i1
        · rw [i2, List.append_assoc]
        · exact MinFills_append n _ _ _ _ _ hm0 i3
        · rw [sumMatched_append]; omega
        · rw [i5, sumMatched_append]; omega
    · simp only [h1, if_false]
      obtain ⟨hit1, extra1, i1, i2, i3, i4, i5⟩ := ih n f tr (vis ++ [(p, lvl)]) e
      refine ⟨hit1, extra1, ?_, i2, i3, i4, i5⟩
      rw [bookOrders_cons]
      exact i1.trans (List.sublist_append_right _ _)

/-- The same for `tryMatchOrder`, on any book side and for any Side of the new
order. -/
theorem tryMatchOrder_minFills (n : Order) (f : order_map_t) (book : book_t) :
    (∃ hit, List.Sublist hit (bookOrders book)
        ∧ MinFills n n.Quantity hit (tryMatchOrder n f book).trades)
    ∧ sumMatched (tryMatchOrder n f book).trades ≤ n.Quantity
    ∧ (tryMatchOrder n f book).newOrder.Quantity
        = n.Quantity - sumMatched (tryMatchOrder n f book).trades := by
  obtain ⟨hit, extra, i1, i2, i3, i4, i5⟩ :=
    tryMatchOrderLoop_minFills (newOrderWillMatchBook n) n f [] [] 0 book
  unfold tryMatchOrder
  simp only
  rw [i2, List.nil_append]
  exact ⟨⟨hit, i1, i3⟩, i4, i5⟩

/-- C3, amended (quantity conservation).  For every call of
`processNewBuyOrder` or `processNewSelOrder`, on any book and with an order of
any Side: the trades are against resting orders `hit` of the opposite side,
taken in the order of that side, each with the size `min(resting quantity,
what is left of the incoming order at that moment)`; the sizes add up to at
most the incoming quantity and to the decrease of the incoming quantity, so
no subtraction underflows.  When moreover the Side of the order agrees with
the entry point ("BUY" for `processNewBuyOrder`, anything else for
`processNewSelOrder`; the opposite side in the order of its comparator, as a
`std::map` keeps it), `hit` is a front segment of the opposite orders taken
level after level, and the sizes add up to the decrease of the quantity
resting on the opposite side. -/
theorem C3_quantity_conservation (s : OrderBook) (o : Order) :
    ((∃ hit, List.Sublist hit (bookOrders s.mAsks)
          ∧ MinFills o o.Quantity hit (processNewBuyOrder s o).2)
      ∧ sumMatched (processNewBuyOrder s o).2 ≤ o.Quantity
      ∧ (tryMatchOrder o s.mOrderFinders s.mAsks).newOrder.Quantity
          = o.Quantity - sumMatched (processNewBuyOrder s o).2)
    ∧ ((∃ hit, List.Sublist hit (bookOrders s.mBids)
          ∧ MinFills o o.Quantity hit (processNewSelOrder s o).2)
      ∧ sumMatched (processNewSelOrder s o).2 ≤ o.Quantity
      ∧ (tryMatchOrder o s.mOrderFinders s.mBids).newOrder.Quantity
          = o.Quantity - sumMatched (processNewSelOrder s o).2)
    ∧ (o.Side = "BUY" → KeysSorted askLess s.mAsks →
      (∃ hit, hit <+: bookOrders s.mAsks
          ∧ MinFills o o.Quantity hit (processNewBuyOrder s o).2)
      ∧ sumMatched (processNewBuyOrder s o).2 ≤ sumQuantity (bookOrders s.mAsks)
      ∧ sumQuantity (bookOrders (processNewBuyOrder s o).1.mAsks)
          = sumQuantity (bookOrders s.mAsks) - sumMatched (processNewBuyOrder s o).2)
    ∧ (o.Side ≠ "BUY" → KeysSorted bidLess s.mBids →
      (∃ hit, hit <+: bookOrders s.mBids
          ∧ MinFills o o.Quantity hit (processNewSelOrder s o).2)
      ∧ sumMatched (processNewSelOrder s o).2 ≤ sumQuantity (bookOrders s.mBids)
      ∧ sumQuantity (bookOrders (processNewSelOrder s o).1.mBids)
          = sumQuantity (bookOrders s.mBids) - sumMatched (processNewSelOrder s o).2) := by
  refine ⟨?_, ?_, ?_, ?_⟩
  · rw [(processNewBuyOrder_asks_trades s o).2]
    exact tryMatchOrder_minFills o _ _
  · rw [(processNewSelOrder_bids_trades s o).2]
    exact tryMatchOrder_minFills o _ _
  · intro hside hs
    rw [(processNewBuyOrder_asks_trades s o).1, (processNewBuyOrder_asks_trades s o).2,
      tryMatchOrder_eq_earlyExitScan o _ _ (crossFirst_asks o hside _ hs)]
    obtain ⟨h1, _, _, h4, h5⟩ := earlyExitScan_conservation (newOrderWillMatchBook o) o
      s.mOrderFinders s.mAsks
    exact ⟨h1, h4, h5⟩
  · intro hside hs
    rw [(processNewSelOrder_bids_trades s o).1, (processNewSelOrder_bids_trades s o).2,
      tryMatchOrder_eq_earlyExitScan o _ _ (crossFirst_bids o hside _ hs)]
    obtain ⟨h1, _, _, h4, h5⟩ := earlyExitScan_conservation (newOrderWillMatchBook o) o
      s.mOrderFinders s.mBids
    exact ⟨h1, h4, h5⟩

/-- Witness of the amended C3: on the asks `s1 (50), s2 (50)` at 10 a buy of 60
trades 50 and 10; on the book with `order2` (200) bid at 10 a sell of 200
trades 200; and at the call of `processNewBuyOrder` with an order of Side
"SELL" on the asks `a (10)` at 5 and `b (10)` at 20, the one trade of size 10
is the minimum fill of `b` and takes 10 of the 15 of the order. -/
theorem C3_quantity_conservation_witness :
    (exampleB60.Side = "BUY" ∧ KeysSorted askLess twoSellBook.mAsks
      ∧ sumMatched (processNewBuyOrder twoSellBook exampleB60).2 = 60
      ∧ ((∃ hit, hit <+: bookOrders twoSellBook.mAsks
            ∧ MinFills exampleB60 exampleB60.Quantity hit
                (processNewBuyOrder twoSellBook exampleB60).2)
        ∧ sumMatched (processNewBuyOrder twoSellBook exampleB60).2
            ≤ sumQuantity (bookOrders twoSellBook.mAsks)
        ∧ sumQuantity (bookOrders (processNewBuyOrder twoSellBook exampleB60).1.mAsks)
            = sumQuantity (bookOrders twoSellBook.mAsks)
              - sumMatched (processNewBuyOrder twoSellBook exampleB60).2))
    ∧ (exampleSell7.Side ≠ "BUY" ∧ KeysSorted bidLess exampleBook.mBids
      ∧ sumMatched (processNewSelOrder exampleBook exampleSell7).2 = 200
      ∧ ((∃ hit, hit <+: bookOrders exampleBook.mBids
            ∧ MinFills exampleSell7 exampleSell7.Quantity hit
                (processNewSelOrder exampleBook exampleSell7).2)
        ∧ sumMatched (processNewSelOrder exampleBook exampleSell7).2
            ≤ sumQuantity (bookOrders exampleBook.mBids)
        ∧ sumQuantity (bookOrders (processNewSelOrder exampleBook exampleSell7).1.mBids)
            = sumQuantity (bookOrders exampleBook.mBids)
              - sumMatched (processNewSelOrder exampleBook exampleSell7).2))
    ∧ (wrongSideOrder.Side ≠ "BUY"
      ∧ sumMatched (processNewBuyOrder twoAskBook wrongSideOrder).2 = 10
      ∧ ((∃ hit, List.Sublist hit (bookOrders twoAskBook.mAsks)
            ∧ MinFills wrongSideOrder wrongSideOrder.Quantity hit
                (processNewBuyOrder twoAskBook wrongSideOrder).2)
        ∧ sumMatched (processNewBuyOrder twoAskBook wrongSideOrder).2
            ≤ wrongSideOrder.Quantity
        ∧ (tryMatchOrder wrongSideOrder twoAskBook.mOrderFinders
              twoAskBook.mAsks).newOrder.Quantity
            = wrongSideOrder.Quantity
              - sumMatched (processNewBuyOrder twoAskBook wrongSideOrder).2)) :=
  ⟨⟨by decide, by unfold KeysSorted; decide, by decide,
      (C3_quantity_conservation twoSellBook exampleB60).2.2.1 (by decide)
        (by unfold KeysSorted; decide)⟩,
    ⟨by decide, by unfold KeysSorted; decide, by decide,
      (C3_quantity_conservation exampleBook exampleSell7).2.2.2 (by decide)
        (by unfold KeysSorted; decide)⟩,
    ⟨by decide, by decide, (C3_quantity_conservation twoAskBook wrongSideOrder).1⟩⟩

/-- Counterexample to C3 as stated: the book with asks `a (10)` at 5 and
`b (10)` at 20 has only positive resting quantities; `processNewBuyOrder` with
an order of Side "SELL", price 10 and quantity 15 emits one trade of size 10
(against `b`), while the quantity resting in the asks goes from 20 to 0. -/
theorem C3_counterexample :
    (∀ x ∈ twoAskBook.mBids, ∀ b ∈ x.2, 0 < b.Quantity)
    ∧ (∀ x ∈ twoAskBook.mAsks, ∀ b ∈ x.2, 0 < b.Quantity)
    ∧ (processNewBuyOrder twoAskBook wrongSideOrder).2
        = [{ bookID := "b", bookPrice := 20, bookQuantity := 10,
             newID := "c", newPrice := 10, newQuantity := 10 }]
    ∧ sumMatched (processNewBuyOrder twoAskBook wrongSideOrder).2 = 10
    ∧ sumQuantity (bookOrders twoAskBook.mAsks) = 20
    ∧ sumQuantity (bookOrders (processNewBuyOrder twoAskBook wrongSideOrder).1.mAsks) = 0
    ∧ ¬ (sumMatched (processNewBuyOrder twoAskBook wrongSideOrder).2
          = sumQuantity (bookOrders twoAskBook.mAsks)
            - sumQuantity (bookOrders (processNewBuyOrder twoAskBook wrongSideOrder).1.mAsks)) := by
  decide

/-! ## Discarding the remainder -/

theorem mem_bookOrders (book : book_t) (b : Order) :
    b ∈ bookOrders book ↔ ∃ x ∈ book, b ∈ x.2 := by
  induction book with
  | nil => simp [bookOrders]
  | cons y rest ih =>
    obtain ⟨p, lvl⟩ := y
    rw [bookOrders_cons, List.mem_append, ih]
    constructor
    · rintro (h | ⟨x, hx, hb⟩)
      · exact ⟨(p, lvl), List.mem_cons_self _ _, h⟩
      · exact ⟨x, List.mem_cons_of_mem _ hx, hb⟩
    · rintro ⟨x, hx, hb⟩
      rcases List.mem_cons.mp hx with hx | hx
      · subst hx; exact Or.inl hb
      · exact Or.inr ⟨x, hx, hb⟩

/-- In an early-exit scan a level leaves the book side only when every order
of it has been filled completely by a trade. -/
theorem earlyExitScan_vanished (w : Nat → Nat → Bool) (n : Order) (f : order_map_t)
    (book : book_t) :
    ∀ x ∈ book, (∀ y ∈ (earlyExitScan w n f book).bookSide, y.1 ≠ x.1) →
      ∀ b ∈ x.2, fullTrade n b ∈ (earlyExitScan w n f book).trades := by
  intro x hx hgone b hb
  rcases earlyExitScan_shape w n f book with
    ⟨gone, rest, h1, _, _, _, h5⟩ | ⟨gone, p, lvl, rest, h1, _, _, _, _, h6⟩
  · rw [h5] at hgone
    rw [h5]
    simp only at hgone ⊢
    rw [h1] at hx
    rcases List.mem_append.mp hx with hx | hx
    · exact List.mem_map_of_mem _ ((mem_bookOrders gone b).mpr ⟨x, hx, hb⟩)
    · exact absurd rfl (hgone x hx)
  · rw [h6] at hgone
    rw [h6]
    simp only at hgone ⊢
    rw [h1] at hx
    rcases List.mem_append.mp hx with hx | hx
    · exact List.mem_append_left _
        (List.mem_map_of_mem _ ((mem_bookOrders gone b).mpr ⟨x, hx, hb⟩))
    · rcases List.mem_cons.mp hx with hx | hx
      · exact absurd (by rw [hx]) (hgone _ (List.mem_cons_self _ _))
      · exact absurd rfl (hgone x (List.mem_cons_of_mem _ hx))

/-- What `tryMatchOrder` does to a book side on which the levels that cross
come first: the orders of `fulls`, a front segment of the orders of the side,
are filled completely and leave the side and the order finders; at most the
next order is reduced by one more trade; and a level leaves the side only when
all its orders are filled completely. -/
theorem tryMatchOrder_fills (n : Order) (f : order_map_t) (book : book_t)
    (hc : CrossFirst (newOrderWillMatchBook n n.Price) book) :
    (∃ fulls tail, bookOrders book = fulls ++ tail ∧ sumQuantity fulls ≤ n.Quantity
      ∧ (tryMatchOrder n f book).finders = eraseIds (fulls.map (fun b => b.ID)) f
      ∧ (((tryMatchOrder n f book).trades = fulls.map (fullTrade n)
          ∧ bookOrders (tryMatchOrder n f book).bookSide = tail)
        ∨ (∃ b tail1, tail = b :: tail1 ∧ n.Quantity - sumQuantity fulls < b.Quantity
          ∧ (tryMatchOrder n f book).trades
              = fulls.map (fullTrade n) ++ [printMatch b n (n.Quantity - sumQuantity fulls)]
          ∧ bookOrders (tryMatchOrder n f book).bookSide
              = { b with Quantity := b.Quantity - (n.Quantity - sumQuantity fulls) } :: tail1)))
    ∧ (∀ x ∈ book, (∀ y ∈ (tryMatchOrder n f book).bookSide, y.1 ≠ x.1) →
        ∀ b ∈ x.2, fullTrade n b ∈ (tryMatchOrder n f book).trades) := by
  rw [tryMatchOrder_eq_earlyExitScan n f book hc]
  refine ⟨?_, earlyExitScan_vanished _ n f book⟩
  obtain ⟨fulls, tail, h1, h2, h3, h4⟩ := earlyExitScan_flat (newOrderWillMatchBook n) n f book
  refine ⟨fulls, tail, h1, h2, h3, ?_⟩
  rcases h4 with ⟨i1, _, i3⟩ | ⟨b, tail1, i0, i1, i2, _, i4⟩
  · exact Or.inl ⟨i1, i3⟩
  · exact Or.inr ⟨b, tail1, i0, i1, i2, i4⟩

/-- C9, amended (immediate-or-cancel discard).  For every book and every
incoming order whose TimeInForce is not "GFD", or whose quantity is 0 after
matching, and whatever the Side of the order, `processNewBuyOrder` leaves
`mBids` as it was; the order finders afterwards are the old ones with entries
erased only (a sublist, so no entry is added), and the ids erased are ids of
opposite orders that a trade has filled completely; and every level left in
`mAsks` comes from the level that was at its price by fills and removals at
its front.  When moreover the Side of the order is "BUY" (and `mAsks` is in
ascending order of price, as a `std::map` keeps it), the changes of `mAsks`
are the fills and the removals of filled orders, and nothing else: the orders
of `fulls`, a front segment of the asks taken level after level, each have a
trade of their whole quantity and leave `mAsks` and the order finders; at most
the next order `b` has one more trade, of the rest of the incoming quantity,
and stays with its quantity reduced by it; every other order is as it was; and
a level leaves `mAsks` only when each of its orders has a trade of its whole
quantity.  The same holds for `processNewSelOrder` with the sides exchanged
and an order whose Side is not "BUY". -/
theorem C9_discard (s : OrderBook) (o : Order) :
    ((o.TimeInForce ≠ "GFD" ∨ (tryMatchOrder o s.mOrderFinders s.mAsks).newOrder.Quantity = 0) →
      (processNewBuyOrder s o).1.mBids = s.mBids
      ∧ List.Sublist (processNewBuyOrder s o).1.mOrderFinders s.mOrderFinders
      ∧ (∃ filled : List Order,
          (∀ b ∈ filled, b ∈ bookOrders s.mAsks
            ∧ printMatch b o b.Quantity ∈ (processNewBuyOrder s o).2)
          ∧ (processNewBuyOrder s o).1.mOrderFinders
              = eraseIds (filled.map (fun b => b.ID)) s.mOrderFinders)
      ∧ (∀ x ∈ (processNewBuyOrder s o).1.mAsks,
          ∃ l0, (x.1, l0) ∈ s.mAsks ∧ FilledFrom l0 x.2)
      ∧ (o.Side = "BUY" → KeysSorted askLess s.mAsks →
          (∃ fulls tail, bookOrders s.mAsks = fulls ++ tail
            ∧ sumQuantity fulls ≤ o.Quantity
            ∧ (processNewBuyOrder s o).1.mOrderFinders
                = eraseIds (fulls.map (fun b => b.ID)) s.mOrderFinders
            ∧ (((processNewBuyOrder s o).2 = fulls.map (fullTrade o)
                ∧ bookOrders (processNewBuyOrder s o).1.mAsks = tail)
              ∨ (∃ b tail1, tail = b :: tail1
                ∧ o.Quantity - sumQuantity fulls < b.Quantity
                ∧ (processNewBuyOrder s o).2
                    = fulls.map (fullTrade o)
                      ++ [printMatch b o (o.Quantity - sumQuantity fulls)]
                ∧ bookOrders (processNewBuyOrder s o).1.mAsks
                    = { b with Quantity := b.Quantity - (o.Quantity - sumQuantity fulls) }
                      :: tail1)))
          ∧ (∀ x ∈ s.mAsks, (∀ y ∈ (processNewBuyOrder s o).1.mAsks, y.1 ≠ x.1) →
              ∀ b ∈ x.2, fullTrade o b ∈ (processNewBuyOrder s o).2)))
    ∧ ((o.TimeInForce ≠ "GFD" ∨ (tryMatchOrder o s.mOrderFinders s.mBids).newOrder.Quantity = 0) →
      (processNewSelOrder s o).1.mAsks = s.mAsks
      ∧ List.Sublist (processNewSelOrder s o).1.mOrderFinders s.mOrderFinders
      ∧ (∃ filled : List Order,
          (∀ b ∈ filled, b ∈ bookOrders s.mBids
            ∧ printMatch b o b.Quantity ∈ (processNewSelOrder s o).2)
          ∧ (processNewSelOrder s o).1.mOrderFinders
              = eraseIds (filled.map (fun b => b.ID)) s.mOrderFinders)
      ∧ (∀ x ∈ (processNewSelOrder s o).1.mBids,
          ∃ l0, (x.1, l0) ∈ s.mBids ∧ FilledFrom l0 x.2)
      ∧ (o.Side ≠ "BUY" → KeysSorted bidLess s.mBids →
          (∃ fulls tail, bookOrders s.mBids = fulls ++ tail
            ∧ sumQuantity fulls ≤ o.Quantity
            ∧ (processNewSelOrder s o).1.mOrderFinders
                = eraseIds (fulls.map (fun b => b.ID)) s.mOrderFinders
            ∧ (((processNewSelOrder s o).2 = fulls.map (fullTrade o)
                ∧ bookOrders (processNewSelOrder s o).1.mBids = tail)
              ∨ (∃ b tail1, tail = b :: tail1
                ∧ o.Quantity - sumQuantity fulls < b.Quantity
                ∧ (processNewSelOrder s o).2
                    = fulls.map (fullTrade o)
                      ++ [printMatch b o (o.Quantity - sumQuantity fulls)]
                ∧ bookOrders (processNewSelOrder s o).1.mBids
                    = { b with Quantity := b.Quantity - (o.Quantity - sumQuantity fulls) }
                      :: tail1)))
          ∧ (∀ x ∈ s.mBids, (∀ y ∈ (processNewSelOrder s o).1.mBids, y.1 ≠ x.1) →
              ∀ b ∈ x.2, fullTrade o b ∈ (processNewSelOrder s o).2))) := by
  constructor
  · intro h
    rw [processNewBuyOrder_discard s o h]
    obtain ⟨_, filled, h1, h2⟩ := tryMatchOrder_effect o s.mOrderFinders s.mAsks
    refine ⟨rfl, ?_, ⟨filled, h1, h2⟩, tryMatchOrder_levels o s.mOrderFinders s.mAsks, ?_⟩
    · simp only
      rw [h2]
      exact eraseIds_sublist _ _
    · intro hside hs
      exact tryMatchOrder_fills o s.mOrderFinders s.mAsks (crossFirst_asks o hside _ hs)
  · intro h
    rw [processNewSelOrder_discard s o h]
    obtain ⟨_, filled, h1, h2⟩ := tryMatchOrder_effect o s.mOrderFinders s.mBids
    refine ⟨rfl, ?_, ⟨filled, h1, h2⟩, tryMatchOrder_levels o s.mOrderFinders s.mBids, ?_⟩
    · simp only
      rw [h2]
      exact eraseIds_sublist _ _
    · intro hside hs
      exact tryMatchOrder_fills o s.mOrderFinders s.mBids (crossFirst_bids o hside _ hs)

/-- Witness of the amended C9: on the book with `order2` (200) bid at 10 and
`order3` (100) offered at 12, `BUY IOC 12 150 order6` fills `order3` and its
remainder of 50 is dropped; `SELL GFD 10 200 order7` is filled completely by
`order2`. -/
theorem C9_discard_witness :
    (exampleBuy6.TimeInForce ≠ "GFD" ∧ exampleBuy6.Side = "BUY"
      ∧ KeysSorted askLess exampleBook.mAsks
      ∧ (processNewBuyOrder exampleBook exampleBuy6).1
          = { mBids := exampleBook.mBids, mAsks := [],
              mOrderFinders := [("order2", (OrderFinder.bid, 10))] }
      ∧ (processNewBuyOrder exampleBook exampleBuy6).2 = [fullTrade exampleBuy6 exampleSell]
      ∧ (processNewBuyOrder exampleBook exampleBuy6).1.mBids = exampleBook.mBids
      ∧ List.Sublist (processNewBuyOrder exampleBook exampleBuy6).1.mOrderFinders
          exampleBook.mOrderFinders
      ∧ (∀ x ∈ exampleBook.mAsks,
          (∀ y ∈ (processNewBuyOrder exampleBook exampleBuy6).1.mAsks, y.1 ≠ x.1) →
            ∀ b ∈ x.2, fullTrade exampleBuy6 b ∈ (processNewBuyOrder exampleBook exampleBuy6).2))
    ∧ ((tryMatchOrder exampleSell7 exampleBook.mOrderFinders exampleBook.mBids).newOrder.Quantity = 0
      ∧ exampleSell7.Side ≠ "BUY" ∧ KeysSorted bidLess exampleBook.mBids
      ∧ (processNewSelOrder exampleBook exampleSell7).1
          = { mBids := [], mAsks := exampleBook.mAsks,
              mOrderFinders := [("order3", (OrderFinder.ask, 12))] }
      ∧ (processNewSelOrder exampleBook exampleSell7).2 = [fullTrade exampleSell7 exampleBuy]
      ∧ (processNewSelOrder exampleBook exampleSell7).1.mAsks = exampleBook.mAsks
      ∧ List.Sublist (processNewSelOrder exampleBook exampleSell7).1.mOrderFinders
          exampleBook.mOrderFinders
      ∧ (∀ x ∈ exampleBook.mBids,
          (∀ y ∈ (processNewSelOrder exampleBook exampleSell7).1.mBids, y.1 ≠ x.1) →
            ∀ b ∈ x.2, fullTrade exampleSell7 b ∈ (processNewSelOrder exampleBook exampleSell7).2)) :=
  ⟨⟨by decide, by decide, by unfold KeysSorted; decide, by decide, by decide,
      ((C9_discard exampleBook exampleBuy6).1 (Or.inl (by decide))).1,
      ((C9_discard exampleBook exampleBuy6).1 (Or.inl (by decide))).2.1,
      (((C9_discard exampleBook exampleBuy6).1 (Or.inl (by decide))).2.2.2.2 (by decide)
        (by unfold KeysSorted; decide)).2⟩,
    ⟨by decide, by decide, by unfold KeysSorted; decide, by decide, by decide,
      ((C9_discard exampleBook exampleSell7).2 (Or.inr (by decide))).1,
      ((C9_discard exampleBook exampleSell7).2 (Or.inr (by decide))).2.1,
      (((C9_discard exampleBook exampleSell7).2 (Or.inr (by decide))).2.2.2.2 (by decide)
        (by unfold KeysSorted; decide)).2⟩⟩

/-- Counterexample to C9 as stated: on the asks `a (10)` at 5 and `b (10)` at
20, `processNewBuyOrder` with an order of Side "SELL", TimeInForce "IOC",
price 10 and quantity 15 prints one trade, against `b`, and leaves `mAsks`
empty: the order `a` has left the opposite side without a fill, and its entry
is still in the order finders. -/
theorem C9_counterexample :
    wrongSideOrder.TimeInForce ≠ "GFD"
    ∧ twoAskBook.mAsks
        = [(5, [{ Side := "SELL", TimeInForce := "GFD", Price := 5, Quantity := 10, ID := "a" }]),
           (20, [{ Side := "SELL", TimeInForce := "GFD", Price := 20, Quantity := 10,
                   ID := "b" }])]
    ∧ (processNewBuyOrder twoAskBook wrongSideOrder).2
        = [{ bookID := "b", bookPrice := 20, bookQuantity := 10,
             newID := "c", newPrice := 10, newQuantity := 10 }]
    ∧ (processNewBuyOrder twoAskBook wrongSideOrder).1.mAsks = []
    ∧ (processNewBuyOrder twoAskBook wrongSideOrder).1.mOrderFinders
        = [("a", (OrderFinder.ask, 5))]
    ∧ ¬ (∃ t ∈ (processNewBuyOrder twoAskBook wrongSideOrder).2, t.bookID = "a") := by
  decide

/-! ## Price priority -/

theorem less_asymm {K : Type} {less : K → K → Bool} (hl : StrictOrder less) (a b : K)
    (h : less a b = true) : less b a = false := by
  cases hba : less b a with
  | false => rfl
  | true =>
    have := hl.trans a b a h hba
    rw [hl.irrefl] at this
    exact Bool.noConfusion this

theorem prices_sorted {less : Nat → Nat → Bool} (hl : StrictOrder less) (book : book_t)
    (hs : KeysSorted less book) (hk : PriceKeyed book) :
    List.Pairwise (fun p q => less q p = false) ((bookOrders book).map (fun o => o.Price)) := by
  induction book with
  | nil => simp [bookOrders]
  | cons y rest ih =>
    obtain ⟨p, lvl⟩ := y
    rw [bookOrders_cons, List.map_append, List.pairwise_append]
    have hlvl : ∀ a ∈ lvl.map (fun o => o.Price), a = p := by
      intro a ha
      obtain ⟨o, ho, hoa⟩ := List.mem_map.mp ha
      rw [← hoa]
      exact hk (p, lvl) (List.mem_cons_self _ _) o ho
    refine ⟨?_, ih (KeysSorted_tail hs) (fun x hx => hk x (List.mem_cons_of_mem _ hx)), ?_⟩
    · apply List.pairwise_of_forall_mem_list
      intro a ha b hb
      rw [hlvl a ha, hlvl b hb]
      exact hl.irrefl p
    · intro a ha b hb
      rw [hlvl a ha]
      obtain ⟨o, ho, hob⟩ := List.mem_map.mp hb
      obtain ⟨x, hx, hox⟩ := (mem_bookOrders rest o).mp ho
      have h1 : o.Price = x.1 := hk x (List.mem_cons_of_mem _ hx) o hox
      rw [← hob, h1]
      exact less_asymm hl _ _ (KeysSorted_head hs x hx)

theorem fillLevel_trade_mem (n : Order) (f : order_map_t) (lvl : order_vector_t) :
    ∀ t ∈ (fillLevel n f lvl).trades, ∃ b ∈ lvl, t.bookPrice = b.Price ∧ t.bookID = b.ID := by
  intro t ht
  rcases fillLevel_shape n f lvl with ⟨full, rest, h1, _, _, h4⟩ | ⟨full, b, rest, h1, _, _, h4⟩
  · rw [h4] at ht
    obtain ⟨b0, hb0, hbt⟩ := List.mem_map.mp ht
    exact ⟨b0, by rw [h1]; exact List.mem_append_left _ hb0, by rw [← hbt]; rfl,
      by rw [← hbt]; rfl⟩
  · rw [h4] at ht
    rcases List.mem_append.mp ht with ht | ht
    · obtain ⟨b0, hb0, hbt⟩ := List.mem_map.mp ht
      exact ⟨b0, by rw [h1]; exact List.mem_append_left _ hb0, by rw [← hbt]; rfl,
        by rw [← hbt]; rfl⟩
    · simp only [List.mem_singleton] at ht
      exact ⟨b, by rw [h1]; simp, by rw [ht]; rfl, by rw [ht]; rfl⟩

/-- Price priority for an early-exit scan of a sorted book side whose orders
carry the price of their level. -/
theorem earlyExitScan_priority {less : Nat → Nat → Bool} (hl : StrictOrder less)
    (w : Nat → Nat → Bool) (n : Order) (f : order_map_t) (book : book_t)
    (hs : KeysSorted less book) (hk : PriceKeyed book) :
    List.Pairwise (fun p q => less q p = false)
        ((earlyExitScan w n f book).trades.map (fun t => t.bookPrice))
    ∧ (∀ t ∈ (earlyExitScan w n f book).trades,
        ∃ x ∈ book, x.1 = t.bookPrice ∧ ∃ b ∈ x.2, b.ID = t.bookID)
    ∧ (∀ t ∈ (earlyExitScan w n f book).trades, ∀ x ∈ book, less x.1 t.bookPrice = true →
        (∀ y ∈ (earlyExitScan w n f book).bookSide, y.1 ≠ x.1)
        ∧ (∀ b ∈ x.2, fullTrade n b ∈ (earlyExitScan w n f book).trades)) := by
  refine ⟨?_, ?_, ?_⟩
  · have hp := prices_sorted hl book hs hk
    obtain ⟨fulls, tail, h1, _, _, h4⟩ := earlyExitScan_flat w n f book
    rw [h1, List.map_append] at hp
    rcases h4 with ⟨i1, _, _⟩ | ⟨b, tail1, i0, _, i2, _, _⟩
    · rw [i1, List.map_map]
      exact (List.pairwise_append.mp hp).1
    · rw [i2, List.map_append, List.map_map]
      rw [i0, List.map_cons] at hp
      have e : fulls.map (fun o => o.Price) ++ b.Price :: tail1.map (fun o => o.Price)
          = (fulls.map (fun o => o.Price) ++ [b.Price]) ++ tail1.map (fun o => o.Price) := by
        simp
      rw [e] at hp
      exact (List.pairwise_append.mp hp).1
  · intro t ht
    rcases earlyExitScan_shape w n f book with
      ⟨gone, rest, h1, _, _, _, h5⟩ | ⟨gone, p, lvl, rest, h1, _, _, _, _, h6⟩
    · rw [h5] at ht
      obtain ⟨b0, hb0, hbt⟩ := List.mem_map.mp ht
      obtain ⟨y, hy, hby⟩ := (mem_bookOrders gone b0).mp hb0
      have hyb : y ∈ book := by rw [h1]; exact List.mem_append_left _ hy
      refine ⟨y, hyb, ?_, b0, hby, by rw [← hbt]; rfl⟩
      rw [← hbt]
      exact (hk y hyb b0 hby).symm
    · rw [h6] at ht
      rcases List.mem_append.mp ht with ht | ht
      · obtain ⟨b0, hb0, hbt⟩ := List.mem_map.mp ht
        obtain ⟨y, hy, hby⟩ := (mem_bookOrders gone b0).mp hb0
        have hyb : y ∈ book := by rw [h1]; exact List.mem_append_left _ hy
        refine ⟨y, hyb, ?_, b0, hby, by rw [← hbt]; rfl⟩
        rw [← hbt]
        exact (hk y hyb b0 hby).symm
      · obtain ⟨b0, hb0, hp0, hid0⟩ := fillLevel_trade_mem _ _ lvl t ht
        have hyb : (p, lvl) ∈ book := by rw [h1]; simp
        refine ⟨(p, lvl), hyb, ?_, b0, hb0, hid0.symm⟩
        rw [hp0]
        exact (hk _ hyb b0 hb0).symm
  · intro t ht x hx hlt
    rcases earlyExitScan_shape w n f book with
      ⟨gone, rest, h1, _, _, _, h5⟩ | ⟨gone, p, lvl, rest, h1, _, _, _, _, h6⟩
    · rw [h1] at hs
      obtain ⟨_, _, hcross⟩ := List.pairwise_append.mp hs
      rw [h5] at ht ⊢
      simp only
      obtain ⟨b0, hb0, hbt⟩ := List.mem_map.mp ht
      obtain ⟨y, hy, hby⟩ := (mem_bookOrders gone b0).mp hb0
      have hyb : y ∈ book := by rw [h1]; exact List.mem_append_left _ hy
      have hty : t.bookPrice = y.1 := by rw [← hbt]; exact hk y hyb b0 hby
      rw [hty] at hlt
      have hxg : x ∈ gone := by
        rw [h1] at hx
        rcases List.mem_append.mp hx with hx | hx
        · exact hx
        · have := less_asymm hl _ _ (hcross y hy x hx)
          rw [this] at hlt
          exact Bool.noConfusion hlt
      refine ⟨?_, ?_⟩
      · intro z hz heq
        have := hcross x hxg z hz
        rw [heq, hl.irrefl] at this
        exact Bool.noConfusion this
      · intro b hb
        exact List.mem_map_of_mem _ ((mem_bookOrders gone b).mpr ⟨x, hxg, hb⟩)
    · rw [h1] at hs
      obtain ⟨_, htl, hcross⟩ := List.pairwise_append.mp hs
      have hxg : x ∈ gone := by
        rw [h6] at ht
        rw [h1] at hx
        rcases List.mem_append.mp hx with hx | hx
        · exact hx
        · exfalso
          have hpx : less p x.1 = true ∨ x.1 = p := by
            rcases List.mem_cons.mp hx with hx | hx
            · right; rw [hx]
            · left; exact KeysSorted_head htl x hx
          rcases List.mem_append.mp ht with ht | ht
          · obtain ⟨b0, hb0, hbt⟩ := List.mem_map.mp ht
            obtain ⟨y, hy, hby⟩ := (mem_bookOrders gone b0).mp hb0
            have hyb : y ∈ book := by rw [h1]; exact List.mem_append_left _ hy
            have hty : t.bookPrice = y.1 := by rw [← hbt]; exact hk y hyb b0 hby
            rw [hty] at hlt
            have := less_asymm hl _ _ (hcross y hy x hx)
            rw [this] at hlt
            exact Bool.noConfusion hlt
          · obtain ⟨b0, hb0, hp0, _⟩ := fillLevel_trade_mem _ _ lvl t ht
            have hyb : (p, lvl) ∈ book := by rw [h1]; simp
            have hty : t.bookPrice = p := by rw [hp0]; exact hk _ hyb b0 hb0
            rw [hty] at hlt
            rcases hpx with hpx | hpx
            · have := less_asymm hl _ _ hpx
              rw [this] at hlt
              exact Bool.noConfusion hlt
            · rw [hpx, hl.irrefl] at hlt
              exact Bool.noConfusion hlt
      rw [h6]
      simp only
      refine ⟨?_, ?_⟩
      · intro z hz heq
        have hz2 : z.1 = p ∨ z ∈ rest := by
          rcases List.mem_cons.mp hz with hz | hz
          · left; rw [hz]
          · right; exact hz
        rcases hz2 with hz2 | hz2
        · have := hcross x hxg (p, lvl) (List.mem_cons_self _ _)
          rw [← heq, hz2, hl.irrefl] at this
          exact Bool.noConfusion this
        · have := hcross x hxg z (List.mem_cons_of_mem _ hz2)
          rw [heq, hl.irrefl] at this
          exact Bool.noConfusion this
      · intro b hb
        exact List.mem_append_left _
          (List.mem_map_of_mem _ ((mem_bookOrders gone b).mpr ⟨x, hxg, hb⟩))

theorem FilledFrom_price (l0 l : order_vector_t) (p : Nat) (h : FilledFrom l0 l)
    (hp : ∀ o ∈ l0, o.Price = p) : ∀ o ∈ l, o.Price = p := by
  rcases h with ⟨full, h1⟩ | ⟨full, b, rest, q, h1, _, _, h4⟩
  · intro o ho
    exact hp o (by rw [h1]; exact List.mem_append_right _ ho)
  · intro o ho
    rw [h4] at ho
    rcases List.mem_cons.mp ho with ho | ho
    · subst ho
      exact hp b (by rw [h1]; simp)
    · exact hp o (by rw [h1]; exact List.mem_append_right _ (List.mem_cons_of_mem _ ho))

theorem tryMatchOrder_priceKeyed (n : Order) (f : order_map_t) (book : book_t)
    (h : PriceKeyed book) : PriceKeyed (tryMatchOrder n f book).bookSide := by
  intro x hx
  obtain ⟨l0, h1, h2⟩ := tryMatchOrder_levels n f book x hx
  exact FilledFrom_price l0 x.2 x.1 h2 (h _ h1)

theorem pushBackAt_priceKeyed (less : Nat → Nat → Bool) (o : Order) (book : book_t)
    (h : PriceKeyed book) : PriceKeyed (pushBackAt less o.Price o book) := by
  intro x hx
  rcases mem_pushBackAt less o.Price o book x hx with hx | hx
  · subst hx
    intro o1 ho1
    simp only [List.mem_append, List.mem_singleton] at ho1
    rcases ho1 with ho1 | ho1
    · cases hf : mapFind o.Price book with
      | none => rw [hf] at ho1; simp at ho1
      | some lvl =>
        rw [hf] at ho1
        exact h _ (mem_of_mapFind _ _ _ hf) o1 ho1
    · subst ho1; rfl
  · exact h x hx

theorem sideAfterRetrieve_priceKeyed (less : Nat → Nat → Bool) (p : Nat)
    (lvl lvl1 : order_vector_t) (side : book_t) (hf : mapFind p side = some lvl)
    (hs : List.Sublist lvl1 lvl) (h : PriceKeyed side) :
    PriceKeyed (sideAfterRetrieve less p lvl1 side) := by
  intro x hx
  rcases mem_sideAfterRetrieve less p lvl1 side x hx with ⟨h1, _⟩ | h1
  · subst h1
    intro o ho
    exact h _ (mem_of_mapFind _ _ _ hf) o (hs.subset ho)
  · exact h x h1

theorem processNewBuyOrder_priceKeyed (s : OrderBook) (o : Order)
    (hb : PriceKeyed s.mBids) (ha : PriceKeyed s.mAsks) :
    PriceKeyed (processNewBuyOrder s o).1.mBids ∧ PriceKeyed (processNewBuyOrder s o).1.mAsks := by
  unfold processNewBuyOrder
  simp only
  split_ifs with hins
  · exact ⟨pushBackAt_priceKeyed _ _ _ hb, tryMatchOrder_priceKeyed _ _ _ ha⟩
  · exact ⟨hb, tryMatchOrder_priceKeyed _ _ _ ha⟩

theorem processNewSelOrder_priceKeyed (s : OrderBook) (o : Order)
    (hb : PriceKeyed s.mBids) (ha : PriceKeyed s.mAsks) :
    PriceKeyed (processNewSelOrder s o).1.mBids ∧ PriceKeyed (processNewSelOrder s o).1.mAsks := by
  unfold processNewSelOrder
  simp only
  split_ifs with hins
  · exact ⟨tryMatchOrder_priceKeyed _ _ _ hb, pushBackAt_priceKeyed _ _ _ ha⟩
  · exact ⟨tryMatchOrder_priceKeyed _ _ _ hb, ha⟩

theorem retrieveOrder_priceKeyed (s : OrderBook) (orderID : String) (o : Order) (s1 : OrderBook)
    (h : retrieveOrder s orderID = Outcome.ok (o, s1))
    (hb : PriceKeyed s.mBids) (ha : PriceKeyed s.mAsks) :
    PriceKeyed s1.mBids ∧ PriceKeyed s1.mAsks := by
  rcases retrieveOrder_spec s orderID o s1 h with
    ⟨p, lvl, lvl1, _, h2, h3, h4⟩ | ⟨p, lvl, lvl1, _, h2, h3, h4⟩
  · subst h4
    exact ⟨sideAfterRetrieve_priceKeyed _ _ lvl _ _ h2
      (retrieveOrderInLevelOrders_spec _ _ _ _ h3).2.2 hb, ha⟩
  · subst h4
    exact ⟨hb, sideAfterRetrieve_priceKeyed _ _ lvl _ _ h2
      (retrieveOrderInLevelOrders_spec _ _ _ _ h3).2.2 ha⟩

/-- In every book reached through the public member functions, every stored
order carries the price of its level. -/
theorem reachablePublic_priceKeyed (s : OrderBook) (h : ReachablePublic s) :
    PriceKeyed s.mBids ∧ PriceKeyed s.mAsks := by
  induction h with
  | empty =>
    exact ⟨by intro x hx; simp [OrderBook.empty] at hx,
      by intro x hx; simp [OrderBook.empty] at hx⟩
  | newBuy s o _ ih => exact processNewBuyOrder_priceKeyed s o ih.1 ih.2
  | newSel s o _ ih => exact processNewSelOrder_priceKeyed s o ih.1 ih.2
  | cancel s orderID s1 _ hc ih =>
    rcases processCancel_spec s orderID s1 hc with ⟨_, h2⟩ | ⟨o, s2, _, h2, h3⟩
    · subst h2; exact ih
    · subst h3
      exact retrieveOrder_priceKeyed s orderID o s2 h2 ih.1 ih.2
  | mod s tokens s1 trades _ hm ih =>
    rcases processMod_spec s tokens s1 trades hm with
      ⟨_, _, _, h3, _⟩ | ⟨orderID, side, pt, qt, o, s2, _, _, _, _, _, hr, hcase⟩
    · subst h3; exact ih
    · have h2 := retrieveOrder_priceKeyed s orderID o s2 hr ih.1 ih.2
      rcases hcase with ⟨_, he⟩ | ⟨_, he⟩
      · have h1 : s1 = (processNewBuyOrder _ _).1 := congrArg Prod.fst he
        rw [h1]
        exact processNewBuyOrder_priceKeyed _ _ h2.1 h2.2
      · have h1 : s1 = (processNewSelOrder _ _).1 := congrArg Prod.fst he
        rw [h1]
        exact processNewSelOrder_priceKeyed _ _ h2.1 h2.2
  | cancelThrows s orderID s1 _ hc ih =>
    rw [processCancel_throw s orderID s1 hc]; exact ih
  | modThrows s tokens s1 _ hm ih =>
    rcases processMod_throw s tokens s1 hm with h1 | ⟨orderID, o, s2, hr, h1⟩
    · rw [h1]; exact ih
    · rw [h1]
      exact retrieveOrder_priceKeyed s orderID o s2 hr ih.1 ih.2

/-- C5 (price priority).  Take a book side in the order of its `std::map`
whose orders carry the price of their level (as in every reachable book).  For
an incoming buy matched against asks by `tryMatchOrder`: the resting prices of
the emitted trades are non-decreasing; every trade is against an order of the
ask level at the trade's resting price; and when a level at price `p` receives
a fill, every ask level with a lower price is gone from the book side and each
of its orders has been filled completely.  For an incoming sell matched
against bids the same holds with non-increasing prices and higher-priced
levels. -/
theorem C5_price_priority (o : Order) (f : order_map_t) (book : book_t)
    (hk : PriceKeyed book) :
    (o.Side = "BUY" → KeysSorted askLess book →
      List.Pairwise (fun p q => p ≤ q) ((tryMatchOrder o f book).trades.map (fun t => t.bookPrice))
      ∧ (∀ t ∈ (tryMatchOrder o f book).trades,
          ∃ x ∈ book, x.1 = t.bookPrice ∧ ∃ b ∈ x.2, b.ID = t.bookID)
      ∧ (∀ t ∈ (tryMatchOrder o f book).trades, ∀ x ∈ book, x.1 < t.bookPrice →
          (∀ y ∈ (tryMatchOrder o f book).bookSide, y.1 ≠ x.1)
          ∧ (∀ b ∈ x.2, printMatch b o b.Quantity ∈ (tryMatchOrder o f book).trades)))
    ∧ (o.Side ≠ "BUY" → KeysSorted bidLess book →
      List.Pairwise (fun p q => q ≤ p) ((tryMatchOrder o f book).trades.map (fun t => t.bookPrice))
      ∧ (∀ t ∈ (tryMatchOrder o f book).trades,
          ∃ x ∈ book, x.1 = t.bookPrice ∧ ∃ b ∈ x.2, b.ID = t.bookID)
      ∧ (∀ t ∈ (tryMatchOrder o f book).trades, ∀ x ∈ book, t.bookPrice < x.1 →
          (∀ y ∈ (tryMatchOrder o f book).bookSide, y.1 ≠ x.1)
          ∧ (∀ b ∈ x.2, printMatch b o b.Quantity ∈ (tryMatchOrder o f book).trades))) := by
  constructor
  · intro hside hs
    rw [tryMatchOrder_eq_earlyExitScan o _ _ (crossFirst_asks o hside _ hs)]
    obtain ⟨h1, h2, h3⟩ := earlyExitScan_priority askLess_strict (newOrderWillMatchBook o) o f
      book hs hk
    refine ⟨?_, h2, ?_⟩
    · refine List.Pairwise.imp ?_ h1
      intro p q hpq
      simp only [askLess, decide_eq_false_iff_not] at hpq
      omega
    · intro t ht x hx hlt
      exact h3 t ht x hx (by simp only [askLess, decide_eq_true_eq]; exact hlt)
  · intro hside hs
    rw [tryMatchOrder_eq_earlyExitScan o _ _ (crossFirst_bids o hside _ hs)]
    obtain ⟨h1, h2, h3⟩ := earlyExitScan_priority bidLess_strict (newOrderWillMatchBook o) o f
      book hs hk
    refine ⟨?_, h2, ?_⟩
    · refine List.Pairwise.imp ?_ h1
      intro p q hpq
      simp only [bidLess, decide_eq_false_iff_not] at hpq
      omega
    · intro t ht x hx hlt
      exact h3 t ht x hx (by simp only [bidLess, decide_eq_true_eq]; exact hlt)

/-- Witness of C5: on the asks `a (10)` at 5 and `b (10)` at 20 the buy
`BUY GFD 20 15 d` trades at 5, then at 20; on the bids `order1 (100)` at 11 and
`order2 (200)` at 10 the sell `SELL GFD 10 150 e` trades at 11, then at 10. -/
theorem C5_price_priority_witness :
    (PriceKeyed twoAskBook.mAsks ∧ exampleBuy8.Side = "BUY"
      ∧ KeysSorted askLess twoAskBook.mAsks
      ∧ (tryMatchOrder exampleBuy8 twoAskBook.mOrderFinders twoAskBook.mAsks).trades.map
            (fun t => (t.bookID, t.bookPrice, t.bookQuantity))
          = [("a", 5, 10), ("b", 20, 5)]
      ∧ List.Pairwise (fun p q => p ≤ q)
          ((tryMatchOrder exampleBuy8 twoAskBook.mOrderFinders twoAskBook.mAsks).trades.map
            (fun t => t.bookPrice)))
    ∧ (PriceKeyed mainBook.mBids ∧ exampleSell9.Side ≠ "BUY"
      ∧ KeysSorted bidLess mainBook.mBids
      ∧ (tryMatchOrder exampleSell9 mainBook.mOrderFinders mainBook.mBids).trades.map
            (fun t => (t.bookID, t.bookPrice, t.bookQuantity))
          = [("order1", 11, 100), ("order2", 10, 50)]
      ∧ List.Pairwise (fun p q => q ≤ p)
          ((tryMatchOrder exampleSell9 mainBook.mOrderFinders mainBook.mBids).trades.map
            (fun t => t.bookPrice))) :=
  ⟨⟨by unfold PriceKeyed; decide, by decide, by unfold KeysSorted; decide, by decide,
      ((C5_price_priority exampleBuy8 twoAskBook.mOrderFinders twoAskBook.mAsks
        (by unfold PriceKeyed; decide)).1 (by decide) (by unfold KeysSorted; decide)).1⟩,
    ⟨by unfold PriceKeyed; decide, by decide, by unfold KeysSorted; decide, by decide,
      ((C5_price_priority exampleSell9 mainBook.mOrderFinders mainBook.mBids
        (by unfold PriceKeyed; decide)).2 (by decide) (by unfold KeysSorted; decide)).1⟩⟩

/-! ## The order finders and the orders of the book -/

theorem Agree_perm {F L L2 : order_map_t} (hp : L.Perm L2) (h : Agree F L) : Agree F L2 := by
  obtain ⟨h1, h2, h3⟩ := h
  refine ⟨h1, (List.Perm.nodup_iff (hp.map Prod.fst)).mp h2, ?_⟩
  intro id v
  rw [h3 id v]
  exact hp.mem_iff

theorem Agree_erase {F L : order_map_t} (id0 : String) (v0 : OrderFinder × Nat)
    (h : Agree F ((id0, v0) :: L)) : Agree (mapErase id0 F) L := by
  obtain ⟨h1, h2, h3⟩ := h
  rw [List.map_cons, List.nodup_cons] at h2
  refine ⟨KeysSorted_mapErase id0 h1, h2.2, ?_⟩
  intro id v
  by_cases hid : id = id0
  · subst hid
    rw [mapFind_mapErase_self idLess_strict h1]
    constructor
    · intro h; exact Option.noConfusion h
    · intro hm
      exact absurd (List.mem_map_of_mem Prod.fst hm) h2.1
  · rw [mapFind_mapErase_ne _ _ _ hid, h3 id v, List.mem_cons]
    constructor
    · rintro (h | h)
      · injection h with h4 _
        exact absurd h4 hid
      · exact h
    · intro h; exact Or.inr h

theorem Agree_eraseIds {F : order_map_t} (R L : order_map_t) (h : Agree F (R ++ L)) :
    Agree (eraseIds (R.map Prod.fst) F) L := by
  induction R generalizing F with
  | nil => exact h
  | cons r rest ih =>
    obtain ⟨id0, v0⟩ := r
    rw [List.map_cons, eraseIds_cons]
    exact ih (Agree_erase id0 v0 h)

theorem Agree_insert {F L : order_map_t} (id0 : String) (v0 : OrderFinder × Nat)
    (h : Agree F L) (hfresh : id0 ∉ L.map Prod.fst) :
    Agree (mapInsert idLess id0 v0 F) ((id0, v0) :: L) := by
  obtain ⟨h1, h2, h3⟩ := h
  refine ⟨KeysSorted_mapInsert idLess_strict id0 v0 h1, ?_, ?_⟩
  · rw [List.map_cons, List.nodup_cons]
    exact ⟨hfresh, h2⟩
  · intro id v
    by_cases hid : id = id0
    · subst hid
      rw [mapFind_mapInsert_self, List.mem_cons]
      constructor
      · intro h
        injection h with h4
        exact Or.inl (by rw [h4])
      · rintro (h | h)
        · injection h with _ h5
          rw [h5]
        · exact absurd (List.mem_map_of_mem Prod.fst h) hfresh
    · rw [mapFind_mapInsert_ne _ _ _ _ _ hid, h3 id v, List.mem_cons]
      constructor
      · intro h; exact Or.inr h
      · rintro (h | h)
        · injection h with h4 _
          exact absurd h4 hid
        · exact h

theorem sideEntries_cons (fd : OrderFinder) (p : Nat) (lvl : order_vector_t) (rest : book_t) :
    sideEntries fd ((p, lvl) :: rest)
      = lvl.map (fun o => (o.ID, (fd, p))) ++ sideEntries fd rest := rfl

theorem sideEntries_append (fd : OrderFinder) (b1 b2 : book_t) :
    sideEntries fd (b1 ++ b2) = sideEntries fd b1 ++ sideEntries fd b2 := by
  induction b1 with
  | nil => rfl
  | cons x rest ih =>
    obtain ⟨p, lvl⟩ := x
    simp [sideEntries, ih]

theorem sideEntries_ids (fd : OrderFinder) (book : book_t) :
    (sideEntries fd book).map Prod.fst = (bookOrders book).map (fun o => o.ID) := by
  induction book with
  | nil => rfl
  | cons x rest ih =>
    obtain ⟨p, lvl⟩ := x
    simp [sideEntries, bookOrders, ih]

theorem bookEntries_ids (s : OrderBook) : (bookEntries s).map Prod.fst = restingIds s := by
  simp [bookEntries, restingIds, sideEntries_ids]

theorem mem_sideEntries (fd : OrderFinder) (book : book_t) (e : String × (OrderFinder × Nat)) :
    e ∈ sideEntries fd book ↔ ∃ x ∈ book, ∃ o ∈ x.2, e = (o.ID, (fd, x.1)) := by
  induction book with
  | nil => simp [sideEntries]
  | cons y rest ih =>
    obtain ⟨p, lvl⟩ := y
    rw [sideEntries_cons, List.mem_append, ih]
    constructor
    · rintro (h | ⟨x, hx, o, ho, he⟩)
      · obtain ⟨o, ho, he⟩ := List.mem_map.mp h
        exact ⟨(p, lvl), List.mem_cons_self _ _, o, ho, he.symm⟩
      · exact ⟨x, List.mem_cons_of_mem _ hx, o, ho, he⟩
    · rintro ⟨x, hx, o, ho, he⟩
      rcases List.mem_cons.mp hx with hx | hx
      · subst hx
        left
        exact List.mem_map.mpr ⟨o, ho, he.symm⟩
      · exact Or.inr ⟨x, hx, o, ho, he⟩

/-- What an early-exit scan takes from the entries of the book side is what
it takes from the order finders. -/
theorem earlyExitScan_entries (fd : OrderFinder) (w : Nat → Nat → Bool) (n : Order)
    (f : order_map_t) (book : book_t) :
    ∃ R, sideEntries fd book = R ++ sideEntries fd (earlyExitScan w n f book).bookSide
      ∧ (earlyExitScan w n f book).finders = eraseIds (R.map Prod.fst) f := by
  rcases earlyExitScan_shape w n f book with
    ⟨gone, rest, h1, _, _, _, h5⟩ | ⟨gone, p, lvl, rest, h1, _, _, _, _, h6⟩
  · refine ⟨sideEntries fd gone, ?_, ?_⟩
    · rw [h5, h1, sideEntries_append]
    · rw [h5, sideEntries_ids]
  · rcases fillLevel_shape { n with Quantity := n.Quantity - sumQuantity (bookOrders gone) }
        (eraseIds ((bookOrders gone).map (fun o => o.ID)) f) lvl with
      ⟨full, rest1, i1, _, _, i4⟩ | ⟨full, b, rest1, i1, _, _, i4⟩
    · refine ⟨sideEntries fd gone ++ full.map (fun o => (o.ID, (fd, p))), ?_, ?_⟩
      · rw [h6, i4, h1, sideEntries_append, sideEntries_cons, sideEntries_cons, i1]
        simp
      · rw [h6, i4]
        simp only [List.map_append, eraseIds_append, sideEntries_ids, List.map_map]
        rfl
    · refine ⟨sideEntries fd gone ++ full.map (fun o => (o.ID, (fd, p))), ?_, ?_⟩
      · rw [h6, i4, h1, sideEntries_append, sideEntries_cons, sideEntries_cons, i1]
        simp
      · rw [h6, i4]
        simp only [List.map_append, eraseIds_append, sideEntries_ids, List.map_map]
        rfl

theorem mapFind_none_of_less {less : Nat → Nat → Bool} (hl : StrictOrder less) (p k : Nat)
    (v : order_vector_t) (rest : book_t) (hs : KeysSorted less ((k, v) :: rest))
    (hlt : less p k = true) : mapFind p rest = none := by
  apply mapFind_eq_none_of_forall_ne
  intro y hy heq
  have h1 := KeysSorted_head hs y hy
  simp only at h1
  rw [heq] at h1
  have := less_asymm hl _ _ h1
  rw [this] at hlt
  exact Bool.noConfusion hlt

theorem sideEntries_pushBackAt {less : Nat → Nat → Bool} (hl : StrictOrder less)
    (fd : OrderFinder) (p : Nat) (o : Order) (book : book_t) (hs : KeysSorted less book) :
    (sideEntries fd (pushBackAt less p o book)).Perm ((o.ID, (fd, p)) :: sideEntries fd book) := by
  induction book with
  | nil =>
    simp [pushBackAt, mapFind, mapInsert, sideEntries]
  | cons x rest ih =>
    obtain ⟨k, v⟩ := x
    unfold pushBackAt
    simp only [mapFind, mapInsert]
    by_cases hk : k = p
    · subst hk
      simp only [if_true, Option.getD_some, sideEntries_cons, List.map_append, List.map_cons,
        List.map_nil, List.append_assoc, List.singleton_append]
      exact List.perm_middle
    · simp only [hk, if_false]
      by_cases hlt : less p k = true
      · have hnone := mapFind_none_of_less hl p k v rest hs hlt
        simp only [hlt, if_true, hnone, Option.getD_none, List.nil_append, sideEntries_cons,
          List.map_cons, List.map_nil, List.singleton_append]
        exact List.Perm.refl _
      · simp only [hlt, if_false, sideEntries_cons]
        have h1 := ih (KeysSorted_tail hs)
        unfold pushBackAt at h1
        exact (List.Perm.append_left _ h1).trans List.perm_middle

theorem retrieveOrderInLevelOrders_perm (lvl : order_vector_t) (orderID : String) (o : Order)
    (lvl1 : order_vector_t) (h : retrieveOrderInLevelOrders lvl orderID = some (o, lvl1)) :
    lvl.Perm (o :: lvl1) := by
  induction lvl generalizing lvl1 with
  | nil => simp [retrieveOrderInLevelOrders] at h
  | cons a rest ih =>
    simp only [retrieveOrderInLevelOrders] at h
    split_ifs at h with h1
    · simp only [Option.some.injEq, Prod.mk.injEq] at h
      obtain ⟨h2, h3⟩ := h
      subst h2; subst h3
      exact List.Perm.refl _
    · cases hr : retrieveOrderInLevelOrders rest orderID with
      | none => rw [hr] at h; simp at h
      | some r =>
        obtain ⟨found, rest1⟩ := r
        rw [hr] at h
        simp only [Option.some.injEq, Prod.mk.injEq] at h
        obtain ⟨h2, h3⟩ := h
        subst h2; subst h3
        exact ((ih rest1 hr).cons a).trans (List.Perm.swap _ _ _)

theorem sideEntries_replace {less : Nat → Nat → Bool} (hl : StrictOrder less)
    (fd : OrderFinder) (p : Nat) (lvl lvl1 : order_vector_t) (book : book_t)
    (hs : KeysSorted less book) (hf : mapFind p book = some lvl) :
    ∃ A B, sideEntries fd book = A ++ lvl.map (fun o => (o.ID, (fd, p))) ++ B
      ∧ sideEntries fd (mapInsert less p lvl1 book)
          = A ++ lvl1.map (fun o => (o.ID, (fd, p))) ++ B
      ∧ sideEntries fd (mapErase p book) = A ++ B := by
  induction book with
  | nil => simp [mapFind] at hf
  | cons x rest ih =>
    obtain ⟨k, v⟩ := x
    simp only [mapFind] at hf
    by_cases hk : k = p
    · subst hk
      simp only [if_true, Option.some.injEq] at hf
      subst hf
      refine ⟨[], sideEntries fd rest, ?_, ?_, ?_⟩
      · simp [sideEntries_cons]
      · simp [mapInsert, sideEntries_cons]
      · simp [mapErase]
    · simp only [hk, if_false] at hf
      obtain ⟨A, B, h1, h2, h3⟩ := ih (KeysSorted_tail hs) hf
      have hkp : less k p = true := KeysSorted_head hs (p, lvl) (mem_of_mapFind _ _ _ hf)
      have hpk : less p k = false := less_asymm hl _ _ hkp
      refine ⟨v.map (fun o => (o.ID, (fd, k))) ++ A, B, ?_, ?_, ?_⟩
      · rw [sideEntries_cons, h1]; simp
      · simp only [mapInsert, hk, if_false, hpk, Bool.false_eq_true]
        rw [sideEntries_cons, h2]
        simp
      · simp only [mapErase, hk, if_false]
        rw [sideEntries_cons, h3]
        simp

theorem sideEntries_retrieve {less : Nat → Nat → Bool} (hl : StrictOrder less)
    (fd : OrderFinder) (p : Nat) (lvl lvl1 : order_vector_t) (o : Order) (orderID : String)
    (book : book_t) (hs : KeysSorted less book) (hf : mapFind p book = some lvl)
    (hr : retrieveOrderInLevelOrders lvl orderID = some (o, lvl1)) :
    (sideEntries fd book).Perm
      ((orderID, (fd, p)) :: sideEntries fd (sideAfterRetrieve less p lvl1 book)) := by
  obtain ⟨A, B, h1, h2, h3⟩ := sideEntries_replace hl fd p lvl lvl1 book hs hf
  have hid : o.ID = orderID := (retrieveOrderInLevelOrders_spec _ _ _ _ hr).2.1
  have hperm := (retrieveOrderInLevelOrders_perm _ _ _ _ hr).map (fun o => (o.ID, (fd, p)))
  rw [List.map_cons, hid] at hperm
  have hafter : sideEntries fd (sideAfterRetrieve less p lvl1 book)
      = A ++ lvl1.map (fun o => (o.ID, (fd, p))) ++ B := by
    unfold sideAfterRetrieve
    cases lvl1 with
    | nil => simp [h3]
    | cons a l => simp only [List.isEmpty_cons, Bool.false_eq_true, if_false, h2]
  rw [h1, hafter]
  have h4 : (A ++ lvl.map (fun o => (o.ID, (fd, p))) ++ B).Perm
      (A ++ ((orderID, (fd, p)) :: lvl1.map (fun o => (o.ID, (fd, p)))) ++ B) :=
    List.Perm.append_right _ (List.Perm.append_left _ hperm)
  refine h4.trans ?_
  simp only [List.append_assoc, List.cons_append]
  exact List.perm_middle

theorem tryMatchOrder_entries (fd : OrderFinder) (n : Order) (f : order_map_t) (book : book_t)
    (hc : CrossFirst (newOrderWillMatchBook n n.Price) book) :
    ∃ R, sideEntries fd book = R ++ sideEntries fd (tryMatchOrder n f book).bookSide
      ∧ (tryMatchOrder n f book).finders = eraseIds (R.map Prod.fst) f := by
  rw [tryMatchOrder_eq_earlyExitScan n f book hc]
  exact earlyExitScan_entries fd _ n f book

theorem processNewBuyOrder_agree (s : OrderBook) (o : Order) (hinv : BookInv s)
    (hside : o.Side = "BUY") (hag : Agree s.mOrderFinders (bookEntries s))
    (hfresh : o.ID ∉ (bookEntries s).map Prod.fst) :
    Agree (processNewBuyOrder s o).1.mOrderFinders (bookEntries (processNewBuyOrder s o).1) := by
  obtain ⟨R, hE, hF⟩ := tryMatchOrder_entries OrderFinder.ask o s.mOrderFinders s.mAsks
    (crossFirst_asks o hside s.mAsks hinv.asksSorted)
  have hag1 : Agree (tryMatchOrder o s.mOrderFinders s.mAsks).finders
      (sideEntries OrderFinder.bid s.mBids
        ++ sideEntries OrderFinder.ask (tryMatchOrder o s.mOrderFinders s.mAsks).bookSide) := by
    rw [hF]
    apply Agree_eraseIds
    unfold bookEntries at hag
    rw [hE] at hag
    refine Agree_perm ?_ hag
    rw [← List.append_assoc, ← List.append_assoc]
    exact List.Perm.append_right _ List.perm_append_comm
  have hfresh1 : o.ID ∉ (sideEntries OrderFinder.bid s.mBids
      ++ sideEntries OrderFinder.ask (tryMatchOrder o s.mOrderFinders s.mAsks).bookSide).map
        Prod.fst := by
    intro hmem
    apply hfresh
    unfold bookEntries
    rw [hE]
    simp only [List.map_append, List.mem_append] at hmem ⊢
    rcases hmem with h | h
    · exact Or.inl h
    · exact Or.inr (Or.inr h)
  by_cases hins : o.TimeInForce = "GFD"
      ∧ 0 < (tryMatchOrder o s.mOrderFinders s.mAsks).newOrder.Quantity
  · rw [processNewBuyOrder_rest s o hins.1 hins.2]
    unfold bookEntries
    simp only
    refine Agree_perm ?_ (Agree_insert o.ID (OrderFinder.bid, o.Price) hag1 hfresh1)
    have h1 := sideEntries_pushBackAt bidLess_strict OrderFinder.bid o.Price
      { o with Quantity := (tryMatchOrder o s.mOrderFinders s.mAsks).newOrder.Quantity } s.mBids
      hinv.bidsSorted
    exact (List.Perm.append_right _ h1).symm
  · have h2 : o.TimeInForce ≠ "GFD"
        ∨ (tryMatchOrder o s.mOrderFinders s.mAsks).newOrder.Quantity = 0 := by
      by_cases h3 : o.TimeInForce = "GFD"
      · right
        by_contra h4
        exact hins ⟨h3, by omega⟩
      · exact Or.inl h3
    rw [processNewBuyOrder_discard s o h2]
    exact hag1

theorem processNewSelOrder_agree (s : OrderBook) (o : Order) (hinv : BookInv s)
    (hside : o.Side ≠ "BUY") (hag : Agree s.mOrderFinders (bookEntries s))
    (hfresh : o.ID ∉ (bookEntries s).map Prod.fst) :
    Agree (processNewSelOrder s o).1.mOrderFinders (bookEntries (processNewSelOrder s o).1) := by
  obtain ⟨R, hE, hF⟩ := tryMatchOrder_entries OrderFinder.bid o s.mOrderFinders s.mBids
    (crossFirst_bids o hside s.mBids hinv.bidsSorted)
  have hag1 : Agree (tryMatchOrder o s.mOrderFinders s.mBids).finders
      (sideEntries OrderFinder.bid (tryMatchOrder o s.mOrderFinders s.mBids).bookSide
        ++ sideEntries OrderFinder.ask s.mAsks) := by
    rw [hF]
    apply Agree_eraseIds
    unfold bookEntries at hag
    rw [hE] at hag
    refine Agree_perm ?_ hag
    rw [List.append_assoc]
  have hfresh1 : o.ID ∉ (sideEntries OrderFinder.bid
      (tryMatchOrder o s.mOrderFinders s.mBids).bookSide
      ++ sideEntries OrderFinder.ask s.mAsks).map Prod.fst := by
    intro hmem
    apply hfresh
    unfold bookEntries
    rw [hE]
    simp only [List.map_append, List.mem_append] at hmem ⊢
    rcases hmem with h | h
    · exact Or.inl (Or.inr h)
    · exact Or.inr h
  by_cases hins : o.TimeInForce = "GFD"
      ∧ 0 < (tryMatchOrder o s.mOrderFinders s.mBids).newOrder.Quantity
  · rw [processNewSelOrder_rest s o hins.1 hins.2]
    unfold bookEntries
    simp only
    refine Agree_perm ?_ (Agree_insert o.ID (OrderFinder.ask, o.Price) hag1 hfresh1)
    have h1 := sideEntries_pushBackAt askLess_strict OrderFinder.ask o.Price
      { o with Quantity := (tryMatchOrder o s.mOrderFinders s.mBids).newOrder.Quantity } s.mAsks
      hinv.asksSorted
    exact (List.perm_middle.symm).trans (List.Perm.append_left _ h1.symm)
  · have h2 : o.TimeInForce ≠ "GFD"
        ∨ (tryMatchOrder o s.mOrderFinders s.mBids).newOrder.Quantity = 0 := by
      by_cases h3 : o.TimeInForce = "GFD"
      · right
        by_contra h4
        exact hins ⟨h3, by omega⟩
      · exact Or.inl h3
    rw [processNewSelOrder_discard s o h2]
    exact hag1

/-- After a successful `retrieveOrder` and the erasure of the id, the finders
agree with the book again, and the id rests nowhere. -/
theorem retrieveOrder_agree (s : OrderBook) (orderID : String) (o : Order) (s2 : OrderBook)
    (hr : retrieveOrder s orderID = Outcome.ok (o, s2)) (hinv : BookInv s)
    (hag : Agree s.mOrderFinders (bookEntries s)) :
    o.ID = orderID
    ∧ Agree (mapErase orderID s2.mOrderFinders) (bookEntries s2)
    ∧ orderID ∉ (bookEntries s2).map Prod.fst := by
  have hid := (retrieveOrder_stored s orderID o s2 hr).1
  rcases retrieveOrder_spec s orderID o s2 hr with
    ⟨p, lvl, lvl1, _, h2, h3, h4⟩ | ⟨p, lvl, lvl1, _, h2, h3, h4⟩
  · have hperm := sideEntries_retrieve bidLess_strict OrderFinder.bid p lvl lvl1 o orderID
      s.mBids hinv.bidsSorted h2 h3
    have hag2 : Agree s.mOrderFinders ((orderID, (OrderFinder.bid, p)) :: bookEntries s2) := by
      refine Agree_perm ?_ hag
      subst h4
      unfold bookEntries
      exact List.Perm.append_right _ hperm
    refine ⟨hid, ?_, ?_⟩
    · have : s2.mOrderFinders = s.mOrderFinders := by subst h4; rfl
      rw [this]
      exact Agree_erase _ _ hag2
    · have := hag2.2.1
      rw [List.map_cons, List.nodup_cons] at this
      exact this.1
  · have hperm := sideEntries_retrieve askLess_strict OrderFinder.ask p lvl lvl1 o orderID
      s.mAsks hinv.asksSorted h2 h3
    have hag2 : Agree s.mOrderFinders ((orderID, (OrderFinder.ask, p)) :: bookEntries s2) := by
      refine Agree_perm ?_ hag
      subst h4
      unfold bookEntries
      exact (List.Perm.append_left _ hperm).trans List.perm_middle
    refine ⟨hid, ?_, ?_⟩
    · have : s2.mOrderFinders = s.mOrderFinders := by subst h4; rfl
      rw [this]
      exact Agree_erase _ _ hag2
    · have := hag2.2.1
      rw [List.map_cons, List.nodup_cons] at this
      exact this.1

theorem reachableFresh_reachable (s : OrderBook) (h : ReachableFresh s) : Reachable s := by
  induction h with
  | empty => exact Reachable.empty
  | newBuy s o _ hside _ ih => exact Reachable.newBuy s o ih hside
  | newSel s o _ hside _ ih => exact Reachable.newSel s o ih hside
  | cancel s orderID s1 _ hc ih => exact Reachable.cancel s orderID s1 ih hc
  | mod s tokens s1 trades _ hm ih => exact Reachable.mod s tokens s1 trades ih hm
  | cancelThrows s orderID s1 _ hc ih => exact Reachable.cancelThrows s orderID s1 ih hc
  | modThrows s tokens s1 _ hm ih => exact Reachable.modThrows s tokens s1 ih hm

theorem reachableFresh_agree (s : OrderBook) (h : ReachableFresh s) :
    Agree s.mOrderFinders (bookEntries s) := by
  induction h with
  | empty =>
    exact ⟨List.Pairwise.nil, by simp [bookEntries, OrderBook.empty, sideEntries],
      by intro id v; simp [bookEntries, OrderBook.empty, sideEntries, mapFind]⟩
  | newBuy s o hs hside hfresh ih =>
    exact processNewBuyOrder_agree s o (reachable_inv s (reachableFresh_reachable s hs)) hside ih
      (by rw [bookEntries_ids]; exact hfresh)
  | newSel s o hs hside hfresh ih =>
    exact processNewSelOrder_agree s o (reachable_inv s (reachableFresh_reachable s hs)) hside ih
      (by rw [bookEntries_ids]; exact hfresh)
  | cancel s orderID s1 hs hc ih =>
    rcases processCancel_spec s orderID s1 hc with ⟨_, h2⟩ | ⟨o, s2, _, h2, h3⟩
    · subst h2; exact ih
    · subst h3
      exact (retrieveOrder_agree s orderID o s2 h2
        (reachable_inv s (reachableFresh_reachable s hs)) ih).2.1
  | mod s tokens s1 trades hs hm ih =>
    have hinv := reachable_inv s (reachableFresh_reachable s hs)
    rcases processMod_spec s tokens s1 trades hm with
      ⟨_, _, _, h3, _⟩ | ⟨orderID, side, pt, qt, o, s2, _, _, _, _, _, hr, hcase⟩
    · subst h3; exact ih
    · obtain ⟨hid, hag2, hfresh2⟩ := retrieveOrder_agree s orderID o s2 hr hinv ih
      have hinv2 : BookInv { s2 with mOrderFinders := mapErase o.ID s2.mOrderFinders } :=
        @BookInv_of_sides s2 _ rfl rfl (retrieveOrder_inv s orderID o s2 hr hinv)
      rw [← hid] at hag2 hfresh2
      rcases hcase with ⟨hsd, he⟩ | ⟨hsd, he⟩
      · have h1 : s1 = (processNewBuyOrder _ _).1 := congrArg Prod.fst he
        rw [h1]
        exact processNewBuyOrder_agree _ _ hinv2 hsd hag2 hfresh2
      · have h1 : s1 = (processNewSelOrder _ _).1 := congrArg Prod.fst he
        rw [h1]
        exact processNewSelOrder_agree _ _ hinv2 hsd hag2 hfresh2
  | cancelThrows s orderID s1 _ hc ih =>
    rw [processCancel_throw s orderID s1 hc]; exact ih
  | modThrows s tokens s1 hs hm ih =>
    have hinv := reachable_inv s (reachableFresh_reachable s hs)
    rcases processMod_throw s tokens s1 hm with h1 | ⟨orderID, o, s2, hr, h1⟩
    · rw [h1]; exact ih
    · obtain ⟨hid, hag2, _⟩ := retrieveOrder_agree s orderID o s2 hr hinv ih
      rw [h1, hid]
      exact hag2

theorem checkLevelAndAddIds_ok (finders : order_map_t) (price : Nat) (lvl : order_vector_t)
    (found : List String)
    (h : ∀ o ∈ lvl, ∃ fd, mapFind o.ID finders = some (fd, price)) :
    checkLevelAndAddIds finders price lvl found = some (found ++ lvl.map (fun o => o.ID)) := by
  induction lvl generalizing found with
  | nil => simp [checkLevelAndAddIds]
  | cons o rest ih =>
    obtain ⟨fd, hfd⟩ := h o (List.mem_cons_self _ _)
    simp only [checkLevelAndAddIds, hfd, ne_eq, not_true_eq_false, if_false]
    rw [ih _ (fun o1 ho1 => h o1 (List.mem_cons_of_mem _ ho1))]
    simp

theorem checkBookAndAddIds_ok (finders : order_map_t) (book : book_t) (found : List String)
    (h : ∀ x ∈ book, ∀ o ∈ x.2, ∃ fd, mapFind o.ID finders = some (fd, x.1)) :
    checkBookAndAddIds finders book found
      = some (found ++ (bookOrders book).map (fun o => o.ID)) := by
  induction book generalizing found with
  | nil => simp [checkBookAndAddIds, bookOrders]
  | cons x rest ih =>
    obtain ⟨p, lvl⟩ := x
    simp only [checkBookAndAddIds]
    rw [checkLevelAndAddIds_ok finders p lvl found (h (p, lvl) (List.mem_cons_self _ _))]
    simp only
    rw [ih _ (fun y hy => h y (List.mem_cons_of_mem _ hy))]
    simp [bookOrders]

/-- The two directions of the bijection, from the agreement of the finders with
the entries of the book. -/
theorem bijection_of_agree (s : OrderBook) (hag : Agree s.mOrderFinders (bookEntries s)) :
    (∀ x ∈ s.mBids, ∀ o ∈ x.2, mapFind o.ID s.mOrderFinders = some (OrderFinder.bid, x.1))
    ∧ (∀ x ∈ s.mAsks, ∀ o ∈ x.2, mapFind o.ID s.mOrderFinders = some (OrderFinder.ask, x.1))
    ∧ (∀ id p, mapFind id s.mOrderFinders = some (OrderFinder.bid, p) →
        ∃ lvl, (p, lvl) ∈ s.mBids ∧ ∃ o ∈ lvl, o.ID = id)
    ∧ (∀ id p, mapFind id s.mOrderFinders = some (OrderFinder.ask, p) →
        ∃ lvl, (p, lvl) ∈ s.mAsks ∧ ∃ o ∈ lvl, o.ID = id) := by
  obtain ⟨_, _, h3⟩ := hag
  refine ⟨?_, ?_, ?_, ?_⟩
  · intro x hx o ho
    rw [h3]
    exact List.mem_append_left _ ((mem_sideEntries _ _ _).mpr ⟨x, hx, o, ho, rfl⟩)
  · intro x hx o ho
    rw [h3]
    exact List.mem_append_right _ ((mem_sideEntries _ _ _).mpr ⟨x, hx, o, ho, rfl⟩)
  · intro id p hf
    rcases List.mem_append.mp ((h3 id _).mp hf) with hm | hm
    · obtain ⟨x, hx, o, ho, he⟩ := (mem_sideEntries _ _ _).mp hm
      simp only [Prod.mk.injEq, true_and] at he
      obtain ⟨x1, x2⟩ := x
      simp only at he ho
      obtain ⟨he1, he2⟩ := he
      subst he2
      exact ⟨x2, hx, o, ho, he1.symm⟩
    · obtain ⟨x, hx, o, ho, he⟩ := (mem_sideEntries _ _ _).mp hm
      simp at he
  · intro id p hf
    rcases List.mem_append.mp ((h3 id _).mp hf) with hm | hm
    · obtain ⟨x, hx, o, ho, he⟩ := (mem_sideEntries _ _ _).mp hm
      simp at he
    · obtain ⟨x, hx, o, ho, he⟩ := (mem_sideEntries _ _ _).mp hm
      simp only [Prod.mk.injEq, true_and] at he
      obtain ⟨x1, x2⟩ := x
      simp only at he ho
      obtain ⟨he1, he2⟩ := he
      subst he2
      exact ⟨x2, hx, o, ho, he1.symm⟩

theorem checkFullFinderConsistency_false (s : OrderBook)
    (hag : Agree s.mOrderFinders (bookEntries s)) : checkFullFinderConsistency s = false := by
  obtain ⟨ha, hb, _, _⟩ := bijection_of_agree s hag
  unfold checkFullFinderConsistency
  rw [checkBookAndAddIds_ok _ _ _ (fun x hx o ho => ⟨_, ha x hx o ho⟩)]
  simp only
  rw [checkBookAndAddIds_ok _ _ _ (fun x hx o ho => ⟨_, hb x hx o ho⟩)]
  simp only
  rw [List.any_eq_false]
  intro id hid
  simp only [List.nil_append, List.mem_append, List.mem_map] at hid
  simp only [decide_eq_true_eq]
  rcases hid with ⟨o, ho, hoid⟩ | ⟨o, ho, hoid⟩
  · obtain ⟨x, hx, hox⟩ := (mem_bookOrders _ _).mp ho
    rw [← hoid, ha x hx o hox]
    exact fun h => Option.noConfusion h
  · obtain ⟨x, hx, hox⟩ := (mem_bookOrders _ _).mp ho
    rw [← hoid, hb x hx o hox]
    exact fun h => Option.noConfusion h

theorem exampleBook_reachableFresh : ReachableFresh exampleBook :=
  ReachableFresh.newSel _ exampleSell
    (ReachableFresh.newBuy _ exampleBuy ReachableFresh.empty (by decide) (by decide))
    (by decide) (by decide)

/-- C2, amended (locator bijection).  For every sequence of public operations
starting from the empty book in which every new order goes to the function of
its side (`processNewBuyOrder` for Side "BUY", `processNewSelOrder` otherwise)
and has an id that is not the id of an order resting at that moment: after
every operation, (a) every order stored in `mBids` (in `mAsks`) has an
`mOrderFinders` entry under its id, with the bid (ask) finder and the price of
the level it is stored at, and (b) every `mOrderFinders` entry names a side and
a price at which an order with that id is stored.  Besides, no two resting
orders share an id, and `checkFullFinderConsistency` does not throw. -/
theorem C2_locator_bijection (s : OrderBook) (h : ReachableFresh s) :
    (∀ x ∈ s.mBids, ∀ o ∈ x.2, mapFind o.ID s.mOrderFinders = some (OrderFinder.bid, x.1))
    ∧ (∀ x ∈ s.mAsks, ∀ o ∈ x.2, mapFind o.ID s.mOrderFinders = some (OrderFinder.ask, x.1))
    ∧ (∀ id p, mapFind id s.mOrderFinders = some (OrderFinder.bid, p) →
        ∃ lvl, (p, lvl) ∈ s.mBids ∧ ∃ o ∈ lvl, o.ID = id)
    ∧ (∀ id p, mapFind id s.mOrderFinders = some (OrderFinder.ask, p) →
        ∃ lvl, (p, lvl) ∈ s.mAsks ∧ ∃ o ∈ lvl, o.ID = id)
    ∧ (restingIds s).Nodup
    ∧ checkFullFinderConsistency s = false := by
  have hag := reachableFresh_agree s h
  obtain ⟨h1, h2, h3, h4⟩ := bijection_of_agree s hag
  refine ⟨h1, h2, h3, h4, ?_, checkFullFinderConsistency_false s hag⟩
  rw [← bookEntries_ids]
  exact hag.2.1

/-- Witness of the amended C2: the book with `order2` bid at 10 and `order3`
offered at 12. -/
theorem C2_locator_bijection_witness :
    ReachableFresh exampleBook
    ∧ exampleBook.mOrderFinders
        = [("order2", (OrderFinder.bid, 10)), ("order3", (OrderFinder.ask, 12))]
    ∧ ((∀ x ∈ exampleBook.mBids, ∀ o ∈ x.2,
          mapFind o.ID exampleBook.mOrderFinders = some (OrderFinder.bid, x.1))
      ∧ (∀ x ∈ exampleBook.mAsks, ∀ o ∈ x.2,
          mapFind o.ID exampleBook.mOrderFinders = some (OrderFinder.ask, x.1))
      ∧ (∀ id p, mapFind id exampleBook.mOrderFinders = some (OrderFinder.bid, p) →
          ∃ lvl, (p, lvl) ∈ exampleBook.mBids ∧ ∃ o ∈ lvl, o.ID = id)
      ∧ (∀ id p, mapFind id exampleBook.mOrderFinders = some (OrderFinder.ask, p) →
          ∃ lvl, (p, lvl) ∈ exampleBook.mAsks ∧ ∃ o ∈ lvl, o.ID = id)
      ∧ (restingIds exampleBook).Nodup
      ∧ checkFullFinderConsistency exampleBook = false) :=
  ⟨exampleBook_reachableFresh, by decide,
    C2_locator_bijection exampleBook exampleBook_reachableFresh⟩

/-- Counterexample to C2 as stated.  After `SELL GFD 5 10 a` and
`SELL GFD 20 10 b`, the public function `processNewBuyOrder` is called with an
order of Side "SELL", price 10, quantity 15 and the new id `c`.  Every new id
was new, yet afterwards `mOrderFinders` still maps `a` to the ask finder and
price 5 while `mAsks` is empty: the entry refers to no stored order. -/
theorem C2_counterexample :
    ReachableFreshPublic (processNewBuyOrder twoAskBook wrongSideOrder).1
    ∧ mapFind "a" (processNewBuyOrder twoAskBook wrongSideOrder).1.mOrderFinders
        = some (OrderFinder.ask, 5)
    ∧ (processNewBuyOrder twoAskBook wrongSideOrder).1.mAsks = []
    ∧ ¬ (∀ id p,
          mapFind id (processNewBuyOrder twoAskBook wrongSideOrder).1.mOrderFinders
            = some (OrderFinder.ask, p) →
          ∃ lvl, (p, lvl) ∈ (processNewBuyOrder twoAskBook wrongSideOrder).1.mAsks
            ∧ ∃ o ∈ lvl, o.ID = id) := by
  refine ⟨?_, by decide, by decide, ?_⟩
  · exact ReachableFreshPublic.newBuy twoAskBook wrongSideOrder
      (ReachableFreshPublic.newSel _ _
        (ReachableFreshPublic.newSel _ _ ReachableFreshPublic.empty (by decide)) (by decide))
      (by decide)
  · intro h
    obtain ⟨lvl, hl, _⟩ := h "a" 5 (by decide)
    have he : (processNewBuyOrder twoAskBook wrongSideOrder).1.mAsks = [] := by decide
    rw [he] at hl
    simp at hl

/-! ## Cancel -/

theorem retrieveOrderInLevelOrders_split (lvl : order_vector_t) (orderID : String) (X : Order)
    (lvl1 : order_vector_t) (h : retrieveOrderInLevelOrders lvl orderID = some (X, lvl1)) :
    ∃ pre post, lvl = pre ++ X :: post ∧ lvl1 = pre ++ post ∧ X.ID = orderID
      ∧ ∀ o ∈ pre, o.ID ≠ orderID := by
  induction lvl generalizing lvl1 with
  | nil => simp [retrieveOrderInLevelOrders] at h
  | cons a rest ih =>
    simp only [retrieveOrderInLevelOrders] at h
    split_ifs at h with h1
    · simp only [Option.some.injEq, Prod.mk.injEq] at h
      obtain ⟨h2, h3⟩ := h
      subst h2; subst h3
      exact ⟨[], rest, rfl, rfl, h1.symm, by simp⟩
    · cases hr : retrieveOrderInLevelOrders rest orderID with
      | none => rw [hr] at h; simp at h
      | some r =>
        obtain ⟨found, rest1⟩ := r
        rw [hr] at h
        simp only [Option.some.injEq, Prod.mk.injEq] at h
        obtain ⟨h2, h3⟩ := h
        subst h2; subst h3
        obtain ⟨pre, post, i1, i2, i3, i4⟩ := ih rest1 hr
        refine ⟨a :: pre, post, by rw [i1]; rfl, by rw [i2]; rfl, i3, ?_⟩
        intro o ho
        rcases List.mem_cons.mp ho with ho | ho
        · subst ho; exact fun h2 => h1 h2.symm
        · exact i4 o ho

theorem retrieveOrderInLevelOrders_of_split (pre post : order_vector_t) (X : Order)
    (hpre : ∀ o ∈ pre, o.ID ≠ X.ID) :
    retrieveOrderInLevelOrders (pre ++ X :: post) X.ID = some (X, pre ++ post) := by
  induction pre with
  | nil => simp [retrieveOrderInLevelOrders]
  | cons a rest ih =>
    have h1 : ¬ X.ID = a.ID := fun h => hpre a (List.mem_cons_self _ _) h.symm
    have h2 := ih (fun o ho => hpre o (List.mem_cons_of_mem _ ho))
    simp only [List.cons_append, retrieveOrderInLevelOrders, h1, if_false, List.append_eq, h2]

theorem mapFind_sideAfterRetrieve_self {less : Nat → Nat → Bool} (hl : StrictOrder less)
    (p : Nat) (lvl1 : order_vector_t) (side : book_t) (hs : KeysSorted less side) :
    mapFind p (sideAfterRetrieve less p lvl1 side)
      = if lvl1 = [] then none else some lvl1 := by
  unfold sideAfterRetrieve
  cases lvl1 with
  | nil => simp [mapFind_mapErase_self hl hs]
  | cons a l => simp [mapFind_mapInsert_self]

theorem mapFind_sideAfterRetrieve_ne (less : Nat → Nat → Bool) (p q : Nat)
    (lvl1 : order_vector_t) (side : book_t) (hne : q ≠ p) :
    mapFind q (sideAfterRetrieve less p lvl1 side) = mapFind q side := by
  unfold sideAfterRetrieve
  split_ifs
  · exact mapFind_mapErase_ne _ _ _ hne
  · exact mapFind_mapInsert_ne _ _ _ _ _ hne

/-- C11 (cancel removes exactly one order).  Take a book whose maps are in
the order of their comparators and in which every entry of the order finders
names a level holding an order with its id, and an id present in the order
finders.  Then `processCancel` returns normally (it prints no trade: no
function on its path calls `printMatch`); the level the finders name is
`pre ++ X :: post` with `X` the first order carrying the id; afterwards that
level is `pre ++ post`, or is absent when that is empty; every other level of
that side and the whole other side are as before; the entry of the id is gone
from the order finders and every other entry is as before. -/
theorem C11_cancel_removes_one (s : OrderBook) (orderID : String)
    (hsF : KeysSorted idLess s.mOrderFinders) (hsB : KeysSorted bidLess s.mBids)
    (hsA : KeysSorted askLess s.mAsks) (hloc : FindersStored s)
    (hin : mapFind orderID s.mOrderFinders ≠ none) :
    ∃ fd p pre X post s1,
      mapFind orderID s.mOrderFinders = some (fd, p)
      ∧ mapFind p (finderSide s fd) = some (pre ++ X :: post)
      ∧ X.ID = orderID ∧ (∀ o ∈ pre, o.ID ≠ orderID)
      ∧ processCancel s orderID = Outcome.ok s1
      ∧ mapFind p (finderSide s1 fd) = (if pre ++ post = [] then none else some (pre ++ post))
      ∧ (∀ q, q ≠ p → mapFind q (finderSide s1 fd) = mapFind q (finderSide s fd))
      ∧ (∀ fd1, fd1 ≠ fd → finderSide s1 fd1 = finderSide s fd1)
      ∧ mapFind orderID s1.mOrderFinders = none
      ∧ (∀ id, id ≠ orderID → mapFind id s1.mOrderFinders = mapFind id s.mOrderFinders) := by
  obtain ⟨X, s2, hr⟩ := retrieveOrder_ok_of_stored s orderID hin hloc
  have hc : processCancel s orderID
      = Outcome.ok { s2 with mOrderFinders := mapErase orderID s2.mOrderFinders } := by
    unfold processCancel
    simp only [hin, if_false, hr]
  rcases retrieveOrder_spec s orderID X s2 hr with
    ⟨p, lvl, lvl1, h1, h2, h3, h4⟩ | ⟨p, lvl, lvl1, h1, h2, h3, h4⟩
  · obtain ⟨pre, post, i1, i2, i3, i4⟩ := retrieveOrderInLevelOrders_split _ _ _ _ h3
    subst h4
    refine ⟨OrderFinder.bid, p, pre, X, post, _, h1, by rw [← i1]; exact h2, i3, i4, hc, ?_, ?_,
      ?_, ?_, ?_⟩
    · simp only [finderSide]
      rw [mapFind_sideAfterRetrieve_self bidLess_strict p lvl1 s.mBids hsB, i2]
    · intro q hq
      simp only [finderSide]
      exact mapFind_sideAfterRetrieve_ne _ _ _ _ _ hq
    · intro fd1 hfd
      cases fd1 with
      | bid => exact absurd rfl hfd
      | ask => rfl
    · exact mapFind_mapErase_self idLess_strict hsF orderID
    · intro id hid
      exact mapFind_mapErase_ne _ _ _ hid
  · obtain ⟨pre, post, i1, i2, i3, i4⟩ := retrieveOrderInLevelOrders_split _ _ _ _ h3
    subst h4
    refine ⟨OrderFinder.ask, p, pre, X, post, _, h1, by rw [← i1]; exact h2, i3, i4, hc, ?_, ?_,
      ?_, ?_, ?_⟩
    · simp only [finderSide]
      rw [mapFind_sideAfterRetrieve_self askLess_strict p lvl1 s.mAsks hsA, i2]
    · intro q hq
      simp only [finderSide]
      exact mapFind_sideAfterRetrieve_ne _ _ _ _ _ hq
    · intro fd1 hfd
      cases fd1 with
      | bid => rfl
      | ask => exact absurd rfl hfd
    · exact mapFind_mapErase_self idLess_strict hsF orderID
    · intro id hid
      exact mapFind_mapErase_ne _ _ _ hid

/-- Witness of C11: in the book of `main` (bids `order1` at 11 and `order2` at
10) the cancel of `order2` leaves the bid at 11 and its finder entry. -/
theorem C11_cancel_removes_one_witness :
    KeysSorted idLess mainBook.mOrderFinders ∧ KeysSorted bidLess mainBook.mBids
    ∧ KeysSorted askLess mainBook.mAsks ∧ FindersStored mainBook
    ∧ mapFind "order2" mainBook.mOrderFinders ≠ none
    ∧ processCancel mainBook "order2"
        = Outcome.ok
            { mBids := [(11, [{ Side := "BUY", TimeInForce := "GFD", Price := 11,
                                Quantity := 100, ID := "order1" }])],
              mAsks := [],
              mOrderFinders := [("order1", (OrderFinder.bid, 11))] }
    ∧ (∃ fd p pre X post s1,
        mapFind "order2" mainBook.mOrderFinders = some (fd, p)
        ∧ mapFind p (finderSide mainBook fd) = some (pre ++ X :: post)
        ∧ X.ID = "order2" ∧ (∀ o ∈ pre, o.ID ≠ "order2")
        ∧ processCancel mainBook "order2" = Outcome.ok s1
        ∧ mapFind p (finderSide s1 fd) = (if pre ++ post = [] then none else some (pre ++ post))
        ∧ (∀ q, q ≠ p → mapFind q (finderSide s1 fd) = mapFind q (finderSide mainBook fd))
        ∧ (∀ fd1, fd1 ≠ fd → finderSide s1 fd1 = finderSide mainBook fd1)
        ∧ mapFind "order2" s1.mOrderFinders = none
        ∧ (∀ id, id ≠ "order2" →
            mapFind id s1.mOrderFinders = mapFind id mainBook.mOrderFinders)) :=
  ⟨by unfold KeysSorted; decide, by unfold KeysSorted; decide, by unfold KeysSorted; decide,
    FindersStored_of_check _ (by decide), by decide, by decide,
    C11_cancel_removes_one mainBook "order2" (by unfold KeysSorted; decide)
      (by unfold KeysSorted; decide) (by unfold KeysSorted; decide)
      (FindersStored_of_check _ (by decide)) (by decide)⟩

/-- C12 (unknown id is a silent no-op).  For every book and every id that is
not in the order finders, `processCancel` returns normally with the book as it
was, `processMod` of any message whose second token is that id returns
normally with the book as it was and no trade, and a second cancel of the id
gives the same book as the first. -/
theorem C12_unknown_id_noop (s : OrderBook) (orderID : String)
    (h : mapFind orderID s.mOrderFinders = none) :
    processCancel s orderID = Outcome.ok s
    ∧ (∀ t0 more, processMod s (t0 :: orderID :: more) = Outcome.ok (s, []))
    ∧ (∃ s1, processCancel s orderID = Outcome.ok s1
        ∧ processCancel s1 orderID = Outcome.ok s1) := by
  have hc : processCancel s orderID = Outcome.ok s := by
    unfold processCancel
    simp only [h, if_true]
  refine ⟨hc, ?_, ⟨s, hc, hc⟩⟩
  intro t0 more
  unfold processMod
  simp only [List.get?, h, if_true]

/-- Witness of C12: the id `nobody` in the book with a bid at 10 and an ask at
12. -/
theorem C12_unknown_id_noop_witness :
    mapFind unknownId exampleBook.mOrderFinders = none
    ∧ (processCancel exampleBook unknownId = Outcome.ok exampleBook
      ∧ (∀ t0 more, processMod exampleBook (t0 :: unknownId :: more)
          = Outcome.ok (exampleBook, []))
      ∧ (∃ s1, processCancel exampleBook unknownId = Outcome.ok s1
          ∧ processCancel s1 unknownId = Outcome.ok s1)) :=
  ⟨by decide, C12_unknown_id_noop exampleBook unknownId (by decide)⟩

/-! ## The snapshot -/

theorem toInt32_small (n : Nat) (h : n < 2 ^ 31) : toInt32 n = (n : Int) := by
  unfold toInt32
  have h1 : n % 2 ^ 32 = n := Nat.mod_eq_of_lt (by omega)
  rw [h1]
  rw [if_pos h]

theorem intToUInt64_nat (n : Nat) (h : n < 2 ^ 64) : intToUInt64 (n : Int) = n := by
  unfold intToUInt64
  have h1 : ((n : Int) % 2 ^ 64) = (n : Int) := Int.emod_eq_of_lt (by omega) (by omega)
  rw [h1]
  simp

theorem printLevelLoop_small (acc : Nat) (lvl : order_vector_t)
    (h : acc + sumQuantity lvl < 2 ^ 31) :
    printLevelLoop (acc : Int) lvl = ((acc + sumQuantity lvl : Nat) : Int) := by
  induction lvl generalizing acc with
  | nil => simp [printLevelLoop, sumQuantity]
  | cons o rest ih =>
    rw [sumQuantity_cons] at h ⊢
    simp only [printLevelLoop]
    rw [intToUInt64_nat acc (by omega), Nat.mod_eq_of_lt (by omega),
      toInt32_small _ (by omega), ih _ (by omega)]
    congr 1
    omega

/-- What `printLevel` prints when the quantities of the level add up to less
than `2 ^ 31`: the exact sum. -/
theorem printLevel_small (p : Nat) (lvl : order_vector_t) (h : sumQuantity lvl < 2 ^ 31) :
    printLevel (p, lvl) = OutputLine.level p (sumQuantity lvl : Int) := by
  unfold printLevel
  have := printLevelLoop_small 0 lvl (by omega)
  simp only [Nat.zero_add] at this
  simp only [Nat.cast_zero] at this
  rw [this]

/-- C13 (code at the failing input).  After `BUY GFD 10 3000000000 big` the
book has one bid level, at 10, whose only order has Quantity 3000000000; for
it `printBook` prints `10 -1294967296`, which is not the sum of the
quantities: `printLevel` sums into an `int`. -/
theorem C13_printLevel_truncates :
    ReachablePublic bigBook
    ∧ bigBook.mBids = [(10, [bigBuy])]
    ∧ sumQuantity [bigBuy] = 3000000000
    ∧ printLevel (10, [bigBuy]) = OutputLine.level 10 (-1294967296)
    ∧ (printBook bigBook).2
        = [OutputLine.text "SELL:", OutputLine.text "BUY:", OutputLine.level 10 (-1294967296)]
    ∧ printLevel (10, [bigBuy]) ≠ OutputLine.level 10 (sumQuantity [bigBuy] : Int) := by
  refine ⟨ReachablePublic.newBuy _ bigBuy ReachablePublic.empty, by decide, by decide,
    by decide, by decide, by decide⟩

theorem linePrice_printLevel (kv : Nat × order_vector_t) :
    linePrice (printLevel kv) = some kv.1 := rfl

/-- C14 (snapshot ordering).  For every book whose maps are in the order of
their comparators, `printBook` prints the heading `SELL:`, one line for each
ask level, the heading `BUY:` and one line for each bid level; the prices of
the ask lines are the ask prices in reverse map order and strictly decreasing,
the prices of the bid lines are the bid prices in map order and strictly
decreasing; and the book after the call is the book before it. -/
theorem C14_snapshot_ordering (s : OrderBook) (hA : KeysSorted askLess s.mAsks)
    (hB : KeysSorted bidLess s.mBids) :
    (printBook s).1 = s
    ∧ ∃ askLines bidLines,
        (printBook s).2
          = OutputLine.text "SELL:" :: askLines ++ OutputLine.text "BUY:" :: bidLines
        ∧ askLines.length = s.mAsks.length ∧ bidLines.length = s.mBids.length
        ∧ askLines.map linePrice = (s.mAsks.map (fun kv => some kv.1)).reverse
        ∧ bidLines.map linePrice = s.mBids.map (fun kv => some kv.1)
        ∧ List.Pairwise (fun p q => q < p) (askLines.filterMap linePrice)
        ∧ List.Pairwise (fun p q => q < p) (bidLines.filterMap linePrice) := by
  refine ⟨rfl, s.mAsks.reverse.map printLevel, s.mBids.map printLevel, ?_, ?_, ?_, ?_, ?_, ?_, ?_⟩
  · simp [printBook]
  · simp
  · simp
  · rw [List.map_map, ← List.map_reverse]
    rfl
  · rw [List.map_map]
    rfl
  · have h1 : (s.mAsks.reverse.map printLevel).filterMap linePrice
        = (s.mAsks.map Prod.fst).reverse := by
      rw [List.filterMap_map, ← List.map_reverse]
      have : (linePrice ∘ printLevel) = some ∘ Prod.fst := rfl
      rw [this, List.filterMap_eq_map]
    rw [h1, List.pairwise_reverse]
    rw [KeysSorted_iff_map] at hA
    refine List.Pairwise.imp ?_ hA
    intro p q hpq
    simpa [askLess] using hpq
  · have h1 : (s.mBids.map printLevel).filterMap linePrice = s.mBids.map Prod.fst := by
      rw [List.filterMap_map]
      have : (linePrice ∘ printLevel) = some ∘ Prod.fst := rfl
      rw [this, List.filterMap_eq_map]
    rw [h1]
    rw [KeysSorted_iff_map] at hB
    refine List.Pairwise.imp ?_ hB
    intro p q hpq
    simpa [bidLess] using hpq

/-- Witness of C14: the book with asks at 5 and 20 and bids at 4 and 3 is
printed as `SELL:`, `20 10`, `5 10`, `BUY:`, `4 7`, `3 8`. -/
theorem C14_snapshot_ordering_witness :
    KeysSorted askLess snapshotBook.mAsks ∧ KeysSorted bidLess snapshotBook.mBids
    ∧ (printBook snapshotBook).2
        = [OutputLine.text "SELL:", OutputLine.level 20 10, OutputLine.level 5 10,
           OutputLine.text "BUY:", OutputLine.level 4 7, OutputLine.level 3 8]
    ∧ ((printBook snapshotBook).1 = snapshotBook
      ∧ ∃ askLines bidLines,
          (printBook snapshotBook).2
            = OutputLine.text "SELL:" :: askLines ++ OutputLine.text "BUY:" :: bidLines
          ∧ askLines.length = snapshotBook.mAsks.length
          ∧ bidLines.length = snapshotBook.mBids.length
          ∧ askLines.map linePrice = (snapshotBook.mAsks.map (fun kv => some kv.1)).reverse
          ∧ bidLines.map linePrice = snapshotBook.mBids.map (fun kv => some kv.1)
          ∧ List.Pairwise (fun p q => q < p) (askLines.filterMap linePrice)
          ∧ List.Pairwise (fun p q => q < p) (bidLines.filterMap linePrice)) :=
  ⟨by unfold KeysSorted; decide, by unfold KeysSorted; decide, by decide,
    C14_snapshot_ordering snapshotBook (by unfold KeysSorted; decide)
      (by unfold KeysSorted; decide)⟩

/-! ## The limit price -/

theorem fillLevel_trade_form (n : Order) (f : order_map_t) (lvl : order_vector_t) :
    ∀ t ∈ (fillLevel n f lvl).trades, ∃ b ∈ lvl, ∃ m, t = printMatch b n m := by
  intro t ht
  rcases fillLevel_shape n f lvl with ⟨full, rest, h1, _, _, h4⟩ | ⟨full, b, rest, h1, _, _, h4⟩
  · rw [h4] at ht
    obtain ⟨b0, hb0, hbt⟩ := List.mem_map.mp ht
    exact ⟨b0, by rw [h1]; exact List.mem_append_left _ hb0, b0.Quantity, hbt.symm⟩
  · rw [h4] at ht
    rcases List.mem_append.mp ht with ht | ht
    · obtain ⟨b0, hb0, hbt⟩ := List.mem_map.mp ht
      exact ⟨b0, by rw [h1]; exact List.mem_append_left _ hb0, b0.Quantity, hbt.symm⟩
    · simp only [List.mem_singleton] at ht
      exact ⟨b, by rw [h1]; simp, _, ht⟩

theorem fillLevel_trades_ne_nil (n : Order) (f : order_map_t) (b : Order)
    (lvl : order_vector_t) : (fillLevel n f (b :: lvl)).trades ≠ [] := by
  simp only [fillLevel]
  split_ifs <;> simp

/-- Every trade of the loop of `tryMatchOrder` is against an order of a level
that the comparison lets match. -/
theorem tryMatchOrderLoop_trades (w : Nat → Nat → Bool) (n : Order) (f : order_map_t)
    (tr : List Trade) (vis : book_t) (e : Nat) (suf : book_t) :
    ∀ t ∈ (tryMatchOrderLoop w n f tr vis e suf).1.trades,
      t ∈ tr ∨ ∃ x ∈ suf, w n.Price x.1 = true ∧ ∃ b ∈ x.2, ∃ m, t = printMatch b n m := by
  induction suf generalizing n f tr vis e with
  | nil => intro t ht; exact Or.inl (by simpa [tryMatchOrderLoop] using ht)
  | cons y rest ih =>
    obtain ⟨p, lvl⟩ := y
    simp only [tryMatchOrderLoop]
    have hlevel : ∀ t ∈ (matchOrder n f lvl).trades, w n.Price p = true →
        ∃ x ∈ (p, lvl) :: rest, w n.Price x.1 = true ∧ ∃ b ∈ x.2, ∃ m, t = printMatch b n m := by
      intro t ht hw
      rw [matchOrder_eq_fillLevel] at ht
      obtain ⟨b, hb, m, hm⟩ := fillLevel_trade_form n f lvl t ht
      exact ⟨(p, lvl), List.mem_cons_self _ _, hw, b, hb, m, hm⟩
    by_cases h1 : w n.Price p = true
    · simp only [h1, if_true]
      by_cases h2 : (matchOrder n f lvl).newOrder.Quantity = 0
      · simp only [h2, if_true]
        intro t ht
        rcases List.mem_append.mp ht with ht | ht
        · exact Or.inl ht
        · exact Or.inr (hlevel t ht h1)
      · simp only [h2, if_false]
        intro t ht
        rcases ih _ _ _ _ _ t ht with h3 | ⟨x, hx, hw, b, hb, m, hm⟩
        · rcases List.mem_append.mp h3 with h3 | h3
          · exact Or.inl h3
          · exact Or.inr (hlevel t h3 h1)
        · right
          rw [matchOrder_price] at hw
          rw [matchOrder_newOrder, printMatch_quantity] at hm
          exact ⟨x, List.mem_cons_of_mem _ hx, hw, b, hb, m, hm⟩
    · simp only [h1, if_false]
      intro t ht
      rcases ih _ _ _ _ _ t ht with h3 | ⟨x, hx, hw, b, hb, m, hm⟩
      · exact Or.inl h3
      · exact Or.inr ⟨x, List.mem_cons_of_mem _ hx, hw, b, hb, m, hm⟩

theorem tryMatchOrder_trades (n : Order) (f : order_map_t) (book : book_t) :
    ∀ t ∈ (tryMatchOrder n f book).trades,
      ∃ x ∈ book, newOrderWillMatchBook n n.Price x.1 = true
        ∧ ∃ b ∈ x.2, ∃ m, t = printMatch b n m := by
  intro t ht
  unfold tryMatchOrder at ht
  simp only at ht
  rcases tryMatchOrderLoop_trades _ n f [] [] 0 book t ht with h | h
  · simp at h
  · exact h

/-- When the first level is not empty and is let match, a trade is printed. -/
theorem tryMatchOrder_first_crossing (n : Order) (f : order_map_t) (p : Nat) (b : Order)
    (lvl : order_vector_t) (rest : book_t)
    (hw : newOrderWillMatchBook n n.Price p = true) :
    (tryMatchOrder n f ((p, b :: lvl) :: rest)).trades ≠ [] := by
  have hne : (matchOrder n f (b :: lvl)).trades ≠ [] := by
    rw [matchOrder_eq_fillLevel]; exact fillLevel_trades_ne_nil n f b lvl
  unfold tryMatchOrder
  simp only [tryMatchOrderLoop, hw, if_true, List.nil_append]
  by_cases h2 : (matchOrder n f (b :: lvl)).newOrder.Quantity = 0
  · simp only [h2, if_true]
    exact hne
  · simp only [h2, if_false]
    obtain ⟨_, extra, _, _, _, i4⟩ := tryMatchOrderLoop_effect (newOrderWillMatchBook n)
      (matchOrder n f (b :: lvl)).newOrder (matchOrder n f (b :: lvl)).finders
      (matchOrder n f (b :: lvl)).trades
      ([] ++ [(p, (matchOrder n f (b :: lvl)).bookLevel)])
      (if (matchOrder n f (b :: lvl)).bookLevel.isEmpty then ([] : book_t).length + 1 else 0) rest
    simp only [List.nil_append] at i4
    rw [i4]
    intro h
    exact hne (List.append_eq_nil.mp h).1

/-- C15 (the limit price is respected).  For every book and every incoming
order with Side "BUY" processed by `processNewBuyOrder`: every emitted trade is
against an order `b` of an ask level whose price is at most the incoming
price, and carries the id and the price of `b`, then the id and the price of
the incoming order, with one matched size in both quantity fields; when the
ask orders carry the price of their level, the resting price of every trade is
at most the incoming price; and a first ask level that is not empty and whose
price is at most the incoming price (equal included) gives a trade.  For every
incoming order with another Side processed by `processNewSelOrder` the same
holds with the bids and prices at least the incoming price. -/
theorem C15_limit_price (s : OrderBook) (o : Order) :
    (o.Side = "BUY" →
      (∀ t ∈ (processNewBuyOrder s o).2, ∃ x ∈ s.mAsks, x.1 ≤ o.Price ∧ ∃ b ∈ x.2, ∃ m,
        t = { bookID := b.ID, bookPrice := b.Price, bookQuantity := m,
              newID := o.ID, newPrice := o.Price, newQuantity := m })
      ∧ (PriceKeyed s.mAsks → ∀ t ∈ (processNewBuyOrder s o).2, t.bookPrice ≤ o.Price)
      ∧ (∀ p b lvl rest, s.mAsks = (p, b :: lvl) :: rest → p ≤ o.Price →
          (processNewBuyOrder s o).2 ≠ []))
    ∧ (o.Side ≠ "BUY" →
      (∀ t ∈ (processNewSelOrder s o).2, ∃ x ∈ s.mBids, o.Price ≤ x.1 ∧ ∃ b ∈ x.2, ∃ m,
        t = { bookID := b.ID, bookPrice := b.Price, bookQuantity := m,
              newID := o.ID, newPrice := o.Price, newQuantity := m })
      ∧ (PriceKeyed s.mBids → ∀ t ∈ (processNewSelOrder s o).2, o.Price ≤ t.bookPrice)
      ∧ (∀ p b lvl rest, s.mBids = (p, b :: lvl) :: rest → o.Price ≤ p →
          (processNewSelOrder s o).2 ≠ [])) := by
  constructor
  · intro hside
    rw [(processNewBuyOrder_asks_trades s o).2]
    have hform : ∀ t ∈ (tryMatchOrder o s.mOrderFinders s.mAsks).trades,
        ∃ x ∈ s.mAsks, x.1 ≤ o.Price ∧ ∃ b ∈ x.2, ∃ m,
          t = { bookID := b.ID, bookPrice := b.Price, bookQuantity := m,
                newID := o.ID, newPrice := o.Price, newQuantity := m } := by
      intro t ht
      obtain ⟨x, hx, hw, b, hb, m, hm⟩ := tryMatchOrder_trades o _ _ t ht
      simp only [newOrderWillMatchBook, hside, if_true, decide_eq_true_eq] at hw
      exact ⟨x, hx, hw, b, hb, m, hm⟩
    refine ⟨hform, ?_, ?_⟩
    · intro hk t ht
      obtain ⟨x, hx, hle, b, hb, m, hm⟩ := hform t ht
      rw [hm]
      simp only
      rw [hk x hx b hb]
      exact hle
    · intro p b lvl rest hbook hle
      rw [hbook]
      apply tryMatchOrder_first_crossing
      simp only [newOrderWillMatchBook, hside, if_true, decide_eq_true_eq]
      exact hle
  · intro hside
    rw [(processNewSelOrder_bids_trades s o).2]
    have hform : ∀ t ∈ (tryMatchOrder o s.mOrderFinders s.mBids).trades,
        ∃ x ∈ s.mBids, o.Price ≤ x.1 ∧ ∃ b ∈ x.2, ∃ m,
          t = { bookID := b.ID, bookPrice := b.Price, bookQuantity := m,
                newID := o.ID, newPrice := o.Price, newQuantity := m } := by
      intro t ht
      obtain ⟨x, hx, hw, b, hb, m, hm⟩ := tryMatchOrder_trades o _ _ t ht
      simp only [newOrderWillMatchBook, hside, if_false, decide_eq_true_eq] at hw
      exact ⟨x, hx, hw, b, hb, m, hm⟩
    refine ⟨hform, ?_, ?_⟩
    · intro hk t ht
      obtain ⟨x, hx, hle, b, hb, m, hm⟩ := hform t ht
      rw [hm]
      simp only
      rw [hk x hx b hb]
      exact hle
    · intro p b lvl rest hbook hle
      rw [hbook]
      apply tryMatchOrder_first_crossing
      simp only [newOrderWillMatchBook, hside, if_false, decide_eq_true_eq]
      exact hle

/-- Witness of C15: on the asks `s1 (50), s2 (50)` at 10 the buy
`BUY GFD 10 60 b1`, at the same price, trades twice at 10; on the bid `order2`
at 10 the sell `SELL GFD 10 200 order7`, at the same price, trades at 10. -/
theorem C15_limit_price_witness :
    (exampleB60.Side = "BUY"
      ∧ (processNewBuyOrder twoSellBook exampleB60).2
          = [{ bookID := "s1", bookPrice := 10, bookQuantity := 50,
               newID := "b1", newPrice := 10, newQuantity := 50 },
             { bookID := "s2", bookPrice := 10, bookQuantity := 10,
               newID := "b1", newPrice := 10, newQuantity := 10 }]
      ∧ (∀ t ∈ (processNewBuyOrder twoSellBook exampleB60).2,
          ∃ x ∈ twoSellBook.mAsks, x.1 ≤ exampleB60.Price ∧ ∃ b ∈ x.2, ∃ m,
            t = { bookID := b.ID, bookPrice := b.Price, bookQuantity := m,
                  newID := exampleB60.ID, newPrice := exampleB60.Price, newQuantity := m }))
    ∧ (exampleSell7.Side ≠ "BUY"
      ∧ (processNewSelOrder exampleBook exampleSell7).2
          = [{ bookID := "order2", bookPrice := 10, bookQuantity := 200,
               newID := "order7", newPrice := 10, newQuantity := 200 }]
      ∧ (∀ t ∈ (processNewSelOrder exampleBook exampleSell7).2,
          ∃ x ∈ exampleBook.mBids, exampleSell7.Price ≤ x.1 ∧ ∃ b ∈ x.2, ∃ m,
            t = { bookID := b.ID, bookPrice := b.Price, bookQuantity := m,
                  newID := exampleSell7.ID, newPrice := exampleSell7.Price,
                  newQuantity := m })) :=
  ⟨⟨by decide, by decide, ((C15_limit_price twoSellBook exampleB60).1 (by decide)).1⟩,
    ⟨by decide, by decide, ((C15_limit_price exampleBook exampleSell7).2 (by decide)).1⟩⟩

/-! ## The full scan and the early exit -/

theorem specEarlyExitMatch_eq_earlyExitScan (isBuy : Bool) (n : Order) (f : order_map_t)
    (book : book_t) :
    specEarlyExitMatch isBuy n f book = earlyExitScan (specCrosses isBuy) n f book := by
  induction book generalizing n f with
  | nil => rfl
  | cons x rest ih =>
    obtain ⟨p, lvl⟩ := x
    simp only [specEarlyExitMatch, earlyExitScan]
    by_cases hc : specCrosses isBuy n.Price p = true
    · simp only [hc, if_true]
      by_cases hq : (matchOrder n f lvl).newOrder.Quantity = 0
      · simp only [hq, if_true]
        by_cases he : (matchOrder n f lvl).bookLevel.isEmpty = true
        · simp only [he, if_true]
        · simp only [he, Bool.false_eq_true, if_false]
      · have he : (matchOrder n f lvl).bookLevel = [] := matchOrder_empty_of_left n f lvl hq
        simp only [hq, if_false, he, List.isEmpty_nil, if_true, ih]
    · simp only [hc, Bool.false_eq_true, if_false]

theorem newOrderWillMatchBook_buy (o : Order) (h : o.Side = "BUY") :
    newOrderWillMatchBook o = specCrosses true := by
  funext n b
  simp [newOrderWillMatchBook, specCrosses, h]

theorem newOrderWillMatchBook_sell (o : Order) (h : o.Side ≠ "BUY") :
    newOrderWillMatchBook o = specCrosses false := by
  funext n b
  simp [newOrderWillMatchBook, specCrosses, h]

theorem tryMatchOrder_first_noCross (n : Order) (f : order_map_t) (book : book_t)
    (h : ∀ x ∈ book, newOrderWillMatchBook n n.Price x.1 = false) :
    tryMatchOrder n f book = { newOrder := n, bookSide := book, finders := f, trades := [] } := by
  unfold tryMatchOrder
  rw [tryMatchOrderLoop_noCross _ n f [] [] 0 book h]
  simp

/-- C16 (the full scan equals the early exit).  For every book side whose
levels are in best-to-worst order (ascending asks for a buy, descending bids
for a sell) and every incoming order whose Side agrees with the entry point,
`tryMatchOrder`, which scans to the end of the map, gives the same new order,
book side, order finders and trades as the scan of the specification that
stops at the first level that does not cross.  In particular, when the best
level does not cross, no trade is emitted and nothing changes. -/
theorem C16_full_scan_equals_early_exit (o : Order) (f : order_map_t) (book : book_t) :
    (o.Side = "BUY" → KeysSorted askLess book →
      tryMatchOrder o f book = specEarlyExitMatch true o f book
      ∧ (∀ p lvl rest, book = (p, lvl) :: rest → o.Price < p →
          tryMatchOrder o f book
            = { newOrder := o, bookSide := book, finders := f, trades := [] }))
    ∧ (o.Side ≠ "BUY" → KeysSorted bidLess book →
      tryMatchOrder o f book = specEarlyExitMatch false o f book
      ∧ (∀ p lvl rest, book = (p, lvl) :: rest → p < o.Price →
          tryMatchOrder o f book
            = { newOrder := o, bookSide := book, finders := f, trades := [] })) := by
  constructor
  · intro hside hs
    have hc := crossFirst_asks o hside book hs
    refine ⟨?_, ?_⟩
    · rw [tryMatchOrder_eq_earlyExitScan o f book hc, specEarlyExitMatch_eq_earlyExitScan,
        newOrderWillMatchBook_buy o hside]
    · intro p lvl rest hb hlt
      apply tryMatchOrder_first_noCross
      rw [hb] at hc ⊢
      apply crossFirst_none _ (p, lvl) rest hc
      simp only [newOrderWillMatchBook, hside, if_true, decide_eq_false_iff_not]
      omega
  · intro hside hs
    have hc := crossFirst_bids o hside book hs
    refine ⟨?_, ?_⟩
    · rw [tryMatchOrder_eq_earlyExitScan o f book hc, specEarlyExitMatch_eq_earlyExitScan,
        newOrderWillMatchBook_sell o hside]
    · intro p lvl rest hb hlt
      apply tryMatchOrder_first_noCross
      rw [hb] at hc ⊢
      apply crossFirst_none _ (p, lvl) rest hc
      simp only [newOrderWillMatchBook, hside, if_false, decide_eq_false_iff_not]
      omega

/-- Witness of C16: the asks `a (10)` at 5 and `b (10)` at 20 with the buy
`BUY GFD 20 15 d`, and the bids `order1 (100)` at 11 and `order2 (200)` at 10
with the sell `SELL GFD 10 150 e`. -/
theorem C16_full_scan_equals_early_exit_witness :
    (exampleBuy8.Side = "BUY" ∧ KeysSorted askLess twoAskBook.mAsks
      ∧ (tryMatchOrder exampleBuy8 twoAskBook.mOrderFinders twoAskBook.mAsks).bookSide
          = [(20, [{ Side := "SELL", TimeInForce := "GFD", Price := 20, Quantity := 5,
                     ID := "b" }])]
      ∧ tryMatchOrder exampleBuy8 twoAskBook.mOrderFinders twoAskBook.mAsks
          = specEarlyExitMatch true exampleBuy8 twoAskBook.mOrderFinders twoAskBook.mAsks)
    ∧ (exampleSell9.Side ≠ "BUY" ∧ KeysSorted bidLess mainBook.mBids
      ∧ (tryMatchOrder exampleSell9 mainBook.mOrderFinders mainBook.mBids).bookSide
          = [(10, [{ Side := "BUY", TimeInForce := "GFD", Price := 10, Quantity := 150,
                     ID := "order2" }])]
      ∧ tryMatchOrder exampleSell9 mainBook.mOrderFinders mainBook.mBids
          = specEarlyExitMatch false exampleSell9 mainBook.mOrderFinders mainBook.mBids) :=
  ⟨⟨by decide, by unfold KeysSorted; decide, by decide,
      ((C16_full_scan_equals_early_exit exampleBuy8 twoAskBook.mOrderFinders
        twoAskBook.mAsks).1 (by decide) (by unfold KeysSorted; decide)).1⟩,
    ⟨by decide, by unfold KeysSorted; decide, by decide,
      ((C16_full_scan_equals_early_exit exampleSell9 mainBook.mOrderFinders
        mainBook.mBids).2 (by decide) (by unfold KeysSorted; decide)).1⟩⟩

/-! ## Modify with a short message -/

/-- C17 (code at the failing input).  In the book of `main` (bids `order1` at
11 and `order2` at 10), `processMod` with the tokens `MODIFY order2` throws
`std::out_of_range` at `modMessageTokens.at(2)`, after `order2` has been taken
out of `mBids` and out of `mOrderFinders`: the book at the throw is not the
book before the call. -/
theorem C17_processMod_not_atomic :
    ReachableFresh mainBook
    ∧ mainBook.mOrderFinders
        = [("order1", (OrderFinder.bid, 11)), ("order2", (OrderFinder.bid, 10))]
    ∧ processMod mainBook ["MODIFY", "order2"]
        = Outcome.outOfRange
            { mBids := [(11, [{ Side := "BUY", TimeInForce := "GFD", Price := 11,
                                Quantity := 100, ID := "order1" }])],
              mAsks := [],
              mOrderFinders := [("order1", (OrderFinder.bid, 11))] }
    ∧ processMod mainBook ["MODIFY", "order2", "SELL", "10"]
        = Outcome.outOfRange
            { mBids := [(11, [{ Side := "BUY", TimeInForce := "GFD", Price := 11,
                                Quantity := 100, ID := "order1" }])],
              mAsks := [],
              mOrderFinders := [("order1", (OrderFinder.bid, 11))] }
    ∧ processMod mainBook ["MODIFY", "order2"] ≠ Outcome.outOfRange mainBook := by
  refine ⟨?_, by decide, by decide, by decide, by decide⟩
  exact ReachableFresh.newBuy _ exampleBuy
    (ReachableFresh.newBuy _ _ ReachableFresh.empty (by decide) (by decide))
    (by decide) (by decide)

/-! ## Every resting order is GFD -/

theorem FilledFrom_tif (l0 l : order_vector_t) (h : FilledFrom l0 l)
    (hp : ∀ o ∈ l0, o.TimeInForce = "GFD") : ∀ o ∈ l, o.TimeInForce = "GFD" := by
  rcases h with ⟨full, h1⟩ | ⟨full, b, rest, q, h1, _, _, h4⟩
  · intro o ho
    exact hp o (by rw [h1]; exact List.mem_append_right _ ho)
  · intro o ho
    rw [h4] at ho
    rcases List.mem_cons.mp ho with ho | ho
    · subst ho
      exact hp b (by rw [h1]; simp)
    · exact hp o (by rw [h1]; exact List.mem_append_right _ (List.mem_cons_of_mem _ ho))

theorem tryMatchOrder_allGFD (n : Order) (f : order_map_t) (book : book_t)
    (h : AllGFD book) : AllGFD (tryMatchOrder n f book).bookSide := by
  intro x hx
  obtain ⟨l0, h1, h2⟩ := tryMatchOrder_levels n f book x hx
  exact FilledFrom_tif l0 x.2 h2 (h _ h1)

theorem pushBackAt_allGFD (less : Nat → Nat → Bool) (price : Nat) (o : Order) (book : book_t)
    (ho : o.TimeInForce = "GFD") (h : AllGFD book) : AllGFD (pushBackAt less price o book) := by
  intro x hx
  rcases mem_pushBackAt less price o book x hx with hx | hx
  · subst hx
    intro o1 ho1
    simp only [List.mem_append, List.mem_singleton] at ho1
    rcases ho1 with ho1 | ho1
    · cases hf : mapFind price book with
      | none => rw [hf] at ho1; simp at ho1
      | some lvl =>
        rw [hf] at ho1
        exact h _ (mem_of_mapFind _ _ _ hf) o1 ho1
    · subst ho1; exact ho
  · exact h x hx

theorem sideAfterRetrieve_allGFD (less : Nat → Nat → Bool) (p : Nat)
    (lvl lvl1 : order_vector_t) (side : book_t) (hf : mapFind p side = some lvl)
    (hs : List.Sublist lvl1 lvl) (h : AllGFD side) :
    AllGFD (sideAfterRetrieve less p lvl1 side) := by
  intro x hx
  rcases mem_sideAfterRetrieve less p lvl1 side x hx with ⟨h1, _⟩ | h1
  · subst h1
    intro o ho
    exact h _ (mem_of_mapFind _ _ _ hf) o (hs.subset ho)
  · exact h x h1

theorem processNewBuyOrder_allGFD (s : OrderBook) (o : Order)
    (hb : AllGFD s.mBids) (ha : AllGFD s.mAsks) :
    AllGFD (processNewBuyOrder s o).1.mBids ∧ AllGFD (processNewBuyOrder s o).1.mAsks := by
  unfold processNewBuyOrder
  simp only
  split_ifs with hins
  · exact ⟨pushBackAt_allGFD _ _ _ _ hins.1 hb, tryMatchOrder_allGFD _ _ _ ha⟩
  · exact ⟨hb, tryMatchOrder_allGFD _ _ _ ha⟩

theorem processNewSelOrder_allGFD (s : OrderBook) (o : Order)
    (hb : AllGFD s.mBids) (ha : AllGFD s.mAsks) :
    AllGFD (processNewSelOrder s o).1.mBids ∧ AllGFD (processNewSelOrder s o).1.mAsks := by
  unfold processNewSelOrder
  simp only
  split_ifs with hins
  · exact ⟨tryMatchOrder_allGFD _ _ _ hb, pushBackAt_allGFD _ _ _ _ hins.1 ha⟩
  · exact ⟨tryMatchOrder_allGFD _ _ _ hb, ha⟩

theorem retrieveOrder_allGFD (s : OrderBook) (orderID : String) (o : Order) (s1 : OrderBook)
    (h : retrieveOrder s orderID = Outcome.ok (o, s1))
    (hb : AllGFD s.mBids) (ha : AllGFD s.mAsks) :
    AllGFD s1.mBids ∧ AllGFD s1.mAsks ∧ o.TimeInForce = "GFD" := by
  rcases retrieveOrder_spec s orderID o s1 h with
    ⟨p, lvl, lvl1, _, h2, h3, h4⟩ | ⟨p, lvl, lvl1, _, h2, h3, h4⟩
  · subst h4
    obtain ⟨i1, _, i3⟩ := retrieveOrderInLevelOrders_spec _ _ _ _ h3
    exact ⟨sideAfterRetrieve_allGFD _ _ lvl _ _ h2 i3 hb, ha,
      hb _ (mem_of_mapFind _ _ _ h2) o i1⟩
  · subst h4
    obtain ⟨i1, _, i3⟩ := retrieveOrderInLevelOrders_spec _ _ _ _ h3
    exact ⟨hb, sideAfterRetrieve_allGFD _ _ lvl _ _ h2 i3 ha,
      ha _ (mem_of_mapFind _ _ _ h2) o i1⟩

/-- In every book reached through the public member functions, every stored
order has TimeInForce "GFD". -/
theorem reachablePublic_allGFD (s : OrderBook) (h : ReachablePublic s) :
    AllGFD s.mBids ∧ AllGFD s.mAsks := by
  induction h with
  | empty =>
    exact ⟨by intro x hx; simp [OrderBook.empty] at hx,
      by intro x hx; simp [OrderBook.empty] at hx⟩
  | newBuy s o _ ih => exact processNewBuyOrder_allGFD s o ih.1 ih.2
  | newSel s o _ ih => exact processNewSelOrder_allGFD s o ih.1 ih.2
  | cancel s orderID s1 _ hc ih =>
    rcases processCancel_spec s orderID s1 hc with ⟨_, h2⟩ | ⟨o, s2, _, h2, h3⟩
    · subst h2; exact ih
    · subst h3
      have := retrieveOrder_allGFD s orderID o s2 h2 ih.1 ih.2
      exact ⟨this.1, this.2.1⟩
  | mod s tokens s1 trades _ hm ih =>
    rcases processMod_spec s tokens s1 trades hm with
      ⟨_, _, _, h3, _⟩ | ⟨orderID, side, pt, qt, o, s2, _, _, _, _, _, hr, hcase⟩
    · subst h3; exact ih
    · have h2 := retrieveOrder_allGFD s orderID o s2 hr ih.1 ih.2
      rcases hcase with ⟨_, he⟩ | ⟨_, he⟩
      · have h1 : s1 = (processNewBuyOrder _ _).1 := congrArg Prod.fst he
        rw [h1]
        exact processNewBuyOrder_allGFD _ _ h2.1 h2.2.1
      · have h1 : s1 = (processNewSelOrder _ _).1 := congrArg Prod.fst he
        rw [h1]
        exact processNewSelOrder_allGFD _ _ h2.1 h2.2.1
  | cancelThrows s orderID s1 _ hc ih =>
    rw [processCancel_throw s orderID s1 hc]; exact ih
  | modThrows s tokens s1 _ hm ih =>
    rcases processMod_throw s tokens s1 hm with h1 | ⟨orderID, o, s2, hr, h1⟩
    · rw [h1]; exact ih
    · rw [h1]
      have := retrieveOrder_allGFD s orderID o s2 hr ih.1 ih.2
      exact ⟨this.1, this.2.1⟩

/-- A `processMod` of a known id with five tokens, in terms of `retrieveOrder`
and the two functions for new orders. -/
theorem processMod_known (s : OrderBook) (t0 orderID side priceToken quantityToken : String)
    (more : List String) (X : Order) (s2 : OrderBook)
    (hin : mapFind orderID s.mOrderFinders ≠ none)
    (hr : retrieveOrder s orderID = Outcome.ok (X, s2)) :
    processMod s (t0 :: orderID :: side :: priceToken :: quantityToken :: more)
      = Outcome.ok
          (if side = "BUY" then
            processNewBuyOrder { s2 with mOrderFinders := mapErase X.ID s2.mOrderFinders }
              { X with Side := side, Price := readUInt64 priceToken X.Price,
                       Quantity := readUInt64 quantityToken X.Quantity }
          else
            processNewSelOrder { s2 with mOrderFinders := mapErase X.ID s2.mOrderFinders }
              { X with Side := side, Price := readUInt64 priceToken X.Price,
                       Quantity := readUInt64 quantityToken X.Quantity }) := by
  unfold processMod
  simp only [List.get?, hin, if_false, hr]
  split_ifs <;> rfl

/-- C20 (every resting order is GFD).  In every state reachable from the empty
book by any sequence of calls of the public member functions, every order
stored in `mBids` or `mAsks` has TimeInForce "GFD".  Consequently, when
`processMod` retrieves the order `X` of a known id and the resubmitted order
(`X` with the side token as Side and with the Price and Quantity that reading
the price and quantity tokens into them leaves: the number of the token, or
what `X` held when the token is blank) is left with a quantity `r > 0` after
matching, `processMod` returns a book in which the level at the price of the
resubmitted order on the new side ends with the resubmitted order with
Quantity `r`. -/
theorem C20_resting_orders_are_GFD (s : OrderBook) (h : ReachablePublic s) :
    (∀ x ∈ s.mBids, ∀ o ∈ x.2, o.TimeInForce = "GFD")
    ∧ (∀ x ∈ s.mAsks, ∀ o ∈ x.2, o.TimeInForce = "GFD")
    ∧ (∀ (t0 orderID side priceToken quantityToken : String) (more : List String)
        (X : Order) (s2 : OrderBook),
        mapFind orderID s.mOrderFinders ≠ none →
        retrieveOrder s orderID = Outcome.ok (X, s2) →
        (side = "BUY" →
          0 < (tryMatchOrder
                { X with Side := side, Price := readUInt64 priceToken X.Price,
                         Quantity := readUInt64 quantityToken X.Quantity }
                (mapErase X.ID s2.mOrderFinders) s2.mAsks).newOrder.Quantity →
          ∃ s1 trades,
            processMod s (t0 :: orderID :: side :: priceToken :: quantityToken :: more)
              = Outcome.ok (s1, trades)
            ∧ mapFind (readUInt64 priceToken X.Price) s1.mBids
                = some ((mapFind (readUInt64 priceToken X.Price) s2.mBids).getD []
                    ++ [{ X with Side := side, Price := readUInt64 priceToken X.Price,
                                 Quantity := (tryMatchOrder
                                   { X with Side := side, Price := readUInt64 priceToken X.Price,
                                            Quantity := readUInt64 quantityToken X.Quantity }
                                   (mapErase X.ID s2.mOrderFinders) s2.mAsks).newOrder.Quantity }]))
        ∧ (side ≠ "BUY" →
          0 < (tryMatchOrder
                { X with Side := side, Price := readUInt64 priceToken X.Price,
                         Quantity := readUInt64 quantityToken X.Quantity }
                (mapErase X.ID s2.mOrderFinders) s2.mBids).newOrder.Quantity →
          ∃ s1 trades,
            processMod s (t0 :: orderID :: side :: priceToken :: quantityToken :: more)
              = Outcome.ok (s1, trades)
            ∧ mapFind (readUInt64 priceToken X.Price) s1.mAsks
                = some ((mapFind (readUInt64 priceToken X.Price) s2.mAsks).getD []
                    ++ [{ X with Side := side, Price := readUInt64 priceToken X.Price,
                                 Quantity := (tryMatchOrder
                                   { X with Side := side, Price := readUInt64 priceToken X.Price,
                                            Quantity := readUInt64 quantityToken X.Quantity }
                                   (mapErase X.ID s2.mOrderFinders) s2.mBids).newOrder.Quantity }]))) := by
  have hg := reachablePublic_allGFD s h
  refine ⟨hg.1, hg.2, ?_⟩
  intro t0 orderID side priceToken quantityToken more X s2 hin hr
  have hX : X.TimeInForce = "GFD" := (retrieveOrder_allGFD s orderID X s2 hr hg.1 hg.2).2.2
  have hm := processMod_known s t0 orderID side priceToken quantityToken more X s2 hin hr
  constructor
  · intro hside hq
    have hrest := processNewBuyOrder_rest
      { s2 with mOrderFinders := mapErase X.ID s2.mOrderFinders }
      { X with Side := side, Price := readUInt64 priceToken X.Price,
               Quantity := readUInt64 quantityToken X.Quantity } hX hq
    rw [hm, if_pos hside, hrest]
    exact ⟨_, _, rfl, mapFind_pushBackAt_self _ _ _ _⟩
  · intro hside hq
    have hrest := processNewSelOrder_rest
      { s2 with mOrderFinders := mapErase X.ID s2.mOrderFinders }
      { X with Side := side, Price := readUInt64 priceToken X.Price,
               Quantity := readUInt64 quantityToken X.Quantity } hX hq
    rw [hm, if_neg hside, hrest]
    exact ⟨_, _, rfl, mapFind_pushBackAt_self _ _ _ _⟩

/-- Witness of C20: the book of `main`, whose `MODIFY order2 SELL 10 1000`
leaves 900 of `order2` resting at 10 in the asks, and whose `MODIFY order2 BUY`
with an empty price token and an empty quantity token rests `order2` again at
10 with its 200. -/
theorem C20_resting_orders_are_GFD_witness :
    ReachablePublic mainBook
    ∧ mainBook.mBids
        = [(11, [{ Side := "BUY", TimeInForce := "GFD", Price := 11, Quantity := 100,
                   ID := "order1" }]),
           (10, [exampleBuy])]
    ∧ processMod mainBook ["MODIFY", "order2", "SELL", "10", "1000"]
        = Outcome.ok
            ({ mBids := [],
               mAsks := [(10, [{ Side := "SELL", TimeInForce := "GFD", Price := 10,
                                 Quantity := 900, ID := "order2" }])],
               mOrderFinders := [("order2", (OrderFinder.ask, 10))] },
             [{ bookID := "order1", bookPrice := 11, bookQuantity := 100,
                newID := "order2", newPrice := 10, newQuantity := 100 }])
    ∧ processMod mainBook ["MODIFY", "order2", "BUY", "", ""] = Outcome.ok (mainBook, [])
    ∧ (∀ x ∈ mainBook.mBids, ∀ o ∈ x.2, o.TimeInForce = "GFD")
    ∧ (∀ x ∈ mainBook.mAsks, ∀ o ∈ x.2, o.TimeInForce = "GFD")
    ∧ (∃ s1 trades,
        processMod mainBook ("MODIFY" :: "order2" :: "SELL" :: "10" :: "1000" :: [])
          = Outcome.ok (s1, trades)
        ∧ mapFind (readUInt64 "10" exampleBuy.Price) s1.mAsks
            = some ((mapFind (readUInt64 "10" exampleBuy.Price) mainBookWithoutOrder2.mAsks).getD []
                ++ [{ exampleBuy with
                      Side := "SELL", Price := readUInt64 "10" exampleBuy.Price,
                      Quantity := (tryMatchOrder
                        { exampleBuy with
                          Side := "SELL", Price := readUInt64 "10" exampleBuy.Price,
                          Quantity := readUInt64 "1000" exampleBuy.Quantity }
                        (mapErase exampleBuy.ID mainBookWithoutOrder2.mOrderFinders)
                        mainBookWithoutOrder2.mBids).newOrder.Quantity }]))
    ∧ (∃ s1 trades,
        processMod mainBook ("MODIFY" :: "order2" :: "BUY" :: "" :: "" :: [])
          = Outcome.ok (s1, trades)
        ∧ mapFind (readUInt64 "" exampleBuy.Price) s1.mBids
            = some ((mapFind (readUInt64 "" exampleBuy.Price) mainBookWithoutOrder2.mBids).getD []
                ++ [{ exampleBuy with
                      Side := "BUY", Price := readUInt64 "" exampleBuy.Price,
                      Quantity := (tryMatchOrder
                        { exampleBuy with
                          Side := "BUY", Price := readUInt64 "" exampleBuy.Price,
                          Quantity := readUInt64 "" exampleBuy.Quantity }
                        (mapErase exampleBuy.ID mainBookWithoutOrder2.mOrderFinders)
                        mainBookWithoutOrder2.mAsks).newOrder.Quantity }])) :=
  ⟨ReachablePublic.newBuy _ exampleBuy (ReachablePublic.newBuy _ _ ReachablePublic.empty),
    by decide, by decide, by decide,
    (C20_resting_orders_are_GFD mainBook
      (ReachablePublic.newBuy _ exampleBuy (ReachablePublic.newBuy _ _ ReachablePublic.empty))).1,
    (C20_resting_orders_are_GFD mainBook
      (ReachablePublic.newBuy _ exampleBuy
        (ReachablePublic.newBuy _ _ ReachablePublic.empty))).2.1,
    ((C20_resting_orders_are_GFD mainBook
      (ReachablePublic.newBuy _ exampleBuy
        (ReachablePublic.newBuy _ _ ReachablePublic.empty))).2.2
      "MODIFY" "order2" "SELL" "10" "1000" [] exampleBuy mainBookWithoutOrder2
      (by decide) (by decide)).2 (by decide) (by decide),
    ((C20_resting_orders_are_GFD mainBook
      (ReachablePublic.newBuy _ exampleBuy
        (ReachablePublic.newBuy _ _ ReachablePublic.empty))).2.2
      "MODIFY" "order2" "BUY" "" "" [] exampleBuy mainBookWithoutOrder2
      (by decide) (by decide)).1 (by decide) (by decide)⟩

/-! ## Lookups through the order finders never fail -/

theorem Traced_perm {F L L2 : order_map_t} (hp : L.Perm L2) (h : Traced F L) : Traced F L2 :=
  ⟨h.1, fun id v hf => hp.mem_iff.mp (h.2 id v hf)⟩

theorem Traced_erase {F L : order_map_t} (id0 : String) (v0 : OrderFinder × Nat)
    (h : Traced F ((id0, v0) :: L)) : Traced (mapErase id0 F) L := by
  obtain ⟨h1, h2⟩ := h
  refine ⟨KeysSorted_mapErase id0 h1, ?_⟩
  intro id v hf
  by_cases hid : id = id0
  · subst hid
    rw [mapFind_mapErase_self idLess_strict h1] at hf
    exact Option.noConfusion hf
  · rw [mapFind_mapErase_ne _ _ _ hid] at hf
    rcases List.mem_cons.mp (h2 id v hf) with h3 | h3
    · injection h3 with h4 _
      exact absurd h4 hid
    · exact h3

theorem Traced_eraseIds {F : order_map_t} (R L : order_map_t) (h : Traced F (R ++ L)) :
    Traced (eraseIds (R.map Prod.fst) F) L := by
  induction R generalizing F with
  | nil => exact h
  | cons r rest ih =>
    obtain ⟨id0, v0⟩ := r
    rw [List.map_cons, eraseIds_cons]
    exact ih (Traced_erase id0 v0 h)

theorem Traced_insert {F L : order_map_t} (id0 : String) (v0 : OrderFinder × Nat)
    (h : Traced F L) : Traced (mapInsert idLess id0 v0 F) ((id0, v0) :: L) := by
  obtain ⟨h1, h2⟩ := h
  refine ⟨KeysSorted_mapInsert idLess_strict id0 v0 h1, ?_⟩
  intro id v hf
  by_cases hid : id = id0
  · subst hid
    rw [mapFind_mapInsert_self] at hf
    injection hf with h4
    rw [← h4]
    exact List.mem_cons_self _ _
  · rw [mapFind_mapInsert_ne _ _ _ _ _ hid] at hf
    exact List.mem_cons_of_mem _ (h2 id v hf)

theorem processNewBuyOrder_traced (s : OrderBook) (o : Order) (hinv : BookInv s)
    (hside : o.Side = "BUY") (hag : Traced s.mOrderFinders (bookEntries s)) :
    Traced (processNewBuyOrder s o).1.mOrderFinders (bookEntries (processNewBuyOrder s o).1) := by
  obtain ⟨R, hE, hF⟩ := tryMatchOrder_entries OrderFinder.ask o s.mOrderFinders s.mAsks
    (crossFirst_asks o hside s.mAsks hinv.asksSorted)
  have hag1 : Traced (tryMatchOrder o s.mOrderFinders s.mAsks).finders
      (sideEntries OrderFinder.bid s.mBids
        ++ sideEntries OrderFinder.ask (tryMatchOrder o s.mOrderFinders s.mAsks).bookSide) := by
    rw [hF]
    apply Traced_eraseIds
    unfold bookEntries at hag
    rw [hE] at hag
    refine Traced_perm ?_ hag
    rw [← List.append_assoc, ← List.append_assoc]
    exact List.Perm.append_right _ List.perm_append_comm
  by_cases hins : o.TimeInForce = "GFD"
      ∧ 0 < (tryMatchOrder o s.mOrderFinders s.mAsks).newOrder.Quantity
  · rw [processNewBuyOrder_rest s o hins.1 hins.2]
    unfold bookEntries
    simp only
    refine Traced_perm ?_ (Traced_insert o.ID (OrderFinder.bid, o.Price) hag1)
    have h1 := sideEntries_pushBackAt bidLess_strict OrderFinder.bid o.Price
      { o with Quantity := (tryMatchOrder o s.mOrderFinders s.mAsks).newOrder.Quantity } s.mBids
      hinv.bidsSorted
    exact (List.Perm.append_right _ h1).symm
  · have h2 : o.TimeInForce ≠ "GFD"
        ∨ (tryMatchOrder o s.mOrderFinders s.mAsks).newOrder.Quantity = 0 := by
      by_cases h3 : o.TimeInForce = "GFD"
      · right
        by_contra h4
        exact hins ⟨h3, by omega⟩
      · exact Or.inl h3
    rw [processNewBuyOrder_discard s o h2]
    exact hag1

theorem processNewSelOrder_traced (s : OrderBook) (o : Order) (hinv : BookInv s)
    (hside : o.Side ≠ "BUY") (hag : Traced s.mOrderFinders (bookEntries s)) :
    Traced (processNewSelOrder s o).1.mOrderFinders (bookEntries (processNewSelOrder s o).1) := by
  obtain ⟨R, hE, hF⟩ := tryMatchOrder_entries OrderFinder.bid o s.mOrderFinders s.mBids
    (crossFirst_bids o hside s.mBids hinv.bidsSorted)
  have hag1 : Traced (tryMatchOrder o s.mOrderFinders s.mBids).finders
      (sideEntries OrderFinder.bid (tryMatchOrder o s.mOrderFinders s.mBids).bookSide
        ++ sideEntries OrderFinder.ask s.mAsks) := by
    rw [hF]
    apply Traced_eraseIds
    unfold bookEntries at hag
    rw [hE] at hag
    refine Traced_perm ?_ hag
    rw [List.append_assoc]
  by_cases hins : o.TimeInForce = "GFD"
      ∧ 0 < (tryMatchOrder o s.mOrderFinders s.mBids).newOrder.Quantity
  · rw [processNewSelOrder_rest s o hins.1 hins.2]
    unfold bookEntries
    simp only
    refine Traced_perm ?_ (Traced_insert o.ID (OrderFinder.ask, o.Price) hag1)
    have h1 := sideEntries_pushBackAt askLess_strict OrderFinder.ask o.Price
      { o with Quantity := (tryMatchOrder o s.mOrderFinders s.mBids).newOrder.Quantity } s.mAsks
      hinv.asksSorted
    exact (List.perm_middle.symm).trans (List.Perm.append_left _ h1.symm)
  · have h2 : o.TimeInForce ≠ "GFD"
        ∨ (tryMatchOrder o s.mOrderFinders s.mBids).newOrder.Quantity = 0 := by
      by_cases h3 : o.TimeInForce = "GFD"
      · right
        by_contra h4
        exact hins ⟨h3, by omega⟩
      · exact Or.inl h3
    rw [processNewSelOrder_discard s o h2]
    exact hag1

theorem retrieveOrder_traced (s : OrderBook) (orderID : String) (o : Order) (s2 : OrderBook)
    (hr : retrieveOrder s orderID = Outcome.ok (o, s2)) (hinv : BookInv s)
    (hag : Traced s.mOrderFinders (bookEntries s)) :
    o.ID = orderID ∧ Traced (mapErase orderID s2.mOrderFinders) (bookEntries s2) := by
  have hid := (retrieveOrder_stored s orderID o s2 hr).1
  rcases retrieveOrder_spec s orderID o s2 hr with
    ⟨p, lvl, lvl1, _, h2, h3, h4⟩ | ⟨p, lvl, lvl1, _, h2, h3, h4⟩
  · have hperm := sideEntries_retrieve bidLess_strict OrderFinder.bid p lvl lvl1 o orderID
      s.mBids hinv.bidsSorted h2 h3
    have hag2 : Traced s.mOrderFinders ((orderID, (OrderFinder.bid, p)) :: bookEntries s2) := by
      refine Traced_perm ?_ hag
      subst h4
      unfold bookEntries
      exact List.Perm.append_right _ hperm
    refine ⟨hid, ?_⟩
    have : s2.mOrderFinders = s.mOrderFinders := by subst h4; rfl
    rw [this]
    exact Traced_erase _ _ hag2
  · have hperm := sideEntries_retrieve askLess_strict OrderFinder.ask p lvl lvl1 o orderID
      s.mAsks hinv.asksSorted h2 h3
    have hag2 : Traced s.mOrderFinders ((orderID, (OrderFinder.ask, p)) :: bookEntries s2) := by
      refine Traced_perm ?_ hag
      subst h4
      unfold bookEntries
      exact (List.Perm.append_left _ hperm).trans List.perm_middle
    refine ⟨hid, ?_⟩
    have : s2.mOrderFinders = s.mOrderFinders := by subst h4; rfl
    rw [this]
    exact Traced_erase _ _ hag2

/-- In every reachable book, with or without repeated ids, every entry of the
order finders is an entry of the book. -/
theorem reachable_traced (s : OrderBook) (h : Reachable s) :
    Traced s.mOrderFinders (bookEntries s) := by
  induction h with
  | empty =>
    exact ⟨List.Pairwise.nil, by intro id v hf; simp [OrderBook.empty, mapFind] at hf⟩
  | newBuy s o hs hside ih => exact processNewBuyOrder_traced s o (reachable_inv s hs) hside ih
  | newSel s o hs hside ih => exact processNewSelOrder_traced s o (reachable_inv s hs) hside ih
  | cancel s orderID s1 hs hc ih =>
    rcases processCancel_spec s orderID s1 hc with ⟨_, h2⟩ | ⟨o, s2, _, h2, h3⟩
    · subst h2; exact ih
    · subst h3
      exact (retrieveOrder_traced s orderID o s2 h2 (reachable_inv s hs) ih).2
  | mod s tokens s1 trades hs hm ih =>
    have hinv := reachable_inv s hs
    rcases processMod_spec s tokens s1 trades hm with
      ⟨_, _, _, h3, _⟩ | ⟨orderID, side, pt, qt, o, s2, _, _, _, _, _, hr, hcase⟩
    · subst h3; exact ih
    · obtain ⟨hid, hag2⟩ := retrieveOrder_traced s orderID o s2 hr hinv ih
      have hinv2 : BookInv { s2 with mOrderFinders := mapErase o.ID s2.mOrderFinders } :=
        @BookInv_of_sides s2 _ rfl rfl (retrieveOrder_inv s orderID o s2 hr hinv)
      rw [← hid] at hag2
      rcases hcase with ⟨hsd, he⟩ | ⟨hsd, he⟩
      · have h1 : s1 = (processNewBuyOrder _ _).1 := congrArg Prod.fst he
        rw [h1]
        exact processNewBuyOrder_traced _ _ hinv2 hsd hag2
      · have h1 : s1 = (processNewSelOrder _ _).1 := congrArg Prod.fst he
        rw [h1]
        exact processNewSelOrder_traced _ _ hinv2 hsd hag2
  | cancelThrows s orderID s1 _ hc ih =>
    rw [processCancel_throw s orderID s1 hc]; exact ih
  | modThrows s tokens s1 hs hm ih =>
    have hinv := reachable_inv s hs
    rcases processMod_throw s tokens s1 hm with h1 | ⟨orderID, o, s2, hr, h1⟩
    · rw [h1]; exact ih
    · obtain ⟨hid, hag2⟩ := retrieveOrder_traced s orderID o s2 hr hinv ih
      rw [h1, hid]
      exact hag2

theorem findersStored_of_traced (s : OrderBook) (hinv : BookInv s)
    (hag : Traced s.mOrderFinders (bookEntries s)) : FindersStored s := by
  intro id fd p hf
  have hm := hag.2 id _ hf
  unfold bookEntries at hm
  cases fd with
  | bid =>
    rcases List.mem_append.mp hm with hm | hm
    · obtain ⟨x, hx, o, ho, he⟩ := (mem_sideEntries _ _ _).mp hm
      simp only [Prod.mk.injEq, true_and] at he
      obtain ⟨x1, x2⟩ := x
      simp only at he ho
      obtain ⟨he1, he2⟩ := he
      subst he2
      exact ⟨x2, mapFind_of_mem bidLess_strict hinv.bidsSorted _ _ hx, o, ho, he1.symm⟩
    · obtain ⟨x, hx, o, ho, he⟩ := (mem_sideEntries _ _ _).mp hm
      simp at he
  | ask =>
    rcases List.mem_append.mp hm with hm | hm
    · obtain ⟨x, hx, o, ho, he⟩ := (mem_sideEntries _ _ _).mp hm
      simp at he
    · obtain ⟨x, hx, o, ho, he⟩ := (mem_sideEntries _ _ _).mp hm
      simp only [Prod.mk.injEq, true_and] at he
      obtain ⟨x1, x2⟩ := x
      simp only at he ho
      obtain ⟨he1, he2⟩ := he
      subst he2
      exact ⟨x2, mapFind_of_mem askLess_strict hinv.asksSorted _ _ hx, o, ho, he1.symm⟩

theorem repeatedIdBook_reachable : Reachable repeatedIdBook :=
  Reachable.newBuy _ _ (Reachable.newBuy _ _ Reachable.empty (by decide)) (by decide)

/-- C19 (locator lookups never fail, even with repeated ids).  In every state
reachable from the empty book by `processNewBuyOrder` on orders with Side
"BUY", `processNewSelOrder` on orders with another Side, `processCancel` and
`processMod`, with no assumption on the ids, every `mOrderFinders` entry
`id -> (finder, price)` has a level at that price on the finder's side
holding an order with that id.  Hence `retrieveOrder` of an id present in the
order finders returns normally (no `at` throws, `find_if` does not return
`end()`), `processCancel` always returns normally, and `processMod` never runs
into undefined behaviour. -/
theorem C19_lookups_never_fail (s : OrderBook) (h : Reachable s) :
    (∀ id fd p, mapFind id s.mOrderFinders = some (fd, p) →
      ∃ lvl, mapFind p (finderSide s fd) = some lvl ∧ ∃ o ∈ lvl, o.ID = id)
    ∧ (∀ id, mapFind id s.mOrderFinders ≠ none →
        ∃ o s2, retrieveOrder s id = Outcome.ok (o, s2))
    ∧ (∀ id, ∃ s1, processCancel s id = Outcome.ok s1)
    ∧ (∀ tokens, processMod s tokens ≠ Outcome.undefined) := by
  have hloc := findersStored_of_traced s (reachable_inv s h) (reachable_traced s h)
  refine ⟨hloc, fun id hin => retrieveOrder_ok_of_stored s id hin hloc, ?_, ?_⟩
  · intro id
    unfold processCancel
    by_cases hin : mapFind id s.mOrderFinders = none
    · simp only [hin, if_true]
      exact ⟨s, rfl⟩
    · obtain ⟨o, s2, hr⟩ := retrieveOrder_ok_of_stored s id hin hloc
      simp only [hin, if_false, hr]
      exact ⟨_, rfl⟩
  · intro tokens
    unfold processMod
    cases h1 : tokens.get? 1 with
    | none => simp
    | some orderID =>
      simp only
      by_cases hin : mapFind orderID s.mOrderFinders = none
      · simp only [hin, if_true]
        exact fun h => Outcome.noConfusion h
      · obtain ⟨o, s2, hr⟩ := retrieveOrder_ok_of_stored s orderID hin hloc
        simp only [hin, if_false, hr]
        cases tokens.get? 2 with
        | none => simp
        | some side =>
          cases tokens.get? 3 with
          | none => simp
          | some pt =>
            cases tokens.get? 4 with
            | none => simp
            | some qt =>
              simp only
              split_ifs <;> exact fun h => Outcome.noConfusion h

/-- Witness of C19: after `BUY GFD 10 100 x` and `BUY GFD 9 100 x` two orders
rest under the id `x`; the one entry of the order finders names the level at
9, which holds an order with that id, and the cancel of `x` returns
normally. -/
theorem C19_lookups_never_fail_witness :
    Reachable repeatedIdBook
    ∧ repeatedIdBook.mOrderFinders = [("x", (OrderFinder.bid, 9))]
    ∧ restingIds repeatedIdBook = ["x", "x"]
    ∧ (∃ s1, processCancel repeatedIdBook "x" = Outcome.ok s1)
    ∧ ((∀ id fd p, mapFind id repeatedIdBook.mOrderFinders = some (fd, p) →
        ∃ lvl, mapFind p (finderSide repeatedIdBook fd) = some lvl ∧ ∃ o ∈ lvl, o.ID = id)
      ∧ (∀ id, mapFind id repeatedIdBook.mOrderFinders ≠ none →
          ∃ o s2, retrieveOrder repeatedIdBook id = Outcome.ok (o, s2))
      ∧ (∀ id, ∃ s1, processCancel repeatedIdBook id = Outcome.ok s1)
      ∧ (∀ tokens, processMod repeatedIdBook tokens ≠ Outcome.undefined)) :=
  ⟨repeatedIdBook_reachable, by decide, by decide,
    (C19_lookups_never_fail repeatedIdBook repeatedIdBook_reachable).2.2.1 "x",
    C19_lookups_never_fail repeatedIdBook repeatedIdBook_reachable⟩

/-! ## A modify re-queues the order at the back of its level -/

theorem queueBook_reachablePublic : ReachablePublic queueBook :=
  ReachablePublic.newSel _ _ (ReachablePublic.newBuy _ _ (ReachablePublic.newBuy _ _
    (ReachablePublic.newBuy _ _ ReachablePublic.empty)))

/-- What `retrieveOrder` returns for a bid that shares its level. -/
theorem retrieveOrder_of_split_bid (s : OrderBook) (p : Nat)
    (pre post : order_vector_t) (X : Order)
    (hf : mapFind X.ID s.mOrderFinders = some (OrderFinder.bid, p))
    (hl : mapFind p s.mBids = some (pre ++ X :: post))
    (hpre : ∀ o ∈ pre, o.ID ≠ X.ID) (hother : pre ++ post ≠ []) :
    retrieveOrder s X.ID
      = Outcome.ok (X, { s with mBids := mapInsert bidLess p (pre ++ post) s.mBids }) := by
  have he : (pre ++ post).isEmpty = false := by
    cases h : pre ++ post with
    | nil => exact absurd h hother
    | cons a b => rfl
  unfold retrieveOrder
  rw [hf]
  simp only [bidOrderFinder, hl, retrieveOrderInLevelOrders_of_split pre post X hpre, he,
    Bool.false_eq_true, if_false]

/-- What `retrieveOrder` returns for an ask that shares its level. -/
theorem retrieveOrder_of_split_ask (s : OrderBook) (p : Nat)
    (pre post : order_vector_t) (X : Order)
    (hf : mapFind X.ID s.mOrderFinders = some (OrderFinder.ask, p))
    (hl : mapFind p s.mAsks = some (pre ++ X :: post))
    (hpre : ∀ o ∈ pre, o.ID ≠ X.ID) (hother : pre ++ post ≠ []) :
    retrieveOrder s X.ID
      = Outcome.ok (X, { s with mAsks := mapInsert askLess p (pre ++ post) s.mAsks }) := by
  have he : (pre ++ post).isEmpty = false := by
    cases h : pre ++ post with
    | nil => exact absurd h hother
    | cons a b => rfl
  unfold retrieveOrder
  rw [hf]
  simp only [askOrderFinder, hl, retrieveOrderInLevelOrders_of_split pre post X hpre, he,
    Bool.false_eq_true, if_false]

/-- C18 (modify loses time priority).  Take a book reachable by any sequence
of calls of the public member functions and an order `X` that rests in it with
at least one other order in its level: the order finders send the id of `X` to
the level at price `p` of one side, that level is `pre ++ X :: post` with
`pre ++ post` not empty, and `X` is the first order of the level with its id.
Take a MODIFY message for that id whose side token routes to the side `X` rests
on ("BUY" for a bid, anything else for an ask), whose price token read into
the Price of `X` leaves `p`, whose quantity token read into the Quantity of
`X` leaves a positive quantity, and whose price crosses no level of the
opposite side.  Then `processMod` returns normally without a trade, and
afterwards the level at `p` is `pre ++ post` followed by `X` with its new side
token and quantity: `X` is last, behind the orders that were ahead of it and
those that arrived after it. -/
theorem C18_modify_loses_time_priority (s : OrderBook) (hs : ReachablePublic s)
    (fd : OrderFinder) (p : Nat) (pre post : order_vector_t) (X : Order)
    (t0 sideTok priceTok qtyTok : String) (more : List String)
    (hf : mapFind X.ID s.mOrderFinders = some (fd, p))
    (hl : mapFind p (finderSide s fd) = some (pre ++ X :: post))
    (hpre : ∀ o ∈ pre, o.ID ≠ X.ID)
    (hother : pre ++ post ≠ [])
    (hside : (fd = OrderFinder.bid ∧ sideTok = "BUY") ∨ (fd = OrderFinder.ask ∧ sideTok ≠ "BUY"))
    (hprice : readUInt64 priceTok X.Price = p)
    (hq : 0 < readUInt64 qtyTok X.Quantity)
    (hnc : (fd = OrderFinder.bid → ∀ x ∈ s.mAsks, p < x.1)
      ∧ (fd = OrderFinder.ask → ∀ x ∈ s.mBids, x.1 < p)) :
    ∃ s1,
      processMod s (t0 :: X.ID :: sideTok :: priceTok :: qtyTok :: more) = Outcome.ok (s1, [])
      ∧ mapFind p (finderSide s1 fd)
          = some (pre ++ post
              ++ [{ X with Side := sideTok, Price := p, Quantity := readUInt64 qtyTok X.Quantity }])
      ∧ mapFind X.ID s1.mOrderFinders = some (fd, p)
      ∧ (∀ fd1, fd1 ≠ fd → finderSide s1 fd1 = finderSide s fd1) := by
  have hg := reachablePublic_allGFD s hs
  have hin : mapFind X.ID s.mOrderFinders ≠ none := by rw [hf]; exact Option.noConfusion
  subst hprice
  rcases hside with ⟨hfd, hsd⟩ | ⟨hfd, hsd⟩
  · subst hfd
    have hr := retrieveOrder_of_split_bid s _ pre post X hf hl hpre hother
    have hX : X.TimeInForce = "GFD" := (retrieveOrder_allGFD s X.ID X _ hr hg.1 hg.2).2.2
    have hm := processMod_known s t0 X.ID sideTok priceTok qtyTok more X _ hin hr
    have hno : ∀ x ∈ s.mAsks,
        newOrderWillMatchBook
          { X with Side := sideTok, Price := readUInt64 priceTok X.Price,
                   Quantity := readUInt64 qtyTok X.Quantity } (readUInt64 priceTok X.Price) x.1 = false := by
      intro x hx
      have h1 := hnc.1 rfl x hx
      simp only [newOrderWillMatchBook, hsd, if_true, decide_eq_false_iff_not]
      omega
    have htm := tryMatchOrder_first_noCross
      { X with Side := sideTok, Price := readUInt64 priceTok X.Price, Quantity := readUInt64 qtyTok X.Quantity }
      (mapErase X.ID s.mOrderFinders) s.mAsks hno
    have hrest := processNewBuyOrder_rest
      { mBids := mapInsert bidLess (readUInt64 priceTok X.Price) (pre ++ post) s.mBids,
        mAsks := s.mAsks, mOrderFinders := mapErase X.ID s.mOrderFinders }
      { X with Side := sideTok, Price := readUInt64 priceTok X.Price, Quantity := readUInt64 qtyTok X.Quantity }
      hX (by rw [htm]; exact hq)
    rw [htm] at hrest
    rw [hm, if_pos hsd]
    refine ⟨_, congrArg Outcome.ok hrest, ?_, ?_, ?_⟩
    · simp only [finderSide]
      rw [mapFind_pushBackAt_self, mapFind_mapInsert_self]
      rfl
    · exact mapFind_mapInsert_self _ _ _ _
    · intro fd1 h1
      cases fd1 with
      | bid => exact absurd rfl h1
      | ask => rfl
  · subst hfd
    have hr := retrieveOrder_of_split_ask s _ pre post X hf hl hpre hother
    have hX : X.TimeInForce = "GFD" := (retrieveOrder_allGFD s X.ID X _ hr hg.1 hg.2).2.2
    have hm := processMod_known s t0 X.ID sideTok priceTok qtyTok more X _ hin hr
    have hno : ∀ x ∈ s.mBids,
        newOrderWillMatchBook
          { X with Side := sideTok, Price := readUInt64 priceTok X.Price,
                   Quantity := readUInt64 qtyTok X.Quantity } (readUInt64 priceTok X.Price) x.1 = false := by
      intro x hx
      have h1 := hnc.2 rfl x hx
      simp only [newOrderWillMatchBook, hsd, if_false, decide_eq_false_iff_not]
      omega
    have htm := tryMatchOrder_first_noCross
      { X with Side := sideTok, Price := readUInt64 priceTok X.Price, Quantity := readUInt64 qtyTok X.Quantity }
      (mapErase X.ID s.mOrderFinders) s.mBids hno
    have hrest := processNewSelOrder_rest
      { mBids := s.mBids,
        mAsks := mapInsert askLess (readUInt64 priceTok X.Price) (pre ++ post) s.mAsks,
        mOrderFinders := mapErase X.ID s.mOrderFinders }
      { X with Side := sideTok, Price := readUInt64 priceTok X.Price, Quantity := readUInt64 qtyTok X.Quantity }
      hX (by rw [htm]; exact hq)
    rw [htm] at hrest
    rw [hm, if_neg hsd]
    refine ⟨_, congrArg Outcome.ok hrest, ?_, ?_, ?_⟩
    · simp only [finderSide]
      rw [mapFind_pushBackAt_self, mapFind_mapInsert_self]
      rfl
    · exact mapFind_mapInsert_self _ _ _ _
    · intro fd1 h1
      cases fd1 with
      | bid => rfl
      | ask => exact absurd rfl h1

/-- Witness of C18: in the book with `a`, `b`, `c` queued at 10 and an ask at
12, `MODIFY b BUY 10 250` leaves the level at 10 as `a`, `c`, `b`. -/
theorem C18_modify_loses_time_priority_witness :
    ReachablePublic queueBook
    ∧ mapFind 10 queueBook.mBids
        = some [{ Side := "BUY", TimeInForce := "GFD", Price := 10, Quantity := 100, ID := "a" },
                queueB,
                { Side := "BUY", TimeInForce := "GFD", Price := 10, Quantity := 300, ID := "c" }]
    ∧ ∃ s1,
        processMod queueBook ["MODIFY", "b", "BUY", "10", "250"] = Outcome.ok (s1, [])
        ∧ mapFind 10 (finderSide s1 OrderFinder.bid)
            = some ([{ Side := "BUY", TimeInForce := "GFD", Price := 10, Quantity := 100,
                       ID := "a" }]
                ++ [{ Side := "BUY", TimeInForce := "GFD", Price := 10, Quantity := 300,
                      ID := "c" }]
                ++ [{ queueB with Side := "BUY", Price := 10, Quantity := readUInt64 "250" queueB.Quantity }])
        ∧ mapFind queueB.ID s1.mOrderFinders = some (OrderFinder.bid, 10)
        ∧ (∀ fd1, fd1 ≠ OrderFinder.bid → finderSide s1 fd1 = finderSide queueBook fd1) :=
  ⟨queueBook_reachablePublic, by decide,
    C18_modify_loses_time_priority queueBook queueBook_reachablePublic OrderFinder.bid 10
      [{ Side := "BUY", TimeInForce := "GFD", Price := 10, Quantity := 100, ID := "a" }]
      [{ Side := "BUY", TimeInForce := "GFD", Price := 10, Quantity := 300, ID := "c" }]
      queueB "MODIFY" "BUY" "10" "250" [] (by decide) (by decide) (by decide) (by decide)
      (Or.inl ⟨rfl, rfl⟩) (by decide) (by decide) ⟨fun _ => by decide, fun h => by cases h⟩⟩

/-! ## An incoming order with quantity zero -/

/-- With nothing to fill, `matchOrder` prints one match of size 0 against the
oldest order and changes nothing. -/
theorem fillLevel_zero (n : Order) (f : order_map_t) (b : Order) (rest : order_vector_t)
    (hn : n.Quantity = 0) (hb : 0 < b.Quantity) :
    fillLevel n f (b :: rest)
      = { newOrder := n, bookLevel := b :: rest, finders := f,
          trades := [printMatch b n 0] } := by
  have hm : matchSizeOf b n = 0 := by
    unfold matchSizeOf
    rw [hn, if_pos (Nat.zero_le _)]
  have hsb : sub64 b.Quantity 0 = b.Quantity := by
    rw [sub64_of_le (Nat.zero_le _)]; rfl
  have hsn : sub64 n.Quantity 0 = 0 := by
    rw [sub64_of_le (Nat.zero_le _), hn]
  have hb1 : ¬ b.Quantity = 0 := by omega
  obtain ⟨nS, nT, nP, nQ, nI⟩ := n
  obtain ⟨bS, bT, bP, bQ, bI⟩ := b
  simp only at hn hsb hsn hb1
  subst hn
  simp only [fillLevel, hm, hsb, hsn, hb1, if_false]

/-- The same for `tryMatchOrder`, when the first level is let match. -/
theorem tryMatchOrder_zero (n : Order) (f : order_map_t) (p : Nat) (b : Order)
    (lvl : order_vector_t) (rest : book_t)
    (hw : newOrderWillMatchBook n n.Price p = true)
    (hn : n.Quantity = 0) (hb : 0 < b.Quantity) :
    tryMatchOrder n f ((p, b :: lvl) :: rest)
      = { newOrder := n, bookSide := (p, b :: lvl) :: rest, finders := f,
          trades := [printMatch b n 0] } := by
  unfold tryMatchOrder
  simp only [tryMatchOrderLoop, hw, if_true, matchOrder_eq_fillLevel,
    fillLevel_zero n f b lvl hn hb, hn, List.nil_append, List.isEmpty_cons,
    Bool.false_eq_true, if_false, List.drop_zero]

/-- With a quantity to fill and every order of the level positive, every match
`matchOrder` prints has a positive size. -/
theorem fillLevel_trades_positive (n : Order) (f : order_map_t) (lvl : order_vector_t)
    (hn : 0 < n.Quantity) (hl : ∀ o ∈ lvl, 0 < o.Quantity) :
    ∀ t ∈ (fillLevel n f lvl).trades, 0 < t.bookQuantity ∧ 0 < t.newQuantity := by
  induction lvl generalizing n f with
  | nil => intro t ht; simp [fillLevel] at ht
  | cons b rest ih =>
    have hb : 0 < b.Quantity := hl b (List.mem_cons_self _ _)
    have hm : 0 < matchSizeOf b n := by
      unfold matchSizeOf
      split_ifs
      · exact hn
      · exact hb
    have hpm : 0 < (printMatch b n (matchSizeOf b n)).bookQuantity
        ∧ 0 < (printMatch b n (matchSizeOf b n)).newQuantity := ⟨hm, hm⟩
    intro t ht
    simp only [fillLevel] at ht
    by_cases h1 : sub64 b.Quantity (matchSizeOf b n) = 0
    · by_cases h2 : sub64 n.Quantity (matchSizeOf b n) = 0
      · simp only [h1, h2, if_true, List.mem_singleton] at ht
        rw [ht]; exact hpm
      · simp only [h1, h2, if_true, if_false, List.mem_cons] at ht
        rcases ht with ht | ht
        · rw [ht]; exact hpm
        · exact ih _ _ (Nat.pos_of_ne_zero h2)
            (fun o ho => hl o (List.mem_cons_of_mem _ ho)) t ht
    · simp only [h1, if_false, List.mem_singleton] at ht
      rw [ht]; exact hpm

/-- The same for the loop of `tryMatchOrder`. -/
theorem tryMatchOrderLoop_trades_positive (w : Nat → Nat → Bool) (n : Order) (f : order_map_t)
    (tr : List Trade) (vis : book_t) (e : Nat) (suf : book_t)
    (hn : 0 < n.Quantity) (hs : QuantitiesPositive suf)
    (htr : ∀ t ∈ tr, 0 < t.bookQuantity ∧ 0 < t.newQuantity) :
    ∀ t ∈ (tryMatchOrderLoop w n f tr vis e suf).1.trades,
      0 < t.bookQuantity ∧ 0 < t.newQuantity := by
  induction suf generalizing n f tr vis e with
  | nil => intro t ht; exact htr t (by simpa [tryMatchOrderLoop] using ht)
  | cons y rest ih =>
    obtain ⟨p, lvl⟩ := y
    have hrest : QuantitiesPositive rest := fun x hx => hs x (List.mem_cons_of_mem _ hx)
    have hlvl : ∀ t ∈ (matchOrder n f lvl).trades, 0 < t.bookQuantity ∧ 0 < t.newQuantity := by
      rw [matchOrder_eq_fillLevel]
      exact fillLevel_trades_positive n f lvl hn (hs (p, lvl) (List.mem_cons_self _ _))
    have happ : ∀ t ∈ tr ++ (matchOrder n f lvl).trades,
        0 < t.bookQuantity ∧ 0 < t.newQuantity := by
      intro t ht
      rcases List.mem_append.mp ht with ht | ht
      · exact htr t ht
      · exact hlvl t ht
    simp only [tryMatchOrderLoop]
    by_cases h1 : w n.Price p = true
    · simp only [h1, if_true]
      by_cases h2 : (matchOrder n f lvl).newOrder.Quantity = 0
      · simp only [h2, if_true]
        exact happ
      · simp only [h2, if_false]
        exact ih _ _ _ _ _ (Nat.pos_of_ne_zero h2) hrest happ
    · simp only [h1, if_false]
      exact ih _ _ _ _ _ hn hrest htr

theorem tryMatchOrder_trades_positive (n : Order) (f : order_map_t) (book : book_t)
    (hn : 0 < n.Quantity) (hs : QuantitiesPositive book) :
    ∀ t ∈ (tryMatchOrder n f book).trades, 0 < t.bookQuantity ∧ 0 < t.newQuantity := by
  intro t ht
  unfold tryMatchOrder at ht
  simp only at ht
  exact tryMatchOrderLoop_trades_positive _ n f [] [] 0 book hn hs
    (fun t h => by simp at h) t ht

/-- C21 (zero-quantity incoming order).  Take a book and an incoming order
with Quantity 0.  When the ask side is not empty, its first (best) level is
`oldest :: later` at `bestPrice`, every resting ask has a positive quantity,
the order has Side "BUY" and its price is at least `bestPrice`, then
`processNewBuyOrder` prints exactly one trade, against `oldest` with matched
size 0, and returns the book with `mBids`, `mAsks` and `mOrderFinders` as they
were; the same holds for `processNewSelOrder`, an order whose Side is not
"BUY" and the first level of the bid side when the price of the order is at
most `bestPrice`.  For an incoming order with a positive Quantity and an
opposite side whose resting orders all have a positive quantity, every trade
printed has a positive matched size. -/
theorem C21_zero_quantity_incoming (s : OrderBook) (n : Order) :
    (∀ bestPrice oldest later worse,
        s.mAsks = (bestPrice, oldest :: later) :: worse →
        (∀ x ∈ s.mAsks, ∀ o ∈ x.2, 0 < o.Quantity) →
        n.Side = "BUY" → n.Quantity = 0 → bestPrice ≤ n.Price →
        processNewBuyOrder s n
          = (s, [{ bookID := oldest.ID, bookPrice := oldest.Price, bookQuantity := 0,
                   newID := n.ID, newPrice := n.Price, newQuantity := 0 }]))
    ∧ (∀ bestPrice oldest later worse,
        s.mBids = (bestPrice, oldest :: later) :: worse →
        (∀ x ∈ s.mBids, ∀ o ∈ x.2, 0 < o.Quantity) →
        n.Side ≠ "BUY" → n.Quantity = 0 → n.Price ≤ bestPrice →
        processNewSelOrder s n
          = (s, [{ bookID := oldest.ID, bookPrice := oldest.Price, bookQuantity := 0,
                   newID := n.ID, newPrice := n.Price, newQuantity := 0 }]))
    ∧ ((∀ x ∈ s.mAsks, ∀ o ∈ x.2, 0 < o.Quantity) → 0 < n.Quantity →
        ∀ t ∈ (processNewBuyOrder s n).2, 0 < t.bookQuantity ∧ 0 < t.newQuantity)
    ∧ ((∀ x ∈ s.mBids, ∀ o ∈ x.2, 0 < o.Quantity) → 0 < n.Quantity →
        ∀ t ∈ (processNewSelOrder s n).2, 0 < t.bookQuantity ∧ 0 < t.newQuantity) := by
  refine ⟨?_, ?_, ?_, ?_⟩
  · intro bestPrice oldest later worse hbook hpos hside hq hprice
    have hw : newOrderWillMatchBook n n.Price bestPrice = true := by
      simp only [newOrderWillMatchBook, hside, if_true, decide_eq_true_eq]
      exact hprice
    have hb : 0 < oldest.Quantity :=
      hpos (bestPrice, oldest :: later) (by rw [hbook]; exact List.mem_cons_self _ _)
        oldest (List.mem_cons_self _ _)
    have ht := tryMatchOrder_zero n s.mOrderFinders bestPrice oldest later worse hw hq hb
    rw [← hbook] at ht
    rw [processNewBuyOrder_discard s n (Or.inr (by rw [ht]; exact hq)), ht]
    rfl
  · intro bestPrice oldest later worse hbook hpos hside hq hprice
    have hw : newOrderWillMatchBook n n.Price bestPrice = true := by
      simp only [newOrderWillMatchBook, hside, if_false, decide_eq_true_eq]
      exact hprice
    have hb : 0 < oldest.Quantity :=
      hpos (bestPrice, oldest :: later) (by rw [hbook]; exact List.mem_cons_self _ _)
        oldest (List.mem_cons_self _ _)
    have ht := tryMatchOrder_zero n s.mOrderFinders bestPrice oldest later worse hw hq hb
    rw [← hbook] at ht
    rw [processNewSelOrder_discard s n (Or.inr (by rw [ht]; exact hq)), ht]
    rfl
  · intro hpos hq
    rw [(processNewBuyOrder_asks_trades s n).2]
    exact tryMatchOrder_trades_positive n s.mOrderFinders s.mAsks hq hpos
  · intro hpos hq
    rw [(processNewSelOrder_bids_trades s n).2]
    exact tryMatchOrder_trades_positive n s.mOrderFinders s.mBids hq hpos

/-- Witness of C21: in the book with a bid of 200 at 10 and an ask of 100 at
12, `BUY GFD 12 0 zero` prints `TRADE order3 12 0 zero 12 0`,
`SELL GFD 10 0 zero` prints `TRADE order2 10 0 zero 10 0`, both leave the book
as it was, and the trade of `BUY IOC 12 150 order6` has size 100. -/
theorem C21_zero_quantity_incoming_witness :
    exampleBook.mAsks = (12, exampleSell :: []) :: []
    ∧ exampleBook.mBids = (10, exampleBuy :: []) :: []
    ∧ processNewBuyOrder exampleBook zeroBuy
        = (exampleBook, [{ bookID := "order3", bookPrice := 12, bookQuantity := 0,
                           newID := "zero", newPrice := 12, newQuantity := 0 }])
    ∧ processNewSelOrder exampleBook zeroSell
        = (exampleBook, [{ bookID := "order2", bookPrice := 10, bookQuantity := 0,
                           newID := "zero", newPrice := 10, newQuantity := 0 }])
    ∧ (processNewBuyOrder exampleBook exampleBuy6).2
        = [{ bookID := "order3", bookPrice := 12, bookQuantity := 100,
             newID := "order6", newPrice := 12, newQuantity := 100 }]
    ∧ (∀ t ∈ (processNewBuyOrder exampleBook exampleBuy6).2,
        0 < t.bookQuantity ∧ 0 < t.newQuantity) :=
  ⟨by decide, by decide,
    (C21_zero_quantity_incoming exampleBook zeroBuy).1 12 exampleSell [] [] (by decide)
      (by decide) (by decide) (by decide) (by decide),
    (C21_zero_quantity_incoming exampleBook zeroSell).2.1 10 exampleBuy [] [] (by decide)
      (by decide) (by decide) (by decide) (by decide),
    by decide,
    (C21_zero_quantity_incoming exampleBook exampleBuy6).2.2.1 (by decide) (by decide)⟩

/-! ## A repeated id leaves an order that cannot be removed -/

theorem processCancel_orphanBook (orderID : String) :
    processCancel orphanBook orderID = Outcome.ok orphanBook := by
  unfold processCancel
  simp [orphanBook, mapFind]

theorem processMod_orphanBook (tokens : List String) :
    processMod orphanBook tokens = Outcome.ok (orphanBook, [])
    ∨ processMod orphanBook tokens = Outcome.outOfRange orphanBook := by
  unfold processMod
  cases tokens.get? 1 with
  | none => exact Or.inr rfl
  | some orderID =>
    left
    simp [orphanBook, mapFind]

theorem bookAfterCall_orphanBook (c : CancelOrMod) :
    bookAfterCall orphanBook c = some orphanBook := by
  cases c with
  | cancel orderID => simp only [bookAfterCall, processCancel_orphanBook]
  | mod tokens =>
    rcases processMod_orphanBook tokens with h | h
    · simp only [bookAfterCall, h]
    · simp only [bookAfterCall, h]

theorem bookAfterCalls_orphanBook (calls : List CancelOrMod) :
    bookAfterCalls orphanBook calls = some orphanBook := by
  induction calls with
  | nil => rfl
  | cons c rest ih => simp only [bookAfterCalls, bookAfterCall_orphanBook, ih]

/-- C22 (a repeated id orphans an order).  On the empty book,
`BUY GFD 10 100 x` sets the order finder of `x` to the bid level at 10, and
`BUY GFD 9 100 x` overwrites it with the bid level at 9: both orders rest in
`mBids` and the first is stored at 10 while its id maps to 9, so that
`checkBookAndAddIds` throws on `mBids` (and `checkFullFinderConsistency`
throws).  `processCancel` of `x` then removes the second order and the entry:
the first order still rests at 10 and the order finders are empty.  From that
book every `processCancel` returns the book as it is, every `processMod`
returns it as it is without a trade or throws `std::out_of_range` leaving it
as it is, and so does every sequence of such calls: none removes the first
order. -/
theorem C22_repeated_id_orphans :
    Reachable repeatedIdBook
    ∧ (processNewBuyOrder OrderBook.empty firstX).1.mOrderFinders
        = [("x", (OrderFinder.bid, 10))]
    ∧ repeatedIdBook = (processNewBuyOrder (processNewBuyOrder OrderBook.empty firstX).1 secondX).1
    ∧ repeatedIdBook.mOrderFinders = [("x", (OrderFinder.bid, 9))]
    ∧ repeatedIdBook.mBids = [(10, [firstX]), (9, [secondX])]
    ∧ checkBookAndAddIds repeatedIdBook.mOrderFinders repeatedIdBook.mBids [] = none
    ∧ checkFullFinderConsistency repeatedIdBook = true
    ∧ processCancel repeatedIdBook "x" = Outcome.ok orphanBook
    ∧ mapFind 10 orphanBook.mBids = some [firstX]
    ∧ mapFind "x" orphanBook.mOrderFinders = none
    ∧ (∀ orderID, processCancel orphanBook orderID = Outcome.ok orphanBook)
    ∧ (∀ tokens, processMod orphanBook tokens = Outcome.ok (orphanBook, [])
        ∨ processMod orphanBook tokens = Outcome.outOfRange orphanBook)
    ∧ (∀ t0 more, processMod orphanBook (t0 :: "x" :: more) = Outcome.ok (orphanBook, []))
    ∧ (∀ calls, bookAfterCalls orphanBook calls = some orphanBook) := by
  refine ⟨repeatedIdBook_reachable, by decide, by decide, by decide, by decide, by decide,
    by decide, by decide, by decide, by decide, processCancel_orphanBook,
    processMod_orphanBook, ?_, bookAfterCalls_orphanBook⟩
  intro t0 more
  unfold processMod
  simp [orphanBook, mapFind]

/-! ## Reading the numbers of a message -/

/-- The constructor on the first message of `main`, and on the message
`BUY GFD  100 x` whose price token is empty: the price keeps the `-1` it was
initialised with. -/
theorem Order.ofTokens_examples :
    Order.ofTokens ["BUY", "GFD", "11", "100", "order1"]
      = some { Side := "BUY", TimeInForce := "GFD", Price := 11, Quantity := 100,
               ID := "order1" }
    ∧ Order.ofTokens ["BUY", "GFD", "", "100", "x"]
      = some { Side := "BUY", TimeInForce := "GFD", Price := 18446744073709551615,
               Quantity := 100, ID := "x" }
    ∧ Order.ofTokens ["BUY", "GFD", "11", "100"] = none := by
  decide

/-- Values left by `std::stringstream(token) >> value` in a variable that
holds 7: a numeral, a blank token, a token without a digit, a negative
numeral, and a numeral that does not fit. -/
theorem readUInt64_examples :
    readUInt64 "250" 7 = 250
    ∧ readUInt64 "" 7 = 7
    ∧ readUInt64 "\t" 7 = 7
    ∧ readUInt64 "abc" 7 = 0
    ∧ readUInt64 "12abc" 7 = 12
    ∧ readUInt64 "-1" 7 = 18446744073709551615
    ∧ readUInt64 "99999999999999999999" 7 = 18446744073709551615 := by
  decide

end MatchingEngine
